import Mathlib

/-!
# libndef: NDEF record, message and TLV codec

A shallow embedding of `libndef` (`ndefrecordtype.cpp`, `ndefrecord.cpp`,
`ndefmessage.cpp`, `tlv.cpp`) and theorems about it.

Modelling conventions.

* A `QByteArray` is a list of bytes, each byte a natural number below 256.
* A `QString` is a list of UTF-16 code units.
* `char` is a signed 8-bit type (the x86 ABI): `QByteArray::at` yields a value
  in `-128 .. 127`, see `toChar`.
* A cast to an unsigned type of `w` bits is written `% 2 ^ w`.
* A `char` that is turned into a `QChar` is read as Latin-1 (`QChar(char)`): the
  code unit is `uchar(c)`, see `QString.ofChar`.
* A read outside a `QByteArray` (`QByteArray::at` with a bad index) has no
  defined result; functions that can perform one return `Option`.
* A `QDataStream` opened for reading on a `QBuffer` is the list of bytes that
  are still unread. Reading past the end yields zero, as Qt does.
* Loops that are not structurally recursive take a fuel argument and return
  `none` when the fuel runs out.
-/

namespace LibNdef

/-! ## Qt primitives -/

abbrev QByteArray := List Nat

abbrev QString := List Nat

/-- Value of a byte read as a signed `char`. -/
def toChar (b : Nat) : Int :=
  if b % 256 < 128 then (b % 256 : Nat) else ((b % 256 : Nat) : Int) - 256

/-- Conversion of an integer to an unsigned type of `w` bits. -/
def toUnsigned (w : Nat) (i : Int) : Nat :=
  (i % (2 ^ w : Nat)).toNat

/-- Conversion of an integer to a signed 32-bit `int`. -/
def toInt32 (i : Int) : Int :=
  if toUnsigned 32 i < 2 ^ 31 then (toUnsigned 32 i : Int) else (toUnsigned 32 i : Int) - 2 ^ 32

/-- The call `QByteArray::at(i)`: the byte at index `i`, undefined outside the array. -/
def QByteArray.at (a : QByteArray) (i : Nat) : Option Nat :=
  a.get? i

/-- The call `QByteArray::right(len)`: the last `len` bytes; the whole array when
`len` is not smaller than the size, nothing when `len` is negative. -/
def QByteArray.right (a : QByteArray) (len : Int) : QByteArray :=
  if len ≥ (a.length : Int) then a
  else if len < 0 then []
  else a.drop (a.length - len.toNat)

/-- The call `QByteArray::left(len)`: the first `len` bytes; the whole array when
`len` is not smaller than the size, nothing when `len` is negative. -/
def QByteArray.left (a : QByteArray) (len : Int) : QByteArray :=
  if len ≥ (a.length : Int) then a
  else if len < 0 then []
  else a.take len.toNat

/-- The call `QByteArray::mid(pos, len)` for non-negative arguments. -/
def QByteArray.mid (a : QByteArray) (pos len : Nat) : QByteArray :=
  (a.drop pos).take len

/-- The call `QByteArray::remove(0, len)`. -/
def QByteArray.remove0 (a : QByteArray) (len : Nat) : QByteArray :=
  a.drop len

/-- The call `QString::left(n)` for a non-negative `n`. -/
def QString.left (s : QString) (n : Nat) : QString :=
  s.take n

/-- The call `QString::right(n)`: the last `n` code units. -/
def QString.right (s : QString) (n : Int) : QString :=
  if n ≥ (s.length : Int) then s
  else if n < 0 then []
  else s.drop (s.length - n.toNat)

/-- The call `QString::startsWith(p)`. -/
def QString.startsWith (s p : QString) : Bool :=
  p.isPrefixOf s

/-- The UTF-8 bytes of one code point. -/
def utf8OfCodePoint (u : Nat) : QByteArray :=
  if u < 0x80 then [u]
  else if u < 0x800 then [0xC0 ||| (u >>> 6), 0x80 ||| (u &&& 0x3F)]
  else if u < 0x10000 then
    [0xE0 ||| (u >>> 12), 0x80 ||| ((u >>> 6) &&& 0x3F), 0x80 ||| (u &&& 0x3F)]
  else
    [0xF0 ||| (u >>> 18), 0x80 ||| ((u >>> 12) &&& 0x3F),
     0x80 ||| ((u >>> 6) &&& 0x3F), 0x80 ||| (u &&& 0x3F)]

def isHighSurrogate (c : Nat) : Bool := 0xD800 ≤ c && c < 0xDC00

def isLowSurrogate (c : Nat) : Bool := 0xDC00 ≤ c && c < 0xE000

/-- The call `QString::toUtf8()`: the UTF-8 encoding of the code units; a
surrogate pair is one code point and an unpaired surrogate is written `?`. -/
def QString.toUtf8 : QString → QByteArray
  | [] => []
  | [c] => if isHighSurrogate c || isLowSurrogate c then [0x3F] else utf8OfCodePoint c
  | c :: d :: rest =>
    if isHighSurrogate c && isLowSurrogate d then
      utf8OfCodePoint (0x10000 + ((c - 0xD800) <<< 10) + (d - 0xDC00)) ++ QString.toUtf8 rest
    else if isHighSurrogate c || isLowSurrogate c then
      0x3F :: QString.toUtf8 (d :: rest)
    else
      utf8OfCodePoint c ++ QString.toUtf8 (d :: rest)

/-- The call `QString::toLatin1()`: a code unit above 255 is written `?`. -/
def QString.toLatin1 (s : QString) : QByteArray :=
  s.map (fun c => if c < 256 then c else 0x3F)

/-- The code units of an ASCII string literal. -/
def ascii (s : String) : QString :=
  s.toList.map Char.toNat

/-- The conversion of a `char` to a one-character `QString` (`QString(c)`,
`value += c`): the character is read as Latin-1, so the code unit is
`uchar(c)`. -/
def QString.ofChar (c : Nat) : QString :=
  [c % 2 ^ 8]

/-! ### `QDataStream` -/

/-- Writing a `quint8` to a stream. -/
def writeU8 (x : Nat) : QByteArray :=
  [x % 2 ^ 8]

/-- Writing a `quint32` to a stream (big-endian, the `QDataStream` default). -/
def writeU32 (x : Nat) : QByteArray :=
  let v := x % 2 ^ 32
  [v / 2 ^ 24, (v / 2 ^ 16) % 256, (v / 2 ^ 8) % 256, v % 256]

/-- Reading a `quint8`: the next byte, or zero at the end of the data. -/
def readU8 (s : QByteArray) : Nat × QByteArray :=
  match s with
  | [] => (0, [])
  | b :: rest => (b, rest)

/-- Reading a `quint32`: the next four bytes big-endian, or zero (and the rest
consumed) when fewer than four remain. -/
def readU32 (s : QByteArray) : Nat × QByteArray :=
  match s with
  | a :: b :: c :: d :: rest => (a * 2 ^ 24 + b * 2 ^ 16 + c * 2 ^ 8 + d, rest)
  | _ => (0, [])

/-- The call `QDataStream::skipRawData(len)`: skips up to `len` bytes. -/
def skipRawData (s : QByteArray) (len : Nat) : QByteArray :=
  s.drop len

/-- The call `QIODevice::read(maxSize)`: up to `maxSize` bytes and the rest. -/
def bufferRead (s : QByteArray) (maxSize : Nat) : QByteArray × QByteArray :=
  (s.take maxSize, s.drop maxSize)

/-! ## `NDEFRecordType` -/

inductive NDEFRecordTypeId where
  | NDEF_Empty
  | NDEF_NfcForumRTD
  | NDEF_MIME
  | NDEF_URI
  | NDEF_ExternalRTD
  | NDEF_Unknown
  | NDEF_Unchanged
  | NDEF_Invalid
  deriving DecidableEq, Repr

open NDEFRecordTypeId

/-- Numeric value of a type-name-format enumerator. -/
def NDEFRecordTypeId.toNat : NDEFRecordTypeId → Nat
  | NDEF_Empty => 0
  | NDEF_NfcForumRTD => 1
  | NDEF_MIME => 2
  | NDEF_URI => 3
  | NDEF_ExternalRTD => 4
  | NDEF_Unknown => 5
  | NDEF_Unchanged => 6
  | NDEF_Invalid => 7

/-- The cast `(NDEFRecordTypeId)tnf` of a three-bit value. -/
def NDEFRecordTypeId.ofTnf (n : Nat) : NDEFRecordTypeId :=
  match n % 8 with
  | 0 => NDEF_Empty
  | 1 => NDEF_NfcForumRTD
  | 2 => NDEF_MIME
  | 3 => NDEF_URI
  | 4 => NDEF_ExternalRTD
  | 5 => NDEF_Unknown
  | 6 => NDEF_Unchanged
  | _ => NDEF_Invalid

structure NDEFRecordType where
  m_id : NDEFRecordTypeId
  m_name : QByteArray
  deriving DecidableEq, Repr

namespace NDEFRecordType

/-- The constructor `NDEFRecordType(id, name)`: an Empty type has no name. -/
def new (id : NDEFRecordTypeId) (name : QByteArray) : NDEFRecordType :=
  match id with
  | NDEF_Empty => ⟨id, []⟩
  | _ => ⟨id, name⟩

def id (t : NDEFRecordType) : NDEFRecordTypeId := t.m_id

def name (t : NDEFRecordType) : QByteArray := t.m_name

/-- The comparison `operator==`. -/
def eq (self type : NDEFRecordType) : Bool :=
  decide (type.id = self.m_id) && decide (type.name = self.m_name)

/-- The comparison `operator!=`. -/
def ne (self type : NDEFRecordType) : Bool :=
  decide (type.id ≠ self.m_id) || decide (type.name ≠ self.m_name)

/-- The loop of `fromByteArray` that reads `type_length` bytes of type name. -/
def readTypeName : Nat → QByteArray → QByteArray → QByteArray
  | 0, _, type_name => type_name
  | n + 1, stream, type_name =>
    let r := readU8 stream
    readTypeName n r.2 (type_name ++ [r.1])

/-- The function `NDEFRecordType::fromByteArray(data, offset)`. -/
def fromByteArray (data : QByteArray) (offset : Int) : NDEFRecordType :=
  let total_size : Nat := toUnsigned 32 ((data.length : Int) - offset)
  if total_size > 2 then
    let data_buffer := QByteArray.right data (toInt32 total_size)
    -- 1) TNF & flags.
    let r0 := readU8 data_buffer
    let tnf := r0.1 &&& 0x07
    let has_id : Bool := r0.1 &&& 0x08 != 0
    let short_record : Bool := r0.1 &&& 0x10 != 0
    -- 2) Type length.
    let r1 := readU8 r0.2
    let type_length := r1.1 % 2 ^ 8
    -- 3) Payload length.
    let s2 := skipRawData r1.2 (if short_record then 1 else 4)
    -- 4) ID Length.
    let s3 := skipRawData s2 (if has_id then 1 else 0)
    -- 5) Type.
    let type_name := readTypeName type_length s3 []
    NDEFRecordType.new (NDEFRecordTypeId.ofTnf tnf) type_name
  else
    NDEFRecordType.new NDEF_Invalid []

def textRecordType : NDEFRecordType := NDEFRecordType.new NDEF_NfcForumRTD (ascii "T")

def uriRecordType : NDEFRecordType := NDEFRecordType.new NDEF_NfcForumRTD (ascii "U")

def smartPosterRecordType : NDEFRecordType := NDEFRecordType.new NDEF_NfcForumRTD (ascii "Sp")

def genericControlRecordType : NDEFRecordType := NDEFRecordType.new NDEF_NfcForumRTD (ascii "Gc")

def spActionRecordType : NDEFRecordType := NDEFRecordType.new NDEF_NfcForumRTD (ascii "act")

def spSizeRecordType : NDEFRecordType := NDEFRecordType.new NDEF_NfcForumRTD (ascii "s")

def spTypeRecordType : NDEFRecordType := NDEFRecordType.new NDEF_NfcForumRTD (ascii "t")

def gcTargetRecordType : NDEFRecordType := NDEFRecordType.new NDEF_NfcForumRTD (ascii "t")

def gcActionRecordType : NDEFRecordType := NDEFRecordType.new NDEF_NfcForumRTD (ascii "a")

def gcDataRecordType : NDEFRecordType := NDEFRecordType.new NDEF_NfcForumRTD (ascii "d")

end NDEFRecordType

/-! ## `NDEFRecord` -/

/-- Flag `NDEF_IL`: the ID_LENGTH field is present. -/
def NDEF_IL : Nat := 0x08

/-- Flag `NDEF_SR`: short record. -/
def NDEF_SR : Nat := 0x10

/-- Flag `NDEF_CF`: chunk flag. -/
def NDEF_CF : Nat := 0x20

/-- Flag `NDEF_ME`: message end. -/
def NDEF_ME : Nat := 0x40

/-- Flag `NDEF_MB`: message begin. -/
def NDEF_MB : Nat := 0x80

/-- Text codec `NDEF_UTF8`. -/
def NDEF_UTF8 : Nat := 0x00

/-- Text codec `NDEF_UTF16`. -/
def NDEF_UTF16 : Nat := 0x80

structure NDEFRecord where
  m_type : NDEFRecordType
  m_id : QByteArray
  m_payload : QByteArray
  m_chuncked : Bool
  deriving DecidableEq, Repr

namespace NDEFRecord

def checkConsistency (r : NDEFRecord) : NDEFRecord :=
  let payload_size := r.m_payload.length
  -- Check the record type.
  if payload_size > 0 ∧ r.m_type.id = NDEF_Empty then
    { r with m_type := NDEFRecordType.new NDEF_Unknown [] }
  else r

def setPayload (r : NDEFRecord) (payload : QByteArray) : NDEFRecord :=
  checkConsistency { r with m_payload := payload }

def appendPayload (r : NDEFRecord) (payload : QByteArray) : NDEFRecord :=
  checkConsistency { r with m_payload := r.m_payload ++ payload }

def setId (r : NDEFRecord) (id : QByteArray) : NDEFRecord :=
  checkConsistency { r with m_id := id }

def setType (r : NDEFRecord) (type : NDEFRecordType) : NDEFRecord :=
  checkConsistency { r with m_type := type }

def setChuncked (r : NDEFRecord) (flag : Bool) : NDEFRecord :=
  { r with m_chuncked := flag }

/-- The constructor `NDEFRecord()`: the member `m_type` is a default
`NDEFRecordType()`, that is `NDEFRecordType(NDEF_Empty, "")`. -/
def new : NDEFRecord :=
  ⟨NDEFRecordType.new NDEF_Empty [], [], [], false⟩

/-- The constructor `NDEFRecord(data, type, offset, chuncked)`. -/
def newData (data : QByteArray) (type : NDEFRecordType) (offset : Int) (chuncked : Bool) :
    NDEFRecord :=
  setPayload ⟨type, [], [], chuncked⟩ (QByteArray.right data ((data.length : Int) - offset))

/-- The constructor `NDEFRecord(type, id, payload, chuncked)`. -/
def newType (type : NDEFRecordType) (id payload : QByteArray) (chuncked : Bool) : NDEFRecord :=
  setPayload ⟨type, id, [], chuncked⟩ payload

def id (r : NDEFRecord) : QByteArray := r.m_id

def type (r : NDEFRecord) : NDEFRecordType := r.m_type

def payload (r : NDEFRecord) : QByteArray := r.m_payload

def payloadLength (r : NDEFRecord) : Nat := r.m_payload.length

def isShort (r : NDEFRecord) : Bool := r.m_payload.length < 256

def isChuncked (r : NDEFRecord) : Bool := r.m_chuncked

def isEmpty (r : NDEFRecord) : Bool := r.m_type.id = NDEF_Empty

def isValid (r : NDEFRecord) : Bool := r.m_type.id ≠ NDEF_Invalid

def flags (r : NDEFRecord) : Nat :=
  let flags := 0
  -- Check the "short record" flag.
  let flags := flags ||| (if r.isShort then NDEF_SR else 0)
  -- Check the "LENGTH_ID" flag.
  let flags := flags ||| (if r.m_id.length > 0 then NDEF_IL else 0)
  -- Check the "chunk" flag.
  let flags := flags ||| (if r.isChuncked then NDEF_CF else 0)
  flags

/-- The function `NDEFRecord::toByteArray(flags)`. The stream writes all come
before the direct appends to the byte array, so the output is their
concatenation in program order. -/
def toByteArray (r : NDEFRecord) (flags : Nat) : QByteArray :=
  -- 1) Flags (5 bits) + TNF (3 bits)
  let final_flags := (flags ||| r.flags) % 2 ^ 8
  let byte := ((final_flags &&& 0xF8) ||| r.m_type.id.toNat) % 2 ^ 8
  let out := writeU8 byte
  -- 2) Type length, payload length, ID length, type, ID and payload.
  match r.m_type.id with
  | NDEF_Empty =>
    out ++ writeU8 0 ++ writeU8 0 ++ (if r.m_id.length ≠ 0 then writeU8 0 else [])
  | NDEF_NfcForumRTD | NDEF_MIME | NDEF_URI | NDEF_ExternalRTD =>
    let type_name := r.m_type.name
    let out := out ++ writeU8 type_name.length
    if r.isShort then
      out ++ writeU8 r.m_payload.length
        ++ (if r.m_id.length ≠ 0 then writeU8 r.m_id.length else [])
        ++ type_name ++ r.m_id ++ r.m_payload
    else
      out ++ writeU32 r.m_payload.length
        ++ (if r.m_id.length ≠ 0 then writeU8 r.m_id.length else [])
        ++ type_name ++ r.m_id ++ r.m_payload
  | NDEF_Unknown | NDEF_Unchanged =>
    out ++ writeU8 0 ++ writeU32 r.m_payload.length
      ++ (if r.m_id.length ≠ 0 then writeU8 r.m_id.length else [])
      ++ r.m_id ++ r.m_payload
  | NDEF_Invalid => []

/-- The function `NDEFRecord::fromByteArray(data, offset)`. -/
def fromByteArray (data : QByteArray) (offset : Int) : NDEFRecord :=
  let type := NDEFRecordType.fromByteArray data offset
  -- 1) Type.
  let record := NDEFRecord.new
  let record := record.setType type
  if type.id ≠ NDEF_Invalid then
    let data_buffer := QByteArray.right data ((data.length : Int) - offset)
    -- 2) Flags.
    let r0 := readU8 data_buffer
    let flags := r0.1 % 2 ^ 8
    let cf : Bool := flags &&& NDEF_CF != 0
    let sr : Bool := flags &&& NDEF_SR != 0
    let il : Bool := flags &&& NDEF_IL != 0
    let record := record.setChuncked cf
    -- 3) Type length.
    let r1 := readU8 r0.2
    let type_length := r1.1 % 2 ^ 8
    -- 3) Payload length.
    let r2 : Nat × QByteArray :=
      if sr then ((readU8 r1.2).1 % 2 ^ 32, (readU8 r1.2).2) else readU32 r1.2
    let payload_length := r2.1
    -- 5) ID.
    let r3 : Nat × QByteArray :=
      if il then ((readU8 r2.2).1 % 2 ^ 8, (readU8 r2.2).2) else (0, r2.2)
    let id_length := r3.1
    -- 4) Skip type bytes.
    let s4 := skipRawData r3.2 type_length
    let r5 : NDEFRecord × QByteArray :=
      if il then (record.setId (bufferRead s4 id_length).1, (bufferRead s4 id_length).2)
      else (record, s4)
    -- 6) Payload.
    r5.1.setPayload (bufferRead r5.2 payload_length).1
  else
    record

end NDEFRecord

/-! ### MIME records -/

/-- The function `NDEFRecord::createMimeRecord(mime_type, payload)`; the type
name is `mime_type.toLatin1()` (`toAscii()` before Qt 5). -/
def NDEFRecord.createMimeRecord (mime_type : QString) (payload : QByteArray) : NDEFRecord :=
  let record := NDEFRecord.new
  -- 1) Type.
  let record := record.setType (NDEFRecordType.new NDEF_MIME (QString.toLatin1 mime_type))
  -- 2) Payload.
  record.setPayload payload

/-! ### Text and URI records -/

namespace NDEFRecord

/-- The function `NDEFRecord::createTextRecord(text, locale, codec)`. The
argument `encoded_text` stands for the bytes that Qt produces from `text` under
the chosen codec (`text.toUtf8()` for `NDEF_UTF8`, the `UTF-16BE` codec for
`NDEF_UTF16`); the Qt codecs are not part of the library. The call
`payload.append(locale.left(locale_size))` converts the `QString` to UTF-8. -/
def createTextRecord (encoded_text : QByteArray) (locale : QString) (codec : Nat) : NDEFRecord :=
  let record := NDEFRecord.new
  let locale_size := min locale.length 5
  -- 1) Type.
  let record := record.setType NDEFRecordType.textRecordType
  -- 2) Payload.
  let status_byte := 0
  let status_byte := (status_byte ||| locale_size) % 2 ^ 8
  let status_byte := (status_byte ||| (codec % 2 ^ 8)) % 2 ^ 8
  let payload := [status_byte] ++ QString.toUtf8 (QString.left locale locale_size)
    ++ encoded_text
  record.setPayload payload

/-- The function `NDEFRecord::textLocale(payload)`. -/
def textLocale (payload : QByteArray) : Option QByteArray :=
  match QByteArray.at payload 0 with
  | none => none
  | some b =>
    let locale_length := (toUnsigned 32 (toChar b)) &&& 0x1f
    some (QByteArray.mid payload 1 locale_length)

/-- The function `NDEFRecord::textText(payload)`. The result is the codec that
is selected (`NDEF_UTF16` or `NDEF_UTF8`) and the encoded text that is handed
to the Qt decoder of that codec. -/
def textText (payload : QByteArray) : Option (Nat × QByteArray) :=
  match QByteArray.at payload 0 with
  | none => none
  | some b =>
    let status_byte : Nat := b % 2 ^ 8
    let locale_length : Nat := (status_byte &&& 0x1f) % 2 ^ 8
    let encoded_text := QByteArray.right payload ((payload.length : Int) - (1 + locale_length))
    if status_byte &&& NDEF_UTF16 != 0 then some (NDEF_UTF16, encoded_text)
    else some (NDEF_UTF8, encoded_text)

/-- The list `uri_identifiers` built in `createUriRecord` and in `uriProtocol`. -/
def uri_identifiers : List QString :=
  [ascii "http://www.", ascii "https://www.", ascii "http://", ascii "https://",
   ascii "tel:", ascii "mailto:", ascii "ftp://anonymous:anonymous@", ascii "ftp://ftp.",
   ascii "ftps://", ascii "sftp://", ascii "smb://", ascii "nfs://", ascii "ftp://",
   ascii "dav://", ascii "news:", ascii "telnet://", ascii "imap:", ascii "rtsp://",
   ascii "urn:", ascii "pop:", ascii "sip:", ascii "sips:", ascii "tftp:",
   ascii "btspp://", ascii "btl2cap://", ascii "btgoep://", ascii "tcpobex://",
   ascii "irdaobex://", ascii "file://", ascii "urn:epc:id:", ascii "urn:epc:tag:",
   ascii "urn:epc:pat:", ascii "urn:epc:raw:", ascii "urn:epc:", ascii "urn:nfc:"]

/-- The search loop of `createUriRecord`: `ids` are the identifiers from index
`i` on, the state is `(uri_identifier, uri_identifier_size)`. -/
def createUriRecordLoop (uri : QString) : List QString → Nat → Nat × Nat → Nat × Nat
  | [], _, st => st
  | identifier :: ids, i, st =>
    let size := identifier.length
    if size > st.2 ∧ QString.startsWith uri identifier = true then
      createUriRecordLoop uri ids (i + 1) ((i + 1) % 2 ^ 8, size)
    else
      createUriRecordLoop uri ids (i + 1) st

/-- The function `NDEFRecord::createUriRecord(uri)`. -/
def createUriRecord (uri : QString) : NDEFRecord :=
  let record := NDEFRecord.new
  let uri_size := uri.length
  -- 1) Type.
  let record := record.setType NDEFRecordType.uriRecordType
  -- 2) Payload.
  let st := createUriRecordLoop uri uri_identifiers 0 (0, 0)
  let uri_identifier := st.1
  let uri_identifier_size := st.2
  let payload := [uri_identifier]
    ++ QString.toUtf8 (QString.right uri ((uri_size : Int) - uri_identifier_size))
  record.setPayload payload

/-- The function `NDEFRecord::uriProtocol(payload)`. -/
def uriProtocol (payload : QByteArray) : Option QByteArray :=
  match QByteArray.at payload 0 with
  | none => none
  | some b =>
    let protocol_index : Int := toChar b
    if protocol_index > 0 ∧ protocol_index ≤ (uri_identifiers.length : Int) then
      match uri_identifiers.get? (protocol_index - 1).toNat with
      | some identifier => some (QString.toLatin1 identifier)
      | none => none
    else
      some []

/-! ### Smart Poster records -/

/-- The function `NDEFRecord::createSmartPosterRecord(uri)`. -/
def createSmartPosterRecord (uri : QString) : NDEFRecord :=
  let record := NDEFRecord.new
  -- 1) Type.
  let record := record.setType NDEFRecordType.smartPosterRecordType
  -- 2) Payload.
  let payload := (createUriRecord uri).toByteArray (NDEF_MB ||| NDEF_ME)
  record.setPayload payload

/-- The function `NDEFRecord::createSmartPosterRecord(uri, title, locale, codec)`;
`encoded_title` is the title as encoded by Qt, see `createTextRecord`. -/
def createSmartPosterRecordTitle (uri : QString) (encoded_title : QByteArray) (locale : QString)
    (codec : Nat) : NDEFRecord :=
  let record := NDEFRecord.new
  -- 1) Type.
  let record := record.setType NDEFRecordType.smartPosterRecordType
  -- 2) Payload.
  let payload := (createTextRecord encoded_title locale codec).toByteArray NDEF_MB
    ++ (createUriRecord uri).toByteArray NDEF_ME
  record.setPayload payload

/-- The loop of `createSmartPosterRecord(uri, records)` from index `i` on. -/
def createSmartPosterRecordLoop : List NDEFRecord → Nat → QByteArray
  | [], _ => []
  | sp_record :: rest, i =>
    let flags := if i = 0 then NDEF_MB else 0
    sp_record.toByteArray flags ++ createSmartPosterRecordLoop rest (i + 1)

/-- The function `NDEFRecord::createSmartPosterRecord(uri, records)`. -/
def createSmartPosterRecordList (uri : QString) (records : List NDEFRecord) : NDEFRecord :=
  let record := NDEFRecord.new
  -- 1) Type.
  let record := record.setType NDEFRecordType.smartPosterRecordType
  -- 2) Payload.
  let record_count := records.length
  let payload := createSmartPosterRecordLoop records 0
  let flags := if record_count = 0 then NDEF_MB ||| NDEF_ME else NDEF_ME
  let payload := payload ++ (createUriRecord uri).toByteArray flags
  record.setPayload payload

/-- The function `NDEFRecord::createSpActionRecord(action)`. -/
def createSpActionRecord (action : Nat) : NDEFRecord :=
  let record := NDEFRecord.new
  let record := record.setType NDEFRecordType.spActionRecordType
  record.setPayload (writeU8 action)

/-- The function `NDEFRecord::createSpSizeRecord(size)`. -/
def createSpSizeRecord (size : Nat) : NDEFRecord :=
  let record := NDEFRecord.new
  let record := record.setType NDEFRecordType.spSizeRecordType
  record.setPayload (writeU32 size)

/-- The function `NDEFRecord::createSpTypeRecord(type)`. -/
def createSpTypeRecord (type : QString) : NDEFRecord :=
  let record := NDEFRecord.new
  let record := record.setType NDEFRecordType.spTypeRecordType
  record.setPayload (QString.toUtf8 type)

/-! ### Generic Control records -/

/-- The function `NDEFRecord::createGcTargetRecord(target)`. -/
def createGcTargetRecord (target : NDEFRecord) : NDEFRecord :=
  if NDEFRecordType.ne target.type NDEFRecordType.textRecordType = true
      ∧ NDEFRecordType.ne target.type NDEFRecordType.uriRecordType = true then
    NDEFRecord.newType (NDEFRecordType.new NDEF_Invalid []) [] [] false
  else
    let record := NDEFRecord.new
    -- 1) Type.
    let record := record.setType NDEFRecordType.gcTargetRecordType
    -- 2) Payload.
    record.setPayload (target.toByteArray (NDEF_MB ||| NDEF_ME))

/-- The function `NDEFRecord::createGcActionRecord(const NDEFRecord& action)`. -/
def createGcActionRecordRecord (action : NDEFRecord) : NDEFRecord :=
  let record := NDEFRecord.new
  -- 1) Type.
  let record := record.setType NDEFRecordType.gcActionRecordType
  -- 2) Payload: action flag byte, then the action record.
  let payload := writeU8 0x0 ++ action.toByteArray (NDEF_MB ||| NDEF_ME)
  record.setPayload payload

/-- The function `NDEFRecord::createGcActionRecord(NDEFRecordAction action)`; the
action is given by its numeric value (`Do` = 0, `Save` = 1, `Open` = 2). -/
def createGcActionRecord (action : Nat) : NDEFRecord :=
  let record := NDEFRecord.new
  -- 1) Type.
  let record := record.setType NDEFRecordType.gcActionRecordType
  -- 2) Payload: action flag byte, then the action.
  let payload := writeU8 0x1 ++ writeU8 action
  record.setPayload payload

/-- The function `NDEFRecord::createGcDataRecord(data)`. -/
def createGcDataRecord (data : NDEFRecord) : NDEFRecord :=
  let record := NDEFRecord.new
  -- 1) Type.
  let record := record.setType NDEFRecordType.gcDataRecordType
  -- 2) Payload.
  record.setPayload (data.toByteArray (NDEF_MB ||| NDEF_ME))

/-- The function `NDEFRecord::createGenericControlRecord(config_byte, target,
NDEFRecordAction action, data)`. -/
def createGenericControlRecord (config_byte : Nat) (target : NDEFRecord) (action : Nat)
    (data : NDEFRecord) : NDEFRecord :=
  let record := NDEFRecord.new
  -- 1) Type.
  let record := record.setType NDEFRecordType.genericControlRecordType
  -- 2.1) Config bytes.
  let payload := writeU8 config_byte
  -- 2.2) Target.
  let target_record := createGcTargetRecord target
  if !target_record.isValid then
    NDEFRecord.newType (NDEFRecordType.new NDEF_Invalid []) [] [] false
  else
    let payload := payload ++ target_record.toByteArray (NDEF_MB ||| NDEF_ME)
    -- 2.3) Action.
    let payload := payload ++ (createGcActionRecord action).toByteArray (NDEF_MB ||| NDEF_ME)
    -- 2.4) Data.
    let payload :=
      if !data.isEmpty then
        payload ++ (createGcDataRecord data).toByteArray (NDEF_MB ||| NDEF_ME)
      else payload
    record.setPayload payload

/-- The function `NDEFRecord::createGenericControlRecord(config_byte, target,
const NDEFRecord& action, data)`. -/
def createGenericControlRecordRecord (config_byte : Nat) (target action data : NDEFRecord) :
    NDEFRecord :=
  let record := NDEFRecord.new
  -- 1) Type.
  let record := record.setType NDEFRecordType.genericControlRecordType
  -- 2.1) Config bytes.
  let payload := writeU8 config_byte
  -- 2.2) Target.
  let target_record := createGcTargetRecord target
  if !target_record.isValid then
    NDEFRecord.newType (NDEFRecordType.new NDEF_Invalid []) [] [] false
  else
    let payload := payload ++ target_record.toByteArray (NDEF_MB ||| NDEF_ME)
    -- 2.3) Action.
    let payload :=
      if !action.isEmpty then
        payload ++ (createGcActionRecordRecord action).toByteArray (NDEF_MB ||| NDEF_ME)
      else payload
    -- 2.4) Data.
    let payload :=
      if !data.isEmpty then
        payload ++ (createGcDataRecord data).toByteArray (NDEF_MB ||| NDEF_ME)
      else payload
    record.setPayload payload

/-- The scan loop that `getGcTargetRecord`, `getGcActionRecord` and
`getGcDataRecord` run over the payload: `n` iterations are left, `i` is the loop
index, `name` is the record name that is looked for (`0x74`, `0x61` or `0x64`)
and `list` holds the positions found so far. The bytes at `i + 1` and `i + 3`
are read without a test of the index. -/
def getGcScanLoop (payload : QByteArray) (name : Int) : Nat → Nat → List Nat → Option (List Nat)
  | 0, _, list => some list
  | n + 1, i, list =>
    match QByteArray.at payload i with
    | none => none
    | some c =>
      -- NDEF Header
      let NDEFHeader := QString.ofChar c
      if NDEFHeader.get? 0 = some 0xD1 then
        match QByteArray.at payload (i + 1) with
        | none => none
        | some c1 =>
          if toChar c1 = 0x01 then
            match QByteArray.at payload (i + 3) with
            | none => none
            | some c3 =>
              if toChar c3 = name then getGcScanLoop payload name n (i + 1) (list ++ [i])
              else getGcScanLoop payload name n (i + 1) list
          else getGcScanLoop payload name n (i + 1) list
      else getGcScanLoop payload name n (i + 1) list

/-- The loop `for (int i = 0; i < targetLength; i++) value += payload.at(start + i)`
with `n` iterations left. -/
def getGcValueLoop (payload : QByteArray) (start : Nat) : Nat → Nat → QString → Option QString
  | 0, _, value => some value
  | n + 1, i, value =>
    match QByteArray.at payload (start + i) with
    | none => none
    | some c => getGcValueLoop payload start n (i + 1) (value ++ QString.ofChar c)

/-- The block that the three extraction functions repeat once a position is
known: the length is the `char` at `lengthAt`, the record name the byte after
it, the value the bytes that follow; `lengthAt` is `element + 6` or
`element + 7`. A record name other than `U` and `T` leaves the default record. -/
def getGcEmbeddedRecord (payload : QByteArray) (lengthAt : Nat) : Option NDEFRecord :=
  match QByteArray.at payload lengthAt with
  | none => none
  | some l =>
    let targetLength : Int := toChar l
    match QByteArray.at payload (lengthAt + 1) with
    | none => none
    | some c =>
      let recordName := QString.ofChar c
      if recordName ∈ [ascii "U", ascii "T"] then
        match getGcValueLoop payload (lengthAt + 2) targetLength.toNat 0 [] with
        | none => none
        | some value =>
          if recordName = ascii "U" then
            some (NDEFRecord.newData (QString.toUtf8 value) NDEFRecordType.uriRecordType 0 false)
          else
            some (NDEFRecord.newData (QString.toUtf8 value) NDEFRecordType.textRecordType 0 false)
      else some NDEFRecord.new

/-- The function `NDEFRecord::getGcTargetRecord(record)`. -/
def getGcTargetRecord (record : NDEFRecord) : Option NDEFRecord :=
  let targetRecord := NDEFRecord.new
  if record.type.name = ascii "Gc" then
    match getGcScanLoop record.payload 0x74 record.payloadLength 0 [] with
    | none => none
    | some targetList =>
      -- Check there is one and only one target record
      match targetList with
      | [element] => getGcEmbeddedRecord record.payload (element + 6)
      | _ => some targetRecord
  else some targetRecord

/-- The function `NDEFRecord::getGcActionRecord(record)`. -/
def getGcActionRecord (record : NDEFRecord) : Option NDEFRecord :=
  let actionRecord := NDEFRecord.new
  if record.type.name = ascii "Gc" then
    match getGcScanLoop record.payload 0x61 record.payloadLength 0 [] with
    | none => none
    | some actionList =>
      -- Check there is one and only one action record
      match actionList with
      | [element] =>
        match QByteArray.at record.payload (element + 4) with
        | none => none
        | some c =>
          let actionFlag := QString.ofChar c
          -- check Action flag
          if actionFlag.get? 0 = some 0x00 then
            getGcEmbeddedRecord record.payload (element + 7)
          else
            match QByteArray.at record.payload (element + 5) with
            | none => none
            | some v =>
              let value : Int := toChar v
              some (createGcActionRecord (toUnsigned 32 value))
      | _ => some actionRecord
  else some actionRecord

/-- The function `NDEFRecord::getGcDataRecord(record)`. -/
def getGcDataRecord (record : NDEFRecord) : Option NDEFRecord :=
  let dataRecord := NDEFRecord.new
  if record.type.name = ascii "Gc" then
    match getGcScanLoop record.payload 0x64 record.payloadLength 0 [] with
    | none => none
    | some dataList =>
      -- Check there is one and only one data record
      match dataList with
      | [element] => getGcEmbeddedRecord record.payload (element + 6)
      | _ => some dataRecord
  else some dataRecord

end NDEFRecord

/-! ## `NDEFMessage` -/

structure NDEFMessage where
  m_records : List NDEFRecord
  deriving DecidableEq, Repr

namespace NDEFMessage

/-- The constructor `NDEFMessage()`. -/
def new : NDEFMessage := ⟨[]⟩

/-- The constructor `NDEFMessage(records)`. -/
def newRecords (records : List NDEFRecord) : NDEFMessage := ⟨records⟩

def appendRecord (m : NDEFMessage) (record : NDEFRecord) : NDEFMessage :=
  ⟨m.m_records ++ [record]⟩

def records (m : NDEFMessage) : List NDEFRecord := m.m_records

def recordCount (m : NDEFMessage) : Nat := m.m_records.length

/-- The `foreach` loop of `isValid`. -/
def isValidLoop : List NDEFRecord → Bool
  | [] => true
  | record :: rest => if !record.isValid then false else isValidLoop rest

/-- The function `NDEFMessage::isValid()`. -/
def isValid (m : NDEFMessage) : Bool :=
  if m.m_records.isEmpty then false
  else isValidLoop m.records

/-- The loop of `toByteArray`: the records from index `i` on. -/
def toByteArrayLoop (record_count : Nat) : List NDEFRecord → Nat → QByteArray
  | [], _ => []
  | record :: rest, i =>
    let flags := 0
    let flags := if i = 0 then flags ||| NDEF_MB else flags
    let flags := if (i : Int) = (record_count : Int) - 1 then flags ||| NDEF_ME else flags
    record.toByteArray flags ++ toByteArrayLoop record_count rest (i + 1)

/-- The function `NDEFMessage::toByteArray()`. -/
def toByteArray (m : NDEFMessage) : QByteArray :=
  let record_count := m.recordCount
  toByteArrayLoop record_count m.m_records 0

/-- The `while` loop of `fromByteArray`, with fuel. -/
def fromByteArrayLoop : Nat → QByteArray → NDEFMessage → Option NDEFMessage
  | 0, _, _ => none
  | fuel + 1, buffer, msg =>
    if buffer.isEmpty then some msg
    else
      let record := NDEFRecord.fromByteArray buffer 0
      if record.type.id = NDEF_Invalid then some msg
      else
        let msg := msg.appendRecord record
        let record_buffer := record.toByteArray 0
        fromByteArrayLoop fuel (QByteArray.remove0 buffer record_buffer.length) msg

/-- The function `NDEFMessage::fromByteArray(data, offset)`. Every iteration of
the loop but the last removes at least one byte, so `data.length + 1`
iterations are enough. -/
def fromByteArray (data : QByteArray) (offset : Int) : Option NDEFMessage :=
  let msg := NDEFMessage.new
  let buffer := QByteArray.right data ((data.length : Int) - offset)
  fromByteArrayLoop (buffer.length + 1) buffer msg

end NDEFMessage

/-! ## `Tlv` -/

structure Tlv where
  m_type : Nat
  m_value : QByteArray
  deriving DecidableEq, Repr

abbrev TlvList := List Tlv

namespace Tlv

/-- Tag `Tlv::Null`. -/
def Null : Nat := 0x00

/-- Tag `Tlv::NDEF`. -/
def NDEF : Nat := 0x03

/-- Tag `Tlv::Terminator`. -/
def Terminator : Nat := 0xFE

/-- The constructor `Tlv(quint8 type, value)`. -/
def new (type : Nat) (value : QByteArray) : Tlv :=
  ⟨type % 2 ^ 8, value⟩

def type (t : Tlv) : Nat := t.m_type

/-- The function `Tlv::length()`. -/
def length (t : Tlv) : Nat :=
  if t.m_type = Null ∨ t.m_type = Terminator then 0
  else t.m_value.length

/-- The function `Tlv::value()`. -/
def value (t : Tlv) : QByteArray :=
  if t.m_type = Null ∨ t.m_type = Terminator then []
  else t.m_value

/-- The function `Tlv::toByteArray()`. -/
def toByteArray (t : Tlv) : QByteArray :=
  if t.m_type = Null ∨ t.m_type = Terminator then
    [t.m_type % 2 ^ 8]
  else
    let buffer := [t.m_type % 2 ^ 8]
    let length := t.length % 2 ^ 16
    let buffer :=
      if length ≤ 0xFE then
        buffer ++ [length % 2 ^ 8]
      else
        buffer ++ [0xFF % 2 ^ 8] ++ [(length >>> 8) % 2 ^ 8] ++ [(length &&& 0xFF) % 2 ^ 8]
    if t.length > 0 then buffer ++ t.m_value else buffer

def createNullTlv : Tlv := Tlv.new Null []

def createTerminatorTlv : Tlv := Tlv.new Terminator []

def createNDEFMessageTlv (msg : NDEFMessage) : Tlv := Tlv.new NDEF msg.toByteArray

/-- The length field of `fromByteArray`: `length_byte` is the byte at `index`,
read as a `char` and converted to `quint16`; the result is the length and the
index after the length field. -/
def readLength (buffer : QByteArray) (count index length_byte : Nat) : Option (Nat × Nat) :=
  let length := toUnsigned 16 (toChar length_byte)
  let index := index + 1
  if length > 0xFE then
    if (count : Int) - (index : Int) > 2 then
      match QByteArray.at buffer index, QByteArray.at buffer (index + 1) with
      | some hi, some lo => some ((((hi % 2 ^ 8) <<< 8) ||| (lo % 2 ^ 8)) % 2 ^ 16, index + 2)
      | _, _ => none
    else some (0, index)
  else some (length, index)

/-- The `while` loop of `fromByteArray`, with fuel. -/
def fromByteArrayLoop (buffer : QByteArray) (count : Nat) : Nat → Nat → TlvList → Option TlvList
  | 0, _, _ => none
  | fuel + 1, index, list =>
    if count > index then
      match QByteArray.at buffer index with
      | none => none
      | some b =>
        let type := b % 2 ^ 8
        let index := index + 1
        if type = Null then
          fromByteArrayLoop buffer count fuel index list
        else if type = Terminator then
          fromByteArrayLoop buffer count fuel count (list ++ [createTerminatorTlv])
        else if (count : Int) - (index : Int) > 0 then
          match QByteArray.at buffer index with
          | none => none
          | some length_byte =>
            match readLength buffer count index length_byte with
            | none => none
            | some (length, index) =>
              if (count : Int) - (index : Int) ≥ (length : Int) then
                fromByteArrayLoop buffer count fuel (index + length)
                  (list ++ [Tlv.new type (QByteArray.mid buffer index length)])
              else
                fromByteArrayLoop buffer count fuel count list
        else
          fromByteArrayLoop buffer count fuel index list
    else some list

/-- The function `Tlv::fromByteArray(data, offset)`. Every iteration of the loop
advances `index` by at least one, so `count + 1` iterations are enough. -/
def fromByteArray (data : QByteArray) (offset : Nat) : Option TlvList :=
  let buffer := QByteArray.left data (toInt32 (toUnsigned 64 ((data.length : Int) - (offset : Int))))
  let count := buffer.length
  fromByteArrayLoop buffer count (count + 1) 0 []

end Tlv

/-! ## Auxiliary predicates -/

/-- The records that a program can hold: built by a constructor of `NDEFRecord`
and changed by its public mutators, with record types built by the constructor
of `NDEFRecordType`. -/
inductive NDEFRecord.Reachable : NDEFRecord → Prop
  | new : Reachable NDEFRecord.new
  | newData (data : QByteArray) (id : NDEFRecordTypeId) (name : QByteArray) (offset : Int)
      (chuncked : Bool) :
      Reachable (NDEFRecord.newData data (NDEFRecordType.new id name) offset chuncked)
  | newType (id : NDEFRecordTypeId) (name rid payload : QByteArray) (chuncked : Bool) :
      Reachable (NDEFRecord.newType (NDEFRecordType.new id name) rid payload chuncked)
  | setId (r : NDEFRecord) (rid : QByteArray) : Reachable r → Reachable (r.setId rid)
  | setType (r : NDEFRecord) (id : NDEFRecordTypeId) (name : QByteArray) :
      Reachable r → Reachable (r.setType (NDEFRecordType.new id name))
  | setPayload (r : NDEFRecord) (payload : QByteArray) :
      Reachable r → Reachable (r.setPayload payload)
  | appendPayload (r : NDEFRecord) (payload : QByteArray) :
      Reachable r → Reachable (r.appendPayload payload)
  | setChuncked (r : NDEFRecord) (flag : Bool) : Reachable r → Reachable (r.setChuncked flag)

/-- Invariant of the identifier search of `createUriRecord` over `table`: the
state is the initial one, or it holds the one-based index and the length of a
table entry that is a prefix of `uri`. -/
def UriLoopInv (uri : QString) (table : List QString) (st : Nat × Nat) : Prop :=
  st = (0, 0) ∨ (1 ≤ st.1 ∧ st.1 ≤ table.length ∧
    ∃ p, table.get? (st.1 - 1) = some p ∧ p <+: uri ∧ p.length = st.2)

/-- The records whose encoding keeps all their fields: the id has at most 255
bytes, and the record is of a named type (NfcForumWellKnown, Mime, Uri,
ExternalWellKnown) with a type name of at most 255 bytes, or of type Empty with
no id and no payload, or of type Unknown or Unchanged with no type name and a
payload of at least 256 bytes. -/
def NDEFRecord.Canonical (r : NDEFRecord) : Prop :=
  r.m_id.length ≤ 255 ∧
  (((r.m_type.m_id = NDEF_NfcForumRTD ∨ r.m_type.m_id = NDEF_MIME ∨ r.m_type.m_id = NDEF_URI
        ∨ r.m_type.m_id = NDEF_ExternalRTD) ∧ r.m_type.m_name.length ≤ 255)
    ∨ (r.m_type.m_id = NDEF_Empty ∧ r.m_type.m_name = [] ∧ r.m_id = [] ∧ r.m_payload = [])
    ∨ ((r.m_type.m_id = NDEF_Unknown ∨ r.m_type.m_id = NDEF_Unchanged) ∧ r.m_type.m_name = []
        ∧ 256 ≤ r.m_payload.length))

/-- The header byte that `toByteArray` writes first (the local `byte`). -/
def NDEFRecord.headerByte (r : NDEFRecord) (flags : Nat) : Nat :=
  ((((flags ||| r.flags) % 2 ^ 8) &&& 0xF8) ||| r.m_type.id.toNat) % 2 ^ 8

/-- The TLV blocks of the terminator claim: the tag is a byte other than Null
and Terminator and the value has fewer than 128 bytes. -/
def Tlv.Plain (t : Tlv) : Prop :=
  t.m_type < 256 ∧ t.m_type ≠ Tlv.Null ∧ t.m_type ≠ Tlv.Terminator ∧ t.m_value.length < 128

/-- Invariant of the identifier search of `createUriRecord` over the entries
`seen` that were visited: no visited entry is a prefix of `uri` and the state is
the initial one, or the state holds the one-based index and the length of a
visited entry that is a prefix of `uri`, and no visited prefix is longer. -/
def UriLoopMax (uri : QString) (seen : List QString) (st : Nat × Nat) : Prop :=
  (st = (0, 0) ∧ ∀ q ∈ seen, ¬ q <+: uri)
  ∨ (1 ≤ st.1 ∧ st.1 ≤ seen.length ∧
      ∃ p, seen.get? (st.1 - 1) = some p ∧ p <+: uri ∧ p.length = st.2
        ∧ ∀ q ∈ seen, q <+: uri → q.length ≤ st.2)

/-- The test of the scan of `getGcTargetRecord`, `getGcActionRecord` and
`getGcDataRecord` at position `i`, on bytes that exist: `payload[i] = 0xD1`,
`payload[i + 1] = 0x01` and `payload[i + 3] = name`. -/
def gcHit (payload : QByteArray) (name : Nat) (i : Nat) : Bool :=
  payload.get? i == some 0xD1 && payload.get? (i + 1) == some 0x01
    && payload.get? (i + 3) == some name

/-- The positions of `payload` that pass the test `gcHit`, in increasing order. -/
def gcPositions (payload : QByteArray) (name : Nat) : List Nat :=
  (List.range payload.length).filter (gcHit payload name)

/-- The scan reads no byte outside `payload`: after a byte `0xD1` there is a
next byte, and when that byte is `0x01` there is a byte two places further. -/
def gcScanInBounds (payload : QByteArray) : Prop :=
  ∀ i, payload.get? i = some 0xD1 →
    i + 1 < payload.length ∧ (payload.get? (i + 1) = some 0x01 → i + 3 < payload.length)

/-- The payload that `createGenericControlRecord(c, target, a)` builds for a
target of type name `nm` (`T` or `U`) with a short payload `p`, without a data
record: the config byte, the `"t"` sub-record around the encoded target, and the
`"a"` sub-record with the action flag `0x01` and the action code. -/
def gcLayout (c nm : Nat) (p : QByteArray) (a : Nat) : QByteArray :=
  [c, 0xD1, 0x01, p.length + 4, 0x74, 0xD1, 0x01, p.length, nm] ++ p
    ++ [0xD1, 0x01, 0x02, 0x61, 0x01, a]

/-- The records of the round-trip claims for named types: the TNF is
NfcForumWellKnown, Mime, Uri or ExternalWellKnown, and the type name and the id
have at most 255 bytes each. -/
def NDEFRecord.Named (r : NDEFRecord) : Prop :=
  (r.type.id = NDEF_NfcForumRTD ∨ r.type.id = NDEF_MIME ∨ r.type.id = NDEF_URI
    ∨ r.type.id = NDEF_ExternalRTD)
  ∧ r.type.name.length ≤ 255 ∧ r.id.length ≤ 255

/-- The bytes of a sub-record of a Generic Control record: the record of type
`type` with an empty id and the payload `payload`, encoded with `MB | ME`. -/
def gcSubRecord (type : NDEFRecordType) (payload : QByteArray) : QByteArray :=
  NDEFRecord.toByteArray ⟨type, [], payload, false⟩ (NDEF_MB ||| NDEF_ME)

theorem QString.toUtf8_ascii : ∀ (s : QString), (∀ c ∈ s, c < 128) → QString.toUtf8 s = s
  | [], _ => rfl
  | [c], h => by
    have hc : c < 128 := h c (by simp)
    have h1 : isHighSurrogate c = false := by
      simp only [isHighSurrogate, Bool.and_eq_false_imp, decide_eq_true_eq, decide_eq_false_iff_not]
      omega
    have h2 : isLowSurrogate c = false := by
      simp only [isLowSurrogate, Bool.and_eq_false_imp, decide_eq_true_eq, decide_eq_false_iff_not]
      omega
    simp [QString.toUtf8, h1, h2, utf8OfCodePoint, hc]
  | c :: d :: rest, h => by
    have hc : c < 128 := h c (by simp)
    have h1 : isHighSurrogate c = false := by
      simp only [isHighSurrogate, Bool.and_eq_false_imp, decide_eq_true_eq, decide_eq_false_iff_not]
      omega
    have h2 : isLowSurrogate c = false := by
      simp only [isLowSurrogate, Bool.and_eq_false_imp, decide_eq_true_eq, decide_eq_false_iff_not]
      omega
    have ih := QString.toUtf8_ascii (d :: rest) (fun x hx => h x (List.mem_cons_of_mem c hx))
    simp [QString.toUtf8, h1, h2, utf8OfCodePoint, hc, ih]

theorem QString.toLatin1_ascii (s : QString) (h : ∀ c ∈ s, c < 128) : QString.toLatin1 s = s := by
  unfold QString.toLatin1
  conv_rhs => rw [← List.map_id s]
  apply List.map_congr_left
  intro c hc
  have := h c hc
  simp only [id]
  rw [if_pos (by omega)]

theorem QByteArray.right_sub_eq_drop (a : List Nat) (n : Nat) (h : n ≤ a.length) :
    QByteArray.right a ((a.length : Int) - (n : Int)) = a.drop n := by
  unfold QByteArray.right
  by_cases h0 : n = 0
  · subst h0; simp
  · have h1 : ¬ ((a.length : Int) - (n : Int) ≥ (a.length : Int)) := by omega
    have h2 : ¬ ((a.length : Int) - (n : Int) < 0) := by omega
    rw [if_neg h1, if_neg h2]
    congr 1
    omega

theorem toChar_small (b : Nat) (h : b < 128) : toChar b = (b : Int) := by
  unfold toChar
  have : b % 256 = b := Nat.mod_eq_of_lt (by omega)
  rw [this, if_pos h]

/-! ## Records: mutators and the consistency check -/

theorem NDEFRecord.setPayload_payload (r : NDEFRecord) (p : QByteArray) :
    (r.setPayload p).m_payload = p := by
  unfold NDEFRecord.setPayload NDEFRecord.checkConsistency
  dsimp only
  split <;> rfl

theorem NDEFRecord.setPayload_type_of_ne_empty (r : NDEFRecord) (p : QByteArray)
    (h : r.m_type.m_id ≠ NDEF_Empty) : (r.setPayload p).m_type = r.m_type := by
  simp [NDEFRecord.setPayload, NDEFRecord.checkConsistency, NDEFRecordType.id, h]

theorem NDEFRecord.checkConsistency_consistent (r : NDEFRecord) :
    (r.checkConsistency).m_type.m_id = NDEF_Empty → (r.checkConsistency).m_payload = [] := by
  unfold NDEFRecord.checkConsistency
  by_cases h : r.m_payload.length > 0 ∧ r.m_type.id = NDEF_Empty
  · simp [h, NDEFRecordType.new]
  · simp only [h, if_false]
    intro he
    have : ¬ r.m_payload.length > 0 := fun hp => h ⟨hp, he⟩
    exact List.length_eq_zero.mp (by omega)

theorem NDEFRecord.Reachable.consistent {r : NDEFRecord} (h : NDEFRecord.Reachable r) :
    r.m_type.m_id = NDEF_Empty → r.m_payload = [] := by
  induction h with
  | new => intro _; rfl
  | newData data id name offset chuncked => exact NDEFRecord.checkConsistency_consistent _
  | newType id name rid payload chuncked => exact NDEFRecord.checkConsistency_consistent _
  | setId r rid _ _ => exact NDEFRecord.checkConsistency_consistent _
  | setType r id name _ _ => exact NDEFRecord.checkConsistency_consistent _
  | setPayload r payload _ _ => exact NDEFRecord.checkConsistency_consistent _
  | appendPayload r payload _ _ => exact NDEFRecord.checkConsistency_consistent _
  | setChuncked r flag _ ih => exact ih

theorem NDEFRecord.checkConsistency_promote (r : NDEFRecord) (he : r.m_type.m_id = NDEF_Empty)
    (hp : r.m_payload ≠ []) :
    r.checkConsistency = { r with m_type := ⟨NDEF_Unknown, []⟩ } := by
  have : r.m_payload.length > 0 := List.length_pos.mpr hp
  simp [NDEFRecord.checkConsistency, this, NDEFRecordType.id, he, NDEFRecordType.new]

/-- Claim C4 (empty promotion). For a record whose type is Empty and a non-empty
byte sequence `p`, each of `setPayload(p)`, `appendPayload(p)` and the two
constructors called with the Empty type and payload `p` gives a record whose
type is exactly `{Unknown, empty name}` and whose payload is `p`. -/
theorem NDEFRecord.empty_promotion (r : NDEFRecord) (p : QByteArray)
    (hr : NDEFRecord.Reachable r) (he : r.type.id = NDEF_Empty) (hp : p ≠ []) :
    ((r.setPayload p).type = ⟨NDEF_Unknown, []⟩ ∧ (r.setPayload p).payload = p)
    ∧ ((r.appendPayload p).type = ⟨NDEF_Unknown, []⟩ ∧ (r.appendPayload p).payload = p)
    ∧ (∀ (name rid : QByteArray) (chuncked : Bool),
        (NDEFRecord.newType (NDEFRecordType.new NDEF_Empty name) rid p chuncked).type
            = ⟨NDEF_Unknown, []⟩
        ∧ (NDEFRecord.newType (NDEFRecordType.new NDEF_Empty name) rid p chuncked).payload = p)
    ∧ (∀ (name : QByteArray) (chuncked : Bool),
        (NDEFRecord.newData p (NDEFRecordType.new NDEF_Empty name) 0 chuncked).type
            = ⟨NDEF_Unknown, []⟩
        ∧ (NDEFRecord.newData p (NDEFRecordType.new NDEF_Empty name) 0 chuncked).payload = p) := by
  have he' : r.m_type.m_id = NDEF_Empty := he
  have hempty : r.m_payload = [] := hr.consistent he'
  refine ⟨?_, ?_, ?_, ?_⟩
  · unfold NDEFRecord.setPayload
    rw [NDEFRecord.checkConsistency_promote ⟨r.m_type, r.m_id, p, r.m_chuncked⟩ he' hp]
    exact ⟨rfl, rfl⟩
  · unfold NDEFRecord.appendPayload
    rw [NDEFRecord.checkConsistency_promote ⟨r.m_type, r.m_id, r.m_payload ++ p, r.m_chuncked⟩
      he' (by simp [hempty, hp])]
    exact ⟨rfl, by simp [NDEFRecord.payload, hempty]⟩
  · intro name rid chuncked
    unfold NDEFRecord.newType NDEFRecord.setPayload
    rw [NDEFRecord.checkConsistency_promote
      ⟨NDEFRecordType.new NDEF_Empty name, rid, p, chuncked⟩ rfl hp]
    exact ⟨rfl, rfl⟩
  · intro name chuncked
    have hright : QByteArray.right p ((p.length : Int) - 0) = p := by
      simp [QByteArray.right]
    unfold NDEFRecord.newData NDEFRecord.setPayload
    rw [hright, NDEFRecord.checkConsistency_promote
      ⟨NDEFRecordType.new NDEF_Empty name, [], p, chuncked⟩ rfl hp]
    exact ⟨rfl, rfl⟩

theorem NDEFRecord.empty_promotion_witness :
    (NDEFRecord.new.setPayload [1, 2]).type = ⟨NDEF_Unknown, []⟩
      ∧ (NDEFRecord.new.setPayload [1, 2]).payload = [1, 2] :=
  (NDEFRecord.empty_promotion NDEFRecord.new [1, 2] NDEFRecord.Reachable.new rfl (by decide)).1

/-! ## Records: encoding and decoding -/

set_option maxRecDepth 100000 in
theorem headerByte_bits : ∀ g < 256, ∀ t < 8,
    ((g &&& 0xF8) ||| t) % 2 ^ 8 < 256
    ∧ (((g &&& 0xF8) ||| t) % 2 ^ 8) &&& 0x07 = t
    ∧ (((g &&& 0xF8) ||| t) % 2 ^ 8) &&& 0x08 = g &&& 0x08
    ∧ (((g &&& 0xF8) ||| t) % 2 ^ 8) &&& 0x10 = g &&& 0x10
    ∧ (((g &&& 0xF8) ||| t) % 2 ^ 8) &&& 0x20 = g &&& 0x20 := by
  decide

theorem mod256_and (x m : Nat) (hm : m < 256) : (x % 2 ^ 8) &&& m = x &&& m := by
  have h : x % 2 ^ 8 = x &&& (2 ^ 8 - 1) := (Nat.and_pow_two_sub_one_eq_mod x 8).symm
  rw [h, Nat.and_assoc]
  congr 1
  have : m &&& (2 ^ 8 - 1) = m := Nat.and_pow_two_sub_one_of_lt_two_pow (by simpa using hm)
  rw [Nat.and_comm, this]

theorem or_and_mask (x y m : Nat) : (x ||| y) &&& m = (x &&& m) ||| (y &&& m) := by
  rw [Nat.and_comm, Nat.and_or_distrib_left, Nat.and_comm m x, Nat.and_comm m y]

theorem readU32_writeU32 (n : Nat) (rest : QByteArray) (h : n < 2 ^ 32) :
    readU32 (writeU32 n ++ rest) = (n, rest) := by
  have hm : n % 2 ^ 32 = n := Nat.mod_eq_of_lt h
  simp only [writeU32, hm, readU32, List.cons_append, List.nil_append, Prod.mk.injEq, and_true]
  omega

theorem NDEFRecordType.readTypeName_append (nm : QByteArray) :
    ∀ (more acc : QByteArray),
      NDEFRecordType.readTypeName nm.length (nm ++ more) acc = acc ++ nm := by
  induction nm with
  | nil => intro more acc; simp [NDEFRecordType.readTypeName]
  | cons b nm ih =>
    intro more acc
    simp only [List.length_cons, NDEFRecordType.readTypeName, List.cons_append, readU8]
    rw [ih]
    simp

theorem toUnsigned_natCast (w n : Nat) (h : n < 2 ^ w) : toUnsigned w (n : Int) = n := by
  unfold toUnsigned
  have : ((n : Int) % ((2 ^ w : Nat) : Int)) = (n : Int) := Int.emod_eq_of_lt (by omega) (by exact_mod_cast h)
  rw [this]
  simp

theorem toInt32_natCast (n : Nat) (h : n < 2 ^ 31) : toInt32 (n : Int) = n := by
  unfold toInt32
  rw [toUnsigned_natCast 32 n (by omega)]
  rw [if_pos h]

theorem QByteArray.right_length (a : QByteArray) : QByteArray.right a (a.length : Int) = a := by
  simp [QByteArray.right]

theorem NDEFRecordType.fromByteArray_cons (hdr tl : Nat) (s : QByteArray)
    (hs : 1 ≤ s.length) (hlen : s.length + 2 < 2 ^ 31) :
    NDEFRecordType.fromByteArray (hdr :: tl :: s) 0
      = NDEFRecordType.new (NDEFRecordTypeId.ofTnf (hdr &&& 0x07))
          (NDEFRecordType.readTypeName (tl % 2 ^ 8)
            (skipRawData (skipRawData s (if (hdr &&& 0x10 != 0) = true then 1 else 4))
              (if (hdr &&& 0x08 != 0) = true then 1 else 0)) []) := by
  have hl : (hdr :: tl :: s).length = s.length + 2 := by simp
  have h1 : toUnsigned 32 (((hdr :: tl :: s).length : Int) - 0) = s.length + 2 := by
    rw [hl, Int.sub_zero, toUnsigned_natCast 32 _ (by omega)]
  unfold NDEFRecordType.fromByteArray
  simp only [h1]
  rw [if_pos (by omega), toInt32_natCast _ hlen]
  have h2 : QByteArray.right (hdr :: tl :: s) ((s.length + 2 : Nat) : Int) = hdr :: tl :: s := by
    rw [← hl]; exact QByteArray.right_length _
  rw [h2]
  rfl

theorem NDEFRecord.checkConsistency_of_payload_nil (r : NDEFRecord) (h : r.m_payload = []) :
    r.checkConsistency = r := by
  simp [NDEFRecord.checkConsistency, h]

theorem NDEFRecord.checkConsistency_of_ne_empty (r : NDEFRecord) (h : r.m_type.m_id ≠ NDEF_Empty) :
    r.checkConsistency = r := by
  simp [NDEFRecord.checkConsistency, NDEFRecordType.id, h]

theorem NDEFRecordType.new_eq (t : NDEFRecordTypeId) (nm : QByteArray)
    (h : t = NDEF_Empty → nm = []) : NDEFRecordType.new t nm = ⟨t, nm⟩ := by
  cases t <;> simp_all [NDEFRecordType.new]

theorem NDEFRecord.build_with_id (ty : NDEFRecordType) (idb pl : QByteArray) (cf : Bool)
    (h : ty.m_id = NDEF_Empty → pl = []) :
    (((NDEFRecord.new.setType ty).setChuncked cf).setId idb).setPayload pl = ⟨ty, idb, pl, cf⟩ := by
  unfold NDEFRecord.setType NDEFRecord.new
  rw [NDEFRecord.checkConsistency_of_payload_nil _ rfl]
  unfold NDEFRecord.setChuncked NDEFRecord.setId
  rw [NDEFRecord.checkConsistency_of_payload_nil _ rfl]
  unfold NDEFRecord.setPayload
  by_cases he : ty.m_id = NDEF_Empty
  · rw [NDEFRecord.checkConsistency_of_payload_nil _ (h he), h he]
  · rw [NDEFRecord.checkConsistency_of_ne_empty _ he]

theorem NDEFRecord.build_without_id (ty : NDEFRecordType) (pl : QByteArray) (cf : Bool)
    (h : ty.m_id = NDEF_Empty → pl = []) :
    ((NDEFRecord.new.setType ty).setChuncked cf).setPayload pl = ⟨ty, [], pl, cf⟩ := by
  unfold NDEFRecord.setType NDEFRecord.new
  rw [NDEFRecord.checkConsistency_of_payload_nil _ rfl]
  unfold NDEFRecord.setChuncked NDEFRecord.setPayload
  by_cases he : ty.m_id = NDEF_Empty
  · rw [NDEFRecord.checkConsistency_of_payload_nil _ (h he), h he]
  · rw [NDEFRecord.checkConsistency_of_ne_empty _ he]

theorem NDEFRecord.fromByteArray_layout (hdr : Nat) (nm idb pl rest : QByteArray)
    (hhdr : hdr < 256) (hnm : nm.length < 256) (hid : idb.length < 256)
    (hpl : pl.length < 2 ^ 32)
    (hil : (hdr &&& NDEF_IL != 0) = true ↔ idb ≠ [])
    (hsr : (hdr &&& NDEF_SR != 0) = true → pl.length < 256)
    (hne : NDEFRecordTypeId.ofTnf (hdr &&& 0x07) ≠ NDEF_Invalid)
    (hemp : NDEFRecordTypeId.ofTnf (hdr &&& 0x07) = NDEF_Empty → nm = [] ∧ pl = [])
    (hlen : ((if (hdr &&& NDEF_SR != 0) = true then writeU8 pl.length else writeU32 pl.length)
        ++ (if (hdr &&& NDEF_IL != 0) = true then writeU8 idb.length else [])
        ++ nm ++ idb ++ pl ++ rest).length + 2 < 2 ^ 31) :
    NDEFRecord.fromByteArray (hdr :: nm.length ::
        ((if (hdr &&& NDEF_SR != 0) = true then writeU8 pl.length else writeU32 pl.length)
        ++ (if (hdr &&& NDEF_IL != 0) = true then writeU8 idb.length else [])
        ++ nm ++ idb ++ pl ++ rest)) 0
      = ⟨⟨NDEFRecordTypeId.ofTnf (hdr &&& 0x07), nm⟩, idb, pl, hdr &&& NDEF_CF != 0⟩ := by
  have hnm8 : nm.length % 2 ^ 8 = nm.length := Nat.mod_eq_of_lt (by omega)
  have hid8 : idb.length % 2 ^ 8 = idb.length := Nat.mod_eq_of_lt (by omega)
  have hpl32 : pl.length % 2 ^ 32 = pl.length := Nat.mod_eq_of_lt hpl
  have hhdr8 : hdr % 2 ^ 8 = hdr := Nat.mod_eq_of_lt (by omega)
  have hnew := NDEFRecordType.new_eq (NDEFRecordTypeId.ofTnf (hdr &&& 0x07)) nm
    (fun h => (hemp h).1)
  have hpay : (⟨NDEFRecordTypeId.ofTnf (hdr &&& 0x07), nm⟩ : NDEFRecordType).m_id = NDEF_Empty
      → pl = [] := fun h => (hemp h).2
  simp only [NDEF_SR, NDEF_IL, NDEF_CF] at hil hsr hlen ⊢
  generalize hs : ((if (hdr &&& 0x10 != 0) = true then writeU8 pl.length else writeU32 pl.length)
        ++ (if (hdr &&& 0x08 != 0) = true then writeU8 idb.length else [])
        ++ nm ++ idb ++ pl ++ rest) = s at hlen
  have hs1 : 1 ≤ s.length := by
    rw [← hs]
    cases (hdr &&& 0x10 != 0)
    · simp [writeU32]
    · simp [writeU8]
  have htype := NDEFRecordType.fromByteArray_cons hdr nm.length s hs1 hlen
  have hright : QByteArray.right (hdr :: nm.length :: s)
      (((hdr :: nm.length :: s).length : Int) - 0) = hdr :: nm.length :: s := by
    rw [Int.sub_zero]; exact QByteArray.right_length _
  have htn : NDEFRecordType.fromByteArray (hdr :: nm.length :: s) 0
      = ⟨NDEFRecordTypeId.ofTnf (hdr &&& 0x07), nm⟩ := by
    rw [htype, hnm8, ← hnew, ← hs]
    congr 1
    cases (hdr &&& 0x10 != 0) <;> cases (hdr &&& 0x08 != 0)
    all_goals simp only [if_true, if_false, Bool.false_eq_true,
        writeU8, writeU32, skipRawData, List.cons_append, List.nil_append, List.drop_succ_cons,
        List.drop_zero, List.append_assoc]
    all_goals exact NDEFRecordType.readTypeName_append nm _ []
  have hread8 : ∀ (b : Nat) (t : QByteArray), readU8 (b :: t) = (b, t) := fun _ _ => rfl
  unfold NDEFRecord.fromByteArray
  simp only [htn, hright, NDEFRecordType.id, ne_eq, hne, not_false_eq_true, if_true, hread8,
    hhdr8, NDEF_SR, NDEF_IL, NDEF_CF]
  rw [← hs]
  generalize (hdr &&& 0x10 != 0) = sr at hsr ⊢
  generalize (hdr &&& 0x08 != 0) = il at hil ⊢
  cases sr <;> cases il
  · -- long record, no id
    have hidb : idb = [] := by
      by_contra hc
      exact absurd (hil.mpr hc) (by decide)
    subst hidb
    simp only [Bool.false_eq_true, if_false, List.append_nil, hread8, hnm8,
      List.append_assoc, readU32_writeU32 _ _ hpl, skipRawData, bufferRead,
      List.drop_left, List.take_left]
    exact NDEFRecord.build_without_id _ _ _ hpay
  · -- long record, id
    simp only [Bool.false_eq_true, if_false, if_true, hread8, hnm8, hid8, writeU8,
      List.append_assoc, readU32_writeU32 _ _ hpl, skipRawData, bufferRead,
      List.drop_left, List.take_left, List.cons_append, List.nil_append]
    exact NDEFRecord.build_with_id _ _ _ _ hpay
  · -- short record, no id
    have hidb : idb = [] := by
      by_contra hc
      exact absurd (hil.mpr hc) (by decide)
    subst hidb
    have hp8 : pl.length % 2 ^ 8 = pl.length := Nat.mod_eq_of_lt (by simpa using hsr rfl)
    simp only [Bool.false_eq_true, if_false, if_true, List.append_nil, hread8, hnm8, writeU8, hp8,
      hpl32, List.append_assoc, skipRawData, bufferRead,
      List.drop_left, List.take_left, List.cons_append, List.nil_append]
    exact NDEFRecord.build_without_id _ _ _ hpay
  · -- short record, id
    have hp8 : pl.length % 2 ^ 8 = pl.length := Nat.mod_eq_of_lt (by simpa using hsr rfl)
    simp only [Bool.false_eq_true, if_false, if_true, hread8, hnm8, hid8, writeU8, hp8,
      hpl32, List.append_assoc, skipRawData, bufferRead,
      List.drop_left, List.take_left, List.cons_append, List.nil_append]
    exact NDEFRecord.build_with_id _ _ _ _ hpay

theorem NDEFRecordTypeId.toNat_lt (t : NDEFRecordTypeId) : t.toNat < 8 := by
  cases t <;> decide

theorem NDEFRecordTypeId.ofTnf_toNat (t : NDEFRecordTypeId) :
    NDEFRecordTypeId.ofTnf t.toNat = t := by
  cases t <;> rfl

theorem and_of_and_38 (f m : Nat) (hf : f &&& 0x38 = 0) (hm : 0x38 &&& m = m) : f &&& m = 0 := by
  rw [← hm, ← Nat.and_assoc, hf]
  simp

theorem NDEFRecord.flags_and (r : NDEFRecord) :
    r.flags &&& 0x10 = (if r.isShort then 0x10 else 0)
    ∧ r.flags &&& 0x08 = (if r.m_id.length > 0 then 0x08 else 0)
    ∧ r.flags &&& 0x20 = (if r.isChuncked then 0x20 else 0) := by
  unfold NDEFRecord.flags
  cases r.isShort <;> cases r.isChuncked <;> by_cases h : r.m_id.length > 0 <;>
    simp only [h, if_true, if_false, Bool.false_eq_true, NDEF_SR, NDEF_IL, NDEF_CF] <;> decide

theorem NDEFRecord.headerByte_facts (r : NDEFRecord) (f : Nat) (hf : f &&& 0x38 = 0) :
    r.headerByte f < 256
    ∧ r.headerByte f &&& 0x07 = r.m_type.m_id.toNat
    ∧ (r.headerByte f &&& NDEF_SR != 0) = r.isShort
    ∧ (r.headerByte f &&& NDEF_IL != 0) = decide (r.m_id ≠ [])
    ∧ (r.headerByte f &&& NDEF_CF != 0) = r.m_chuncked := by
  have hg : (f ||| r.flags) % 2 ^ 8 < 256 := Nat.mod_lt _ (by decide)
  obtain ⟨h1, h2, h3, h4, h5⟩ :=
    headerByte_bits _ hg _ (NDEFRecordTypeId.toNat_lt r.m_type.m_id)
  obtain ⟨f1, f2, f3⟩ := r.flags_and
  have e10 : f &&& 0x10 = 0 := and_of_and_38 f _ hf (by decide)
  have e08 : f &&& 0x08 = 0 := and_of_and_38 f _ hf (by decide)
  have e20 : f &&& 0x20 = 0 := and_of_and_38 f _ hf (by decide)
  unfold NDEFRecord.headerByte NDEFRecordType.id
  refine ⟨h1, h2, ?_, ?_, ?_⟩
  · rw [NDEF_SR, h4, mod256_and _ _ (by decide), or_and_mask, e10, f1]
    cases r.isShort <;> rfl
  · rw [NDEF_IL, h3, mod256_and _ _ (by decide), or_and_mask, e08, f2]
    cases hid : r.m_id with
    | nil => rfl
    | cons a t => simp
  · rw [NDEF_CF, h5, mod256_and _ _ (by decide), or_and_mask, e20, f3]
    unfold NDEFRecord.isChuncked
    cases r.m_chuncked <;> rfl

theorem NDEFRecord.toByteArray_canonical (r : NDEFRecord) (f : Nat) (hc : r.Canonical) :
    r.toByteArray f = r.headerByte f :: r.m_type.m_name.length ::
      ((if r.isShort = true then writeU8 r.m_payload.length else writeU32 r.m_payload.length)
        ++ (if decide (r.m_id ≠ []) = true then writeU8 r.m_id.length else [])
        ++ r.m_type.m_name ++ r.m_id ++ r.m_payload) := by
  obtain ⟨hid, hcase⟩ := hc
  have hidl : (r.m_id.length ≠ 0) ↔ (decide (r.m_id ≠ []) = true) := by
    simp [List.length_eq_zero]
  rcases hcase with ⟨ht, hn⟩ | ⟨ht, hn, hi, hp⟩ | ⟨ht, hn, hp⟩
  · have hn8 : r.m_type.m_name.length % 2 ^ 8 = r.m_type.m_name.length :=
      Nat.mod_eq_of_lt (by omega)
    unfold NDEFRecord.toByteArray NDEFRecord.headerByte
    rcases ht with ht | ht | ht | ht <;>
      simp only [NDEFRecordType.id, NDEFRecordType.name, ht, writeU8, hn8, hidl] <;>
      cases r.isShort <;> simp
  · unfold NDEFRecord.toByteArray NDEFRecord.headerByte
    simp [NDEFRecordType.id, ht, hn, hi, hp, writeU8, NDEFRecord.isShort]
  · have hs : r.isShort = false := by
      simp [NDEFRecord.isShort]; omega
    unfold NDEFRecord.toByteArray NDEFRecord.headerByte
    rcases ht with ht | ht <;>
      simp only [NDEFRecordType.id, ht, hn, writeU8, hs, hidl] <;> simp

theorem NDEFRecord.decode_encode_append (r : NDEFRecord) (f : Nat) (rest : QByteArray)
    (hc : r.Canonical) (hf : f &&& 0x38 = 0) (hlen : (r.toByteArray f ++ rest).length < 2 ^ 31) :
    NDEFRecord.fromByteArray (r.toByteArray f ++ rest) 0 = r := by
  obtain ⟨h1, h2, h3, h4, h5⟩ := r.headerByte_facts f hf
  have hlay := r.toByteArray_canonical f hc
  rw [hlay] at hlen ⊢
  have hid : r.m_id.length < 256 := by have := hc.1; omega
  have hnm : r.m_type.m_name.length < 256 := by
    rcases hc.2 with ⟨_, hn⟩ | ⟨_, hn, _⟩ | ⟨_, hn, _⟩
    · omega
    · simp [hn]
    · simp [hn]
  have hpl : r.m_payload.length < 2 ^ 32 := by
    simp only [List.length_append, List.length_cons] at hlen
    omega
  have key := NDEFRecord.fromByteArray_layout (r.headerByte f) r.m_type.m_name r.m_id r.m_payload
    rest h1 hnm hid hpl (by rw [h4]; simp) (by rw [h3]; intro h; simpa [NDEFRecord.isShort] using h)
    (by
      rw [h2, NDEFRecordTypeId.ofTnf_toNat]
      rcases hc.2 with ⟨ht, _⟩ | ⟨ht, _⟩ | ⟨ht, _⟩
      · rcases ht with ht | ht | ht | ht <;> simp [ht]
      · simp [ht]
      · rcases ht with ht | ht <;> simp [ht])
    (by
      rw [h2, NDEFRecordTypeId.ofTnf_toNat]
      intro he
      rcases hc.2 with ⟨ht, _⟩ | ⟨_, hn, _, hp⟩ | ⟨ht, _⟩
      · rcases ht with ht | ht | ht | ht <;> simp [ht] at he
      · exact ⟨hn, hp⟩
      · rcases ht with ht | ht <;> simp [ht] at he)
    (by
      rw [h3, h4]
      simp only [List.length_append, List.length_cons] at hlen ⊢
      omega)
  rw [h3, h4, h5, h2, NDEFRecordTypeId.ofTnf_toNat] at key
  simp only [List.cons_append, List.append_assoc] at key ⊢
  rw [key]

theorem NDEFRecord.toByteArray_length_flags (r : NDEFRecord) (f g : Nat) (hc : r.Canonical) :
    (r.toByteArray f).length = (r.toByteArray g).length := by
  rw [r.toByteArray_canonical f hc, r.toByteArray_canonical g hc]
  simp

/-- Claim C1 (record round trip), amended. For every record `r` in `Canonical`
whose encoding has fewer than 2^31 bytes, `fromByteArray(r.toByteArray(0), 0)`
has the same type (TNF and name), id, payload and chunk flag as `r`. -/
theorem NDEFRecord.record_roundtrip (r : NDEFRecord) (hc : r.Canonical)
    (hlen : (r.toByteArray 0).length < 2 ^ 31) :
    (NDEFRecord.fromByteArray (r.toByteArray 0) 0).type = r.type
    ∧ (NDEFRecord.fromByteArray (r.toByteArray 0) 0).id = r.id
    ∧ (NDEFRecord.fromByteArray (r.toByteArray 0) 0).payload = r.payload
    ∧ (NDEFRecord.fromByteArray (r.toByteArray 0) 0).isChuncked = r.isChuncked := by
  have h := NDEFRecord.decode_encode_append r 0 [] hc (by decide)
    (by simpa using hlen)
  rw [List.append_nil] at h
  rw [h]
  exact ⟨rfl, rfl, rfl, rfl⟩

theorem NDEFRecord.record_roundtrip_witness :
    (NDEFRecord.fromByteArray
        (NDEFRecord.toByteArray ⟨⟨NDEF_MIME, ascii "a/b"⟩, [7, 8], [1, 2, 3], true⟩ 0) 0).type
      = ⟨NDEF_MIME, ascii "a/b"⟩
    ∧ (NDEFRecord.fromByteArray
        (NDEFRecord.toByteArray ⟨⟨NDEF_MIME, ascii "a/b"⟩, [7, 8], [1, 2, 3], true⟩ 0) 0).id
      = [7, 8]
    ∧ (NDEFRecord.fromByteArray
        (NDEFRecord.toByteArray ⟨⟨NDEF_MIME, ascii "a/b"⟩, [7, 8], [1, 2, 3], true⟩ 0) 0).payload
      = [1, 2, 3]
    ∧ (NDEFRecord.fromByteArray
        (NDEFRecord.toByteArray ⟨⟨NDEF_MIME, ascii "a/b"⟩, [7, 8], [1, 2, 3], true⟩ 0)
          0).isChuncked
      = true :=
  NDEFRecord.record_roundtrip ⟨⟨NDEF_MIME, ascii "a/b"⟩, [7, 8], [1, 2, 3], true⟩
    (by unfold NDEFRecord.Canonical; decide) (by decide)

/-- Claim C1, counterexample. The record built with type Empty and id `[1]` is
valid and is encoded as `[0x18, 0, 0, 0]`: the id-length byte is 0 and the id is
not written, so the decoded record has an empty id. -/
theorem NDEFRecord.record_roundtrip_counterexample :
    NDEFRecord.Reachable (NDEFRecord.newType (NDEFRecordType.new NDEF_Empty []) [1] [] false)
    ∧ (NDEFRecord.newType (NDEFRecordType.new NDEF_Empty []) [1] [] false).isValid = true
    ∧ (NDEFRecord.newType (NDEFRecordType.new NDEF_Empty []) [1] [] false).toByteArray 0
        = [0x18, 0, 0, 0]
    ∧ (NDEFRecord.fromByteArray
        ((NDEFRecord.newType (NDEFRecordType.new NDEF_Empty []) [1] [] false).toByteArray 0) 0).id
        ≠ (NDEFRecord.newType (NDEFRecordType.new NDEF_Empty []) [1] [] false).id :=
  ⟨NDEFRecord.Reachable.newType NDEF_Empty [] [1] [] false, by decide, by decide, by decide⟩

theorem NDEFRecord.headerByte_sr (r : NDEFRecord) (f : Nat) (hf : f &&& 0x38 = 0) :
    r.headerByte f &&& NDEF_SR = (if r.isShort = true then NDEF_SR else 0) := by
  have hg : (f ||| r.flags) % 2 ^ 8 < 256 := Nat.mod_lt _ (by decide)
  obtain ⟨_, _, _, h4, _⟩ :=
    headerByte_bits _ hg _ (NDEFRecordTypeId.toNat_lt r.m_type.m_id)
  have e10 : f &&& 0x10 = 0 := and_of_and_38 f _ hf (by decide)
  unfold NDEFRecord.headerByte NDEFRecordType.id
  rw [NDEF_SR, h4, mod256_and _ _ (by decide), or_and_mask, e10, r.flags_and.1]
  simp

/-- Claim C3 (short/long boundary), amended. For a record of TNF
NfcForumWellKnown, Mime, Uri or ExternalWellKnown and extra flags without the
IL, SR and CF bits, a payload of 255 bytes is encoded with a 1-byte
payload-length field and the SR bit set, and a payload of 256 bytes with a
4-byte big-endian payload-length field and the SR bit clear; for a record of
TNF Unknown or Unchanged the payload-length field has 4 bytes at both lengths,
and the SR bit is clear at 256. -/
theorem NDEFRecord.toByteArray_short_long_boundary (r : NDEFRecord) (f : Nat)
    (hf : f &&& 0x38 = 0) :
    ((r.type.id = NDEF_NfcForumRTD ∨ r.type.id = NDEF_MIME ∨ r.type.id = NDEF_URI
        ∨ r.type.id = NDEF_ExternalRTD) →
      (r.payload.length = 255 →
        ∃ hdr, hdr &&& NDEF_SR = NDEF_SR
          ∧ r.toByteArray f = [hdr, r.type.name.length % 256, 255]
              ++ (if r.id = [] then [] else [r.id.length % 256])
              ++ r.type.name ++ r.id ++ r.payload)
      ∧ (r.payload.length = 256 →
        ∃ hdr, hdr &&& NDEF_SR = 0
          ∧ r.toByteArray f = [hdr, r.type.name.length % 256, 0, 0, 1, 0]
              ++ (if r.id = [] then [] else [r.id.length % 256])
              ++ r.type.name ++ r.id ++ r.payload))
    ∧ ((r.type.id = NDEF_Unknown ∨ r.type.id = NDEF_Unchanged) →
      (r.payload.length = 255 →
        ∃ hdr, r.toByteArray f = [hdr, 0, 0, 0, 0, 255]
              ++ (if r.id = [] then [] else [r.id.length % 256]) ++ r.id ++ r.payload)
      ∧ (r.payload.length = 256 →
        ∃ hdr, hdr &&& NDEF_SR = 0
          ∧ r.toByteArray f = [hdr, 0, 0, 0, 1, 0]
              ++ (if r.id = [] then [] else [r.id.length % 256]) ++ r.id ++ r.payload)) := by
  have hsr := r.headerByte_sr f hf
  have hidl : (r.m_id.length ≠ 0) ↔ ¬ (r.m_id = []) := by
    simp [List.length_eq_zero]
  have hidf : (if r.m_id.length ≠ 0 then writeU8 r.m_id.length else [])
      = (if r.m_id = [] then [] else [r.m_id.length % 256]) := by
    by_cases h : r.m_id = []
    · simp [h]
    · simp [h, writeU8]
  have hw255 : writeU8 255 = [255] := by decide
  have hw256 : writeU32 256 = [0, 0, 1, 0] := by decide
  have hw255' : writeU32 255 = [0, 0, 0, 255] := by decide
  have hw0 : writeU8 0 = [0] := by decide
  simp only [NDEFRecord.type, NDEFRecord.payload, NDEFRecord.id, NDEFRecordType.id,
    NDEFRecordType.name]
  constructor
  · intro ht
    constructor
    · intro hp
      have hs : r.isShort = true := by simp [NDEFRecord.isShort, hp]
      refine ⟨r.headerByte f, by rw [hsr, hs]; rfl, ?_⟩
      unfold NDEFRecord.toByteArray
      rcases ht with ht | ht | ht | ht <;>
        simp only [NDEFRecordType.id, NDEFRecordType.name, ht, hs, hp, hidf, hw255, if_true] <;>
        simp [NDEFRecord.headerByte, NDEFRecordType.id, writeU8, ht]
    · intro hp
      have hs : r.isShort = false := by simp [NDEFRecord.isShort, hp]
      refine ⟨r.headerByte f, by rw [hsr, hs]; rfl, ?_⟩
      unfold NDEFRecord.toByteArray
      rcases ht with ht | ht | ht | ht <;>
        simp only [NDEFRecordType.id, NDEFRecordType.name, ht, hs, hp, hidf, hw256, if_false,
          Bool.false_eq_true] <;>
        simp [NDEFRecord.headerByte, NDEFRecordType.id, writeU8, ht]
  · intro ht
    constructor
    · intro hp
      refine ⟨r.headerByte f, ?_⟩
      unfold NDEFRecord.toByteArray
      rcases ht with ht | ht <;>
        simp only [NDEFRecordType.id, ht, hp, hidf, hw255', hw0] <;>
        simp [NDEFRecord.headerByte, NDEFRecordType.id, writeU8, ht]
    · intro hp
      have hs : r.isShort = false := by simp [NDEFRecord.isShort, hp]
      refine ⟨r.headerByte f, by rw [hsr, hs]; rfl, ?_⟩
      unfold NDEFRecord.toByteArray
      rcases ht with ht | ht <;>
        simp only [NDEFRecordType.id, ht, hp, hidf, hw256, hw0] <;>
        simp [NDEFRecord.headerByte, NDEFRecordType.id, writeU8, ht]

theorem NDEFRecord.toByteArray_short_long_boundary_witness :
    ∃ hdr, hdr &&& NDEF_SR = 0
      ∧ NDEFRecord.toByteArray ⟨⟨NDEF_MIME, ascii "a/b"⟩, [], List.replicate 256 7, false⟩ 0xC0
        = [hdr, (ascii "a/b").length % 256, 0, 0, 1, 0]
            ++ (if ([] : QByteArray) = [] then [] else [([] : QByteArray).length % 256])
            ++ ascii "a/b" ++ [] ++ List.replicate 256 7 :=
  ((NDEFRecord.toByteArray_short_long_boundary
      ⟨⟨NDEF_MIME, ascii "a/b"⟩, [], List.replicate 256 7, false⟩ 0xC0 (by decide)).1
    (Or.inr (Or.inl rfl))).2 (List.length_replicate 256 7)

set_option maxRecDepth 20000 in
/-- Claim C3, counterexample. The valid record of type Unknown with a payload
of 255 zero bytes is encoded with the 4-byte payload-length field
`[0, 0, 0, 255]`: the byte after the type-length byte is 0, not 255. -/
theorem NDEFRecord.toByteArray_short_long_boundary_counterexample :
    NDEFRecord.Reachable
      (NDEFRecord.newType (NDEFRecordType.new NDEF_Unknown []) [] (List.replicate 255 0) false)
    ∧ (NDEFRecord.newType (NDEFRecordType.new NDEF_Unknown []) [] (List.replicate 255 0)
        false).isValid = true
    ∧ (NDEFRecord.newType (NDEFRecordType.new NDEF_Unknown []) [] (List.replicate 255 0)
        false).payload.length = 255
    ∧ (NDEFRecord.newType (NDEFRecordType.new NDEF_Unknown []) [] (List.replicate 255 0)
        false).toByteArray 0 = [0x15, 0, 0, 0, 0, 255] ++ List.replicate 255 0
    ∧ ¬ ∃ hdr tl rest,
        (NDEFRecord.newType (NDEFRecordType.new NDEF_Unknown []) [] (List.replicate 255 0)
          false).toByteArray 0 = hdr :: tl :: 255 :: rest := by
  have h : (NDEFRecord.newType (NDEFRecordType.new NDEF_Unknown []) [] (List.replicate 255 0)
      false).toByteArray 0 = [0x15, 0, 0, 0, 0, 255] ++ List.replicate 255 0 := by decide
  refine ⟨NDEFRecord.Reachable.newType NDEF_Unknown [] [] _ false, by decide, by decide, h, ?_⟩
  rintro ⟨hdr, tl, rest, he⟩
  rw [h] at he
  simp at he

/-! ## Text and URI records -/

theorem NDEFRecord.createUriRecordLoop_inv (uri : QString) :
    ∀ (ids pre : List QString) (st : Nat × Nat), pre.length + ids.length ≤ 255 →
      UriLoopInv uri (pre ++ ids) st → st.1 ≤ pre.length →
      UriLoopInv uri (pre ++ ids) (NDEFRecord.createUriRecordLoop uri ids pre.length st)
  | [], pre, st, _, hinv, _ => by simpa [NDEFRecord.createUriRecordLoop] using hinv
  | identifier :: ids, pre, st, hlen, hinv, hst => by
    have hlen' : (pre ++ [identifier]).length + ids.length ≤ 255 := by
      simp only [List.length_append, List.length_cons, List.length_nil] at hlen ⊢
      omega
    have happ : pre ++ identifier :: ids = (pre ++ [identifier]) ++ ids := by simp
    have hl1 : pre.length + 1 = (pre ++ [identifier]).length := by simp
    unfold NDEFRecord.createUriRecordLoop
    simp only
    split
    · rename_i hcond
      rw [happ, hl1]
      apply NDEFRecord.createUriRecordLoop_inv uri ids (pre ++ [identifier])
      · exact hlen'
      · right
        have hmod : (pre ++ [identifier]).length % 2 ^ 8 = (pre ++ [identifier]).length := by
          apply Nat.mod_eq_of_lt
          simp only [List.length_append, List.length_cons, List.length_nil] at hlen ⊢
          omega
        simp only [hmod]
        refine ⟨by simp, by simp, identifier, ?_, ?_, rfl⟩
        · have hg : (pre ++ [identifier] ++ ids).get? pre.length = some identifier := by
            rw [List.append_assoc, List.get?_eq_getElem?, List.getElem?_append_right (le_refl _)]
            simp
          simpa using hg
        · exact List.isPrefixOf_iff_prefix.mp hcond.2
      · simp only [List.length_append, List.length_cons, List.length_nil]
        exact Nat.mod_le _ _
    · rw [happ, hl1]
      apply NDEFRecord.createUriRecordLoop_inv uri ids (pre ++ [identifier])
      · exact hlen'
      · rw [← happ]; exact hinv
      · simp only [List.length_append, List.length_cons, List.length_nil]; omega

/-- Claim C5 (URI abbreviation). For every ASCII URI `u`, `createUriRecord(u)`
has type `{NfcForumWellKnown, "U"}` and a payload `[code] ++ rest` with
`uriProtocol(payload) ++ rest` equal to the bytes of `u`; for
`"https://www.example.com"` the payload is `[2] ++ "example.com"` and
`uriProtocol` of it is `"https://www."`. -/
theorem NDEFRecord.createUriRecord_uriProtocol :
    (∀ u : QString, (∀ c ∈ u, c < 128) →
      (NDEFRecord.createUriRecord u).type = ⟨NDEF_NfcForumRTD, ascii "U"⟩
      ∧ ∃ code rest proto, (NDEFRecord.createUriRecord u).payload = [code] ++ rest
          ∧ NDEFRecord.uriProtocol (NDEFRecord.createUriRecord u).payload = some proto
          ∧ proto ++ rest = QString.toUtf8 u)
    ∧ (NDEFRecord.createUriRecord (ascii "https://www.example.com")).payload
        = [2] ++ ascii "example.com"
    ∧ NDEFRecord.uriProtocol
          (NDEFRecord.createUriRecord (ascii "https://www.example.com")).payload
        = some (ascii "https://www.") := by
  refine ⟨?_, by decide, by decide⟩
  intro u hu
  constructor
  · unfold NDEFRecord.createUriRecord NDEFRecord.type
    dsimp only
    rw [NDEFRecord.setPayload_type_of_ne_empty _ _ (by decide)]
    rfl
  · have hinv := NDEFRecord.createUriRecordLoop_inv u NDEFRecord.uri_identifiers [] (0, 0)
      (by decide) (Or.inl rfl) (by simp)
    simp only [List.nil_append, List.length_nil] at hinv
    generalize hst : NDEFRecord.createUriRecordLoop u NDEFRecord.uri_identifiers 0 (0, 0) = st
      at hinv
    have hpay : (NDEFRecord.createUriRecord u).payload
        = [st.1] ++ QString.toUtf8 (QString.right u ((u.length : Int) - (st.2 : Int))) := by
      unfold NDEFRecord.createUriRecord NDEFRecord.payload
      dsimp only
      rw [NDEFRecord.setPayload_payload, hst]
    have hlen35 : NDEFRecord.uri_identifiers.length = 35 := by decide
    rcases hinv with h0 | ⟨h1, h35, p, hget, hpre, hplen⟩
    · refine ⟨0, u, [], ?_, ?_, ?_⟩
      · rw [hpay, h0]
        have : QString.right u ((u.length : Int) - ((0 : Nat) : Int)) = u := by
          simp [QString.right]
        simp only [this, QString.toUtf8_ascii u hu]
      · rw [hpay, h0]
        simp [NDEFRecord.uriProtocol, QByteArray.at, toChar]
      · simp [QString.toUtf8_ascii u hu]
    · have hle : st.2 ≤ u.length := by
        rw [← hplen]; exact hpre.length_le
      have hr : QString.right u ((u.length : Int) - (st.2 : Int)) = u.drop st.2 :=
        QByteArray.right_sub_eq_drop u st.2 hle
      have hdrop_ascii : ∀ c ∈ u.drop st.2, c < 128 :=
        fun c hc => hu c (List.mem_of_mem_drop hc)
      have hp_ascii : ∀ c ∈ p, c < 128 := fun c hc => hu c (hpre.subset hc)
      refine ⟨st.1, u.drop st.2, p, ?_, ?_, ?_⟩
      · rw [hpay, hr, QString.toUtf8_ascii _ hdrop_ascii]
      · rw [hpay]
        rw [hlen35] at h35
        have hc : toChar st.1 = (st.1 : Int) := toChar_small st.1 (by omega)
        have hcond : (st.1 : Int) > 0 ∧ (st.1 : Int) ≤ (NDEFRecord.uri_identifiers.length : Int) := by
          rw [hlen35]; omega
        have hidx : ((st.1 : Int) - 1).toNat = st.1 - 1 := by omega
        simp only [NDEFRecord.uriProtocol, QByteArray.at, List.singleton_append, List.get?_cons_zero,
          hc, hcond, and_self, if_true, hidx, hget, QString.toLatin1_ascii p hp_ascii]
      · rw [QString.toUtf8_ascii u hu]
        have : p = u.take st.2 := by
          rw [← hplen]; exact List.prefix_iff_eq_take.mp hpre
        rw [this, List.take_append_drop]

theorem NDEFRecord.createUriRecord_uriProtocol_witness :
    (NDEFRecord.createUriRecord (ascii "tel:+123")).type = ⟨NDEF_NfcForumRTD, ascii "U"⟩
    ∧ ∃ code rest proto, (NDEFRecord.createUriRecord (ascii "tel:+123")).payload = [code] ++ rest
        ∧ NDEFRecord.uriProtocol (NDEFRecord.createUriRecord (ascii "tel:+123")).payload
            = some proto
        ∧ proto ++ rest = QString.toUtf8 (ascii "tel:+123") :=
  NDEFRecord.createUriRecord_uriProtocol.1 (ascii "tel:+123") (by decide)

theorem NDEFRecord.createTextRecord_payload (t : QByteArray) (l : QString)
    (hl : ∀ c ∈ l, c < 128) :
    (NDEFRecord.createTextRecord t l NDEF_UTF8).payload
      = min l.length 5 :: (l.take (min l.length 5) ++ t) := by
  unfold NDEFRecord.createTextRecord NDEFRecord.payload
  dsimp only
  rw [NDEFRecord.setPayload_payload]
  have hn : min l.length 5 ≤ 5 := Nat.min_le_right _ _
  have hs : ((0 ||| min l.length 5) % 2 ^ 8 ||| NDEF_UTF8 % 2 ^ 8) % 2 ^ 8 = min l.length 5 := by
    simp only [NDEF_UTF8, Nat.zero_or, Nat.zero_mod, Nat.or_zero, Nat.mod_mod]
    exact Nat.mod_eq_of_lt (by omega)
  have ha : ∀ c ∈ QString.left l (min l.length 5), c < 128 :=
    fun c hc => hl c (List.mem_of_mem_take hc)
  rw [hs, QString.toUtf8_ascii _ ha]
  rfl

theorem NDEFRecord.textLocale_status (n : Nat) (loc t : QByteArray) (hn : n ≤ 5)
    (hlen : loc.length = n) : NDEFRecord.textLocale (n :: (loc ++ t)) = some loc := by
  have hc : toUnsigned 32 (toChar n) = n := by
    rw [toChar_small n (by omega)]
    unfold toUnsigned
    omega
  have hand : n &&& 0x1f = n := by
    interval_cases n <;> rfl
  unfold NDEFRecord.textLocale QByteArray.at QByteArray.mid
  simp only [List.get?_cons_zero, hc, hand, List.drop_succ_cons, List.drop_zero]
  rw [List.take_append_of_le_length (by omega), List.take_of_length_le (by omega)]

theorem NDEFRecord.textText_status (n : Nat) (loc t : QByteArray) (hn : n ≤ 5)
    (hlen : loc.length = n) :
    NDEFRecord.textText (n :: (loc ++ t)) = some (NDEF_UTF8, t) := by
  have hm : n % 2 ^ 8 = n := Nat.mod_eq_of_lt (by omega)
  have hand : (n &&& 0x1f) % 2 ^ 8 = n := by
    interval_cases n <;> rfl
  have hutf : (n &&& NDEF_UTF16 != 0) = false := by
    interval_cases n <;> rfl
  have hright : QByteArray.right (n :: (loc ++ t))
      (((n :: (loc ++ t)).length : Int) - (1 + ((n : Nat) : Int))) = t := by
    unfold QByteArray.right
    have hl : (n :: (loc ++ t)).length = 1 + n + t.length := by
      simp only [List.length_append, List.length_cons, hlen]
      omega
    rw [hl]
    have h1 : ¬ (((1 + n + t.length : Nat) : Int) - (1 + ((n : Nat) : Int))
        ≥ ((1 + n + t.length : Nat) : Int)) := by omega
    have h2 : ¬ (((1 + n + t.length : Nat) : Int) - (1 + ((n : Nat) : Int)) < 0) := by omega
    rw [if_neg h1, if_neg h2]
    have h3 : 1 + n + t.length - (((1 + n + t.length : Nat) : Int) - (1 + ((n : Nat) : Int))).toNat
        = loc.length + 1 := by
      omega
    rw [h3, List.drop_succ_cons, List.drop_left]
  unfold NDEFRecord.textText QByteArray.at
  simp only [List.get?_cons_zero, hm, hand, hutf, hright]
  rfl

/-- Claim C6 (text codec). For every text `t`, given as its UTF-8 bytes, and
every ASCII locale `l`, the payload of `createTextRecord(t, l, NDEF_UTF8)` is
`[min(len l, 5)] ++ (first min(len l, 5) bytes of l) ++ t`, `textLocale` of it
is that locale prefix (all of `l` when `len l <= 5`) and `textText` of it
selects UTF-8 and the bytes `t`; the locale `"en-US"` and the text `"hi"` are
read back. -/
theorem NDEFRecord.createTextRecord_textLocale_textText :
    (∀ (t : QByteArray) (l : QString), (∀ c ∈ l, c < 128) →
      (NDEFRecord.createTextRecord t l NDEF_UTF8).payload
        = [min l.length 5] ++ l.take (min l.length 5) ++ t
      ∧ NDEFRecord.textLocale (NDEFRecord.createTextRecord t l NDEF_UTF8).payload
        = some (l.take (min l.length 5))
      ∧ (l.length ≤ 5 →
          NDEFRecord.textLocale (NDEFRecord.createTextRecord t l NDEF_UTF8).payload = some l)
      ∧ NDEFRecord.textText (NDEFRecord.createTextRecord t l NDEF_UTF8).payload
        = some (NDEF_UTF8, t))
    ∧ NDEFRecord.textLocale
        (NDEFRecord.createTextRecord (ascii "hi") (ascii "en-US") NDEF_UTF8).payload
        = some (ascii "en-US")
    ∧ NDEFRecord.textText
        (NDEFRecord.createTextRecord (ascii "hi") (ascii "en-US") NDEF_UTF8).payload
        = some (NDEF_UTF8, ascii "hi") := by
  refine ⟨?_, by decide, by decide⟩
  intro t l hl
  have hpay := NDEFRecord.createTextRecord_payload t l hl
  have hn : min l.length 5 ≤ 5 := Nat.min_le_right _ _
  have hnl : min l.length 5 ≤ l.length := Nat.min_le_left _ _
  have htake : (l.take (min l.length 5)).length = min l.length 5 := by
    rw [List.length_take]; omega
  have hloc := NDEFRecord.textLocale_status (min l.length 5) (l.take (min l.length 5)) t hn htake
  have htxt := NDEFRecord.textText_status (min l.length 5) (l.take (min l.length 5)) t hn htake
  rw [hpay]
  refine ⟨by simp, hloc, ?_, htxt⟩
  intro h5
  rw [hloc, List.take_of_length_le (by omega)]

theorem NDEFRecord.createTextRecord_textLocale_textText_witness :
    NDEFRecord.textLocale
        (NDEFRecord.createTextRecord (ascii "ciao") (ascii "it") NDEF_UTF8).payload
      = some (ascii "it") :=
  (NDEFRecord.createTextRecord_textLocale_textText.1 (ascii "ciao") (ascii "it")
    (by decide)).2.2.1 (by decide)

/-! ## Generic Control records -/

theorem NDEFRecordType.ne_eq_true_iff (a b : NDEFRecordType) :
    NDEFRecordType.ne a b = true ↔ a ≠ b := by
  cases a with
  | mk ai an =>
    cases b with
    | mk bi bn =>
      simp only [NDEFRecordType.ne, NDEFRecordType.id, NDEFRecordType.name, Bool.or_eq_true,
        decide_eq_true_eq, ne_eq, NDEFRecordType.mk.injEq]
      constructor
      · rintro (h | h) ⟨h1, h2⟩
        · exact h h1.symm
        · exact h h2.symm
      · intro h
        by_cases h1 : bi = ai
        · right
          intro h2
          exact h ⟨h1.symm, h2.symm⟩
        · left
          exact h1

theorem NDEFRecord.createGcTargetRecord_invalid (target : NDEFRecord)
    (ht : target.type ≠ NDEFRecordType.textRecordType)
    (hu : target.type ≠ NDEFRecordType.uriRecordType) :
    (NDEFRecord.createGcTargetRecord target).isValid = false := by
  have h1 := (NDEFRecordType.ne_eq_true_iff _ _).mpr ht
  have h2 := (NDEFRecordType.ne_eq_true_iff _ _).mpr hu
  simp only [NDEFRecord.createGcTargetRecord, h1, h2, and_self, if_true]
  rfl

theorem NDEFRecord.createGcTargetRecord_valid (target : NDEFRecord)
    (h : target.type = NDEFRecordType.textRecordType
      ∨ target.type = NDEFRecordType.uriRecordType) :
    (NDEFRecord.createGcTargetRecord target).isValid = true := by
  have hc : ¬ (NDEFRecordType.ne target.type NDEFRecordType.textRecordType = true
      ∧ NDEFRecordType.ne target.type NDEFRecordType.uriRecordType = true) := by
    rw [NDEFRecordType.ne_eq_true_iff, NDEFRecordType.ne_eq_true_iff]
    rintro ⟨h1, h2⟩
    rcases h with h | h
    · exact h1 h
    · exact h2 h
  simp only [NDEFRecord.createGcTargetRecord, hc, if_false, NDEFRecord.isValid, NDEFRecordType.id]
  rw [NDEFRecord.setPayload_type_of_ne_empty _ _ (by decide)]
  decide

/-- Claim C9 (Generic Control target constraint). For every config byte, action
(enum value or record) and data record: when the target's type is neither
`{NfcForumWellKnown, "T"}` nor `{NfcForumWellKnown, "U"}`, both overloads of
`createGenericControlRecord` return a record whose TNF is Invalid; when it is
one of the two, both return a valid record of type `{NfcForumWellKnown, "Gc"}`. -/
theorem NDEFRecord.createGenericControlRecord_target (config_byte action : Nat)
    (target action_record data : NDEFRecord) :
    ((target.type ≠ NDEFRecordType.textRecordType ∧ target.type ≠ NDEFRecordType.uriRecordType) →
      (NDEFRecord.createGenericControlRecord config_byte target action data).type.id
          = NDEF_Invalid
      ∧ (NDEFRecord.createGenericControlRecordRecord config_byte target action_record data).type.id
          = NDEF_Invalid)
    ∧ ((target.type = NDEFRecordType.textRecordType ∨ target.type = NDEFRecordType.uriRecordType) →
      ((NDEFRecord.createGenericControlRecord config_byte target action data).isValid = true
        ∧ (NDEFRecord.createGenericControlRecord config_byte target action data).type
            = ⟨NDEF_NfcForumRTD, ascii "Gc"⟩)
      ∧ ((NDEFRecord.createGenericControlRecordRecord config_byte target action_record data).isValid
            = true
        ∧ (NDEFRecord.createGenericControlRecordRecord config_byte target action_record data).type
            = ⟨NDEF_NfcForumRTD, ascii "Gc"⟩)) := by
  constructor
  · rintro ⟨ht, hu⟩
    have hv := NDEFRecord.createGcTargetRecord_invalid target ht hu
    constructor
    · simp only [NDEFRecord.createGenericControlRecord, hv]
      rfl
    · simp only [NDEFRecord.createGenericControlRecordRecord, hv]
      rfl
  · intro h
    have hv := NDEFRecord.createGcTargetRecord_valid target h
    have key : ∀ p : QByteArray,
        ((NDEFRecord.new.setType NDEFRecordType.genericControlRecordType).setPayload p).m_type
          = ⟨NDEF_NfcForumRTD, ascii "Gc"⟩ := by
      intro p
      rw [NDEFRecord.setPayload_type_of_ne_empty _ _ (by decide)]
      rfl
    constructor
    · unfold NDEFRecord.createGenericControlRecord
      simp only [hv, Bool.not_true, Bool.false_eq_true, if_false]
      simp only [NDEFRecord.isValid, NDEFRecord.type, NDEFRecordType.id, key]
      decide
    · unfold NDEFRecord.createGenericControlRecordRecord
      simp only [hv, Bool.not_true, Bool.false_eq_true, if_false]
      simp only [NDEFRecord.isValid, NDEFRecord.type, NDEFRecordType.id, key]
      decide

theorem NDEFRecord.createGenericControlRecord_target_witness :
    (NDEFRecord.createGenericControlRecord 0
        (NDEFRecord.newType (NDEFRecordType.new NDEF_MIME (ascii "a/b")) [] [1] false) 0
        NDEFRecord.new).type.id = NDEF_Invalid
    ∧ (NDEFRecord.createGenericControlRecordRecord 0
        (NDEFRecord.newType (NDEFRecordType.new NDEF_MIME (ascii "a/b")) [] [1] false)
        NDEFRecord.new NDEFRecord.new).type.id = NDEF_Invalid :=
  (NDEFRecord.createGenericControlRecord_target 0 0
    (NDEFRecord.newType (NDEFRecordType.new NDEF_MIME (ascii "a/b")) [] [1] false)
    NDEFRecord.new NDEFRecord.new).1 ⟨by decide, by decide⟩

/-! ## Messages -/

theorem NDEFMessage.isValidLoop_iff (rs : List NDEFRecord) :
    NDEFMessage.isValidLoop rs = true ↔ ∀ r ∈ rs, r.type.id ≠ NDEF_Invalid := by
  induction rs with
  | nil => simp [NDEFMessage.isValidLoop]
  | cons r rs ih =>
    by_cases h : r.m_type.m_id = NDEF_Invalid
    · simp [NDEFMessage.isValidLoop, NDEFRecord.isValid, NDEFRecord.type, NDEFRecordType.id, h]
    · simp [NDEFMessage.isValidLoop, NDEFRecord.isValid, NDEFRecord.type, NDEFRecordType.id, h]
      simpa [NDEFRecord.type, NDEFRecordType.id] using ih

/-- Claim C10 (message validity). A message is valid if and only if it has at
least one record and every record has a TNF other than Invalid; so the empty
message is invalid and a message that contains an Invalid-typed record is
invalid. -/
theorem NDEFMessage.isValid_iff (m : NDEFMessage) :
    (m.isValid = true ↔ (1 ≤ m.recordCount ∧ ∀ r ∈ m.records, r.type.id ≠ NDEF_Invalid))
    ∧ NDEFMessage.new.isValid = false
    ∧ ((∃ r ∈ m.records, r.type.id = NDEF_Invalid) → m.isValid = false) := by
  have key : m.isValid = true ↔
      (1 ≤ m.recordCount ∧ ∀ r ∈ m.records, r.type.id ≠ NDEF_Invalid) := by
    cases m with
    | mk rs =>
      cases rs with
      | nil => simp [NDEFMessage.isValid, NDEFMessage.recordCount]
      | cons r rs =>
        simp only [NDEFMessage.isValid, NDEFMessage.recordCount, NDEFMessage.records,
          List.isEmpty_cons, Bool.false_eq_true, if_false, NDEFMessage.isValidLoop_iff,
          List.length_cons]
        constructor
        · intro h; exact ⟨by omega, h⟩
        · intro h; exact h.2
  refine ⟨key, by simp [NDEFMessage.isValid, NDEFMessage.new], ?_⟩
  rintro ⟨r, hr, hinv⟩
  cases hv : m.isValid with
  | false => rfl
  | true => exact absurd hinv ((key.mp hv).2 r hr)

theorem NDEFMessage.isValid_iff_witness :
    NDEFMessage.isValid ⟨[NDEFRecord.newType (NDEFRecordType.new NDEF_Invalid []) [] [] false]⟩
      = false :=
  (NDEFMessage.isValid_iff
    ⟨[NDEFRecord.newType (NDEFRecordType.new NDEF_Invalid []) [] [] false]⟩).2.2
    ⟨_, List.mem_singleton.mpr rfl, rfl⟩

theorem NDEFMessage.toByteArrayLoop_flags (n i : Nat) :
    ((if (i : Int) = (n : Int) - 1 then (if i = 0 then 0 ||| NDEF_MB else 0) ||| NDEF_ME
      else (if i = 0 then 0 ||| NDEF_MB else 0)) &&& 0x38) = 0 := by
  split_ifs <;> decide

theorem NDEFMessage.fromByteArrayLoop_toByteArrayLoop (n : Nat) :
    ∀ (rs : List NDEFRecord) (i fuel : Nat) (msg : NDEFMessage),
      (∀ r ∈ rs, r.Canonical) → rs.length + 1 ≤ fuel →
      (NDEFMessage.toByteArrayLoop n rs i).length < 2 ^ 31 →
      NDEFMessage.fromByteArrayLoop fuel (NDEFMessage.toByteArrayLoop n rs i) msg
        = some ⟨msg.m_records ++ rs⟩ := by
  intro rs
  induction rs with
  | nil =>
    intro i fuel msg _ hfuel _
    obtain ⟨k, rfl⟩ : ∃ k, fuel = k + 1 := ⟨fuel - 1, by simp at hfuel; omega⟩
    simp [NDEFMessage.fromByteArrayLoop, NDEFMessage.toByteArrayLoop]
  | cons r rs ih =>
    intro i fuel msg hc hfuel hlen
    obtain ⟨k, rfl⟩ : ∃ k, fuel = k + 1 := ⟨fuel - 1, by simp at hfuel; omega⟩
    have hcr : r.Canonical := hc r (List.mem_cons_self r rs)
    have hcrs : ∀ x ∈ rs, x.Canonical := fun x hx => hc x (List.mem_cons_of_mem r hx)
    have hfl := NDEFMessage.toByteArrayLoop_flags n i
    simp only [NDEFMessage.toByteArrayLoop] at hlen ⊢
    generalize hfv : (if (i : Int) = (n : Int) - 1 then (if i = 0 then 0 ||| NDEF_MB else 0) ||| NDEF_ME
      else (if i = 0 then 0 ||| NDEF_MB else 0)) = fv at hfl hlen ⊢
    have hrt := NDEFRecord.decode_encode_append r fv
      (NDEFMessage.toByteArrayLoop n rs (i + 1)) hcr hfl hlen
    have hne : (r.toByteArray fv ++ NDEFMessage.toByteArrayLoop n rs (i + 1)).isEmpty = false := by
      rw [r.toByteArray_canonical fv hcr]; rfl
    have hvalid : r.m_type.m_id ≠ NDEF_Invalid := by
      rcases hcr.2 with ⟨ht, _⟩ | ⟨ht, _⟩ | ⟨ht, _⟩
      · rcases ht with ht | ht | ht | ht <;> simp [ht]
      · simp [ht]
      · rcases ht with ht | ht <;> simp [ht]
    unfold NDEFMessage.fromByteArrayLoop
    simp only [hne, Bool.false_eq_true, if_false, hrt, NDEFRecord.type, NDEFRecordType.id, hvalid,
      QByteArray.remove0, NDEFMessage.appendRecord]
    rw [r.toByteArray_length_flags 0 fv hcr, List.drop_left]
    have hlen' : (NDEFMessage.toByteArrayLoop n rs (i + 1)).length < 2 ^ 31 := by
      simp only [List.length_append] at hlen
      omega
    rw [ih (i + 1) k ⟨msg.m_records ++ [r]⟩ hcrs (by simp at hfuel ⊢; omega) hlen']
    simp

theorem NDEFMessage.toByteArrayLoop_length (n : Nat) :
    ∀ (rs : List NDEFRecord) (i : Nat), (∀ r ∈ rs, r.Canonical) →
      rs.length ≤ (NDEFMessage.toByteArrayLoop n rs i).length := by
  intro rs
  induction rs with
  | nil => intro i _; simp
  | cons r rs ih =>
    intro i hc
    have hcr : r.Canonical := hc r (List.mem_cons_self r rs)
    have := ih (i + 1) (fun x hx => hc x (List.mem_cons_of_mem r hx))
    simp only [NDEFMessage.toByteArrayLoop, List.length_append, List.length_cons]
    rw [r.toByteArray_canonical _ hcr]
    simp only [List.length_cons]
    omega

/-- Claim C2 (message round trip), amended. For every message `m` all of whose
records are in `Canonical` and whose encoding has fewer than 2^31 bytes,
`NDEFMessage::fromByteArray(m.toByteArray(), 0)` returns a message with the
same record list as `m`. -/
theorem NDEFMessage.message_roundtrip (m : NDEFMessage)
    (hc : ∀ r ∈ m.records, r.Canonical) (hlen : m.toByteArray.length < 2 ^ 31) :
    NDEFMessage.fromByteArray m.toByteArray 0 = some m := by
  unfold NDEFMessage.fromByteArray
  simp only [Int.sub_zero, QByteArray.right_length]
  unfold NDEFMessage.toByteArray at hlen ⊢
  dsimp only at hlen ⊢
  have hl := NDEFMessage.toByteArrayLoop_length m.recordCount m.m_records 0 hc
  rw [NDEFMessage.fromByteArrayLoop_toByteArrayLoop m.recordCount m.m_records 0 _ NDEFMessage.new
    hc (by omega) hlen]
  simp [NDEFMessage.new]

theorem NDEFMessage.message_roundtrip_witness :
    NDEFMessage.fromByteArray (NDEFMessage.toByteArray
        ⟨[⟨⟨NDEF_MIME, ascii "a/b"⟩, [7, 8], [1, 2, 3], true⟩,
          ⟨⟨NDEF_NfcForumRTD, ascii "T"⟩, [], [2, 101, 110, 104, 105], false⟩]⟩) 0
      = some ⟨[⟨⟨NDEF_MIME, ascii "a/b"⟩, [7, 8], [1, 2, 3], true⟩,
          ⟨⟨NDEF_NfcForumRTD, ascii "T"⟩, [], [2, 101, 110, 104, 105], false⟩]⟩ :=
  NDEFMessage.message_roundtrip
    ⟨[⟨⟨NDEF_MIME, ascii "a/b"⟩, [7, 8], [1, 2, 3], true⟩,
      ⟨⟨NDEF_NfcForumRTD, ascii "T"⟩, [], [2, 101, 110, 104, 105], false⟩]⟩
    (by
      intro r hr
      simp only [NDEFMessage.records, List.mem_cons, List.mem_singleton, List.not_mem_nil,
        or_false] at hr
      rcases hr with rfl | rfl <;> (unfold NDEFRecord.Canonical; decide))
    (by decide)

/-- Claim C2, counterexample. The message whose only record is the valid record
built with type Empty and id `[1]` is encoded as `[0xD8, 0, 0, 0]` and decoded
to a message whose record has an empty id. -/
theorem NDEFMessage.message_roundtrip_counterexample :
    NDEFMessage.isValid
        ⟨[NDEFRecord.newType (NDEFRecordType.new NDEF_Empty []) [1] [] false]⟩ = true
    ∧ NDEFMessage.toByteArray
        ⟨[NDEFRecord.newType (NDEFRecordType.new NDEF_Empty []) [1] [] false]⟩
        = [0xD8, 0, 0, 0]
    ∧ NDEFMessage.fromByteArray (NDEFMessage.toByteArray
        ⟨[NDEFRecord.newType (NDEFRecordType.new NDEF_Empty []) [1] [] false]⟩) 0
        = some ⟨[⟨⟨NDEF_Empty, []⟩, [], [], false⟩]⟩
    ∧ NDEFMessage.fromByteArray (NDEFMessage.toByteArray
        ⟨[NDEFRecord.newType (NDEFRecordType.new NDEF_Empty []) [1] [] false]⟩) 0
        ≠ some ⟨[NDEFRecord.newType (NDEFRecordType.new NDEF_Empty []) [1] [] false]⟩ := by
  decide

/-! ## TLV blocks -/

set_option maxRecDepth 20000 in
/-- Claim C7 (TLV round trip), evaluated at the failing input. The NDEF block
with a value of 128 bytes `0x41` is encoded with the single length byte `0x80`;
the parser reads that byte as a negative `char`, takes the extended-length
path, reads the first two value bytes as the length `0x4141`, finds too few
bytes and returns no entry. -/
theorem Tlv.tlv_roundtrip_128 :
    Tlv.toByteArray (Tlv.new Tlv.NDEF (List.replicate 128 0x41))
        = [0x03, 0x80] ++ List.replicate 128 0x41
    ∧ Tlv.fromByteArray (Tlv.toByteArray (Tlv.new Tlv.NDEF (List.replicate 128 0x41))) 0
        = some [] := by
  decide

/-- Claim C8 (TLV layout). For a tag `t` and a value `v` of at most 65535 bytes,
`Tlv(t, v).toByteArray()` is `[t]` when `t` is Null or Terminator,
`[t, len v] ++ v` when `len v <= 0xFE`, and
`[t, 0xFF, len v >> 8, len v & 0xFF] ++ v` otherwise; `length()` is 0 for
Null and Terminator and `len v` otherwise. -/
theorem Tlv.toByteArray_layout (t : Nat) (v : QByteArray) (ht : t < 256)
    (hv : v.length ≤ 65535) :
    (Tlv.new t v).toByteArray =
      (if t = Tlv.Null ∨ t = Tlv.Terminator then [t]
       else if v.length ≤ 0xFE then [t, v.length] ++ v
       else [t, 0xFF, v.length >>> 8, v.length &&& 0xFF] ++ v)
    ∧ (Tlv.new t v).length = (if t = Tlv.Null ∨ t = Tlv.Terminator then 0 else v.length) := by
  have ht' : t % 256 = t := Nat.mod_eq_of_lt ht
  have hl : v.length % 65536 = v.length := Nat.mod_eq_of_lt (by omega)
  by_cases hnt : t = Tlv.Null ∨ t = Tlv.Terminator
  · simp [Tlv.toByteArray, Tlv.length, Tlv.new, ht', hnt]
  · simp only [Tlv.toByteArray, Tlv.length, Tlv.new, Nat.reducePow, ht', hnt, if_false, hl]
    refine ⟨?_, trivial⟩
    by_cases hs : v.length ≤ 0xFE
    · have h8 : v.length % 256 = v.length := Nat.mod_eq_of_lt (by omega)
      simp only [hs, if_true, h8]
      by_cases h0 : v.length > 0
      · simp [h0]
      · have : v = [] := List.length_eq_zero.mp (by omega)
        simp [this]
    · have h0 : v.length > 0 := by omega
      have hhi : (v.length >>> 8) % 256 = v.length >>> 8 := by
        apply Nat.mod_eq_of_lt
        rw [Nat.shiftRight_eq_div_pow]
        omega
      have hlo : (v.length &&& 0xFF) % 256 = v.length &&& 0xFF := by
        apply Nat.mod_eq_of_lt
        have := @Nat.and_le_right v.length 0xFF
        omega
      simp only [hs, h0, hhi, hlo, if_true, if_false]
      simp

theorem Tlv.toByteArray_layout_witness :
    (3 < 256 ∧ [0xAA, 0xBB].length ≤ 65535) ∧
    ((Tlv.new 3 [0xAA, 0xBB]).toByteArray =
      (if 3 = Tlv.Null ∨ 3 = Tlv.Terminator then [3]
       else if [0xAA, 0xBB].length ≤ 0xFE then [3, [0xAA, 0xBB].length] ++ [0xAA, 0xBB]
       else [3, 0xFF, [0xAA, 0xBB].length >>> 8, [0xAA, 0xBB].length &&& 0xFF] ++ [0xAA, 0xBB])
    ∧ (Tlv.new 3 [0xAA, 0xBB]).length
        = (if 3 = Tlv.Null ∨ 3 = Tlv.Terminator then 0 else [0xAA, 0xBB].length)) :=
  ⟨by decide, Tlv.toByteArray_layout 3 [0xAA, 0xBB] (by decide) (by decide)⟩

/-! ## Records: wire layout -/

theorem writeU8_of_lt (x : Nat) (h : x < 256) : writeU8 x = [x] := by
  unfold writeU8
  rw [Nat.mod_eq_of_lt (by simpa using h)]

theorem writeU32_eq (n : Nat) (h : n < 2 ^ 32) :
    writeU32 n = [n / 2 ^ 24, n / 2 ^ 16 % 256, n / 2 ^ 8 % 256, n % 256] := by
  simp only [writeU32, Nat.mod_eq_of_lt h]

theorem NDEFRecord.flags_eq (r : NDEFRecord) :
    r.flags = (if r.payload.length < 256 then NDEF_SR else 0)
        ||| (if r.id ≠ [] then NDEF_IL else 0)
        ||| (if r.isChuncked = true then NDEF_CF else 0) := by
  have hid : (r.m_id.length > 0) ↔ r.m_id ≠ [] := List.length_pos
  unfold NDEFRecord.flags NDEFRecord.isShort NDEFRecord.payload NDEFRecord.id
  simp only [Nat.zero_or, decide_eq_true_eq, hid]

theorem NDEFRecord.flags_lt (r : NDEFRecord) : r.flags < 256 := by
  unfold NDEFRecord.flags
  cases r.isShort <;> cases r.isChuncked <;> by_cases h : r.m_id.length > 0 <;>
    simp only [h, if_true, if_false, Bool.false_eq_true, NDEF_SR, NDEF_IL, NDEF_CF] <;> decide

theorem NDEFRecord.headerByte_eq (r : NDEFRecord) (f : Nat) (hf : f < 256) :
    r.headerByte f = ((f ||| r.flags) &&& 0xF8) ||| r.type.id.toNat := by
  have h1 : f ||| r.flags < 2 ^ 8 := Nat.or_lt_two_pow (by simpa using hf) (by simpa using r.flags_lt)
  have h2 : (f ||| r.flags) &&& 0xF8 < 2 ^ 8 := Nat.and_lt_two_pow _ (by decide)
  have h3 : r.m_type.m_id.toNat < 2 ^ 8 := by
    have := NDEFRecordTypeId.toNat_lt r.m_type.m_id
    omega
  have h4 : ((f ||| r.flags) &&& 0xF8) ||| r.m_type.m_id.toNat < 2 ^ 8 := Nat.or_lt_two_pow h2 h3
  unfold NDEFRecord.headerByte NDEFRecord.type NDEFRecordType.id
  rw [Nat.mod_eq_of_lt h1, Nat.mod_eq_of_lt h4]

theorem NDEFRecord.idLengthField_eq (r : NDEFRecord) (hid : r.m_id.length ≤ 255) :
    (if r.m_id.length ≠ 0 then writeU8 r.m_id.length else [])
      = (if r.m_id ≠ [] then [r.m_id.length] else []) := by
  rw [writeU8_of_lt _ (by omega)]
  by_cases h : r.m_id = []
  · simp [h]
  · simp [h]

theorem NDEFRecord.namedLayout_raw (r : NDEFRecord) (f : Nat)
    (ht : r.m_type.m_id = NDEF_NfcForumRTD ∨ r.m_type.m_id = NDEF_MIME ∨ r.m_type.m_id = NDEF_URI
      ∨ r.m_type.m_id = NDEF_ExternalRTD) :
    r.toByteArray f = [r.headerByte f] ++ writeU8 r.m_type.m_name.length
        ++ (if r.isShort = true then writeU8 r.m_payload.length else writeU32 r.m_payload.length)
        ++ (if r.m_id.length ≠ 0 then writeU8 r.m_id.length else [])
        ++ r.m_type.m_name ++ r.m_id ++ r.m_payload := by
  unfold NDEFRecord.toByteArray NDEFRecord.headerByte
  rcases ht with ht | ht | ht | ht <;>
    simp only [NDEFRecordType.id, NDEFRecordType.name, ht] <;>
    cases r.isShort <;> simp [writeU8]

theorem NDEFRecord.unknownLayout_raw (r : NDEFRecord) (f : Nat)
    (ht : r.m_type.m_id = NDEF_Unknown ∨ r.m_type.m_id = NDEF_Unchanged) :
    r.toByteArray f = [r.headerByte f] ++ writeU8 0 ++ writeU32 r.m_payload.length
        ++ (if r.m_id.length ≠ 0 then writeU8 r.m_id.length else [])
        ++ r.m_id ++ r.m_payload := by
  unfold NDEFRecord.toByteArray NDEFRecord.headerByte
  rcases ht with ht | ht <;>
    simp only [NDEFRecordType.id, ht] <;> simp [writeU8]

theorem NDEFRecord.emptyLayout_raw (r : NDEFRecord) (f : Nat)
    (ht : r.m_type.m_id = NDEF_Empty) :
    r.toByteArray f = [r.headerByte f] ++ writeU8 0 ++ writeU8 0
        ++ (if r.m_id.length ≠ 0 then writeU8 0 else []) := by
  unfold NDEFRecord.toByteArray NDEFRecord.headerByte
  simp only [NDEFRecordType.id, ht]
  simp [writeU8]

/-- Claim C12 (layout of named records). For a record of TNF NfcForumWellKnown,
Mime, Uri or ExternalWellKnown with a type name and an id of at most 255 bytes
each, a payload below 2^32 bytes and an extra-flag byte `f`, `toByteArray(f)` is
`[((f | flags()) & 0xF8) | tnf] ++ [len name] ++ payload-length field ++
id-length field ++ name ++ id ++ payload`: the payload-length field is one byte
when the payload has fewer than 256 bytes and four bytes big-endian otherwise,
the id-length field is present when the id is non-empty, and `flags()` is SR
for a short payload, IL for a non-empty id, CF for a chunked record. -/
theorem NDEFRecord.toByteArray_named (r : NDEFRecord) (f : Nat)
    (ht : r.type.id = NDEF_NfcForumRTD ∨ r.type.id = NDEF_MIME ∨ r.type.id = NDEF_URI
      ∨ r.type.id = NDEF_ExternalRTD)
    (hname : r.type.name.length ≤ 255) (hid : r.id.length ≤ 255)
    (hpl : r.payload.length < 2 ^ 32) (hf : f < 256) :
    r.toByteArray f = [((f ||| r.flags) &&& 0xF8) ||| r.type.id.toNat] ++ [r.type.name.length]
        ++ (if r.payload.length < 256 then [r.payload.length]
            else [r.payload.length / 2 ^ 24, r.payload.length / 2 ^ 16 % 256,
                  r.payload.length / 2 ^ 8 % 256, r.payload.length % 256])
        ++ (if r.id ≠ [] then [r.id.length] else [])
        ++ r.type.name ++ r.id ++ r.payload
    ∧ r.flags = (if r.payload.length < 256 then NDEF_SR else 0)
        ||| (if r.id ≠ [] then NDEF_IL else 0)
        ||| (if r.isChuncked = true then NDEF_CF else 0) := by
  refine ⟨?_, r.flags_eq⟩
  have hname' : r.m_type.m_name.length < 256 := Nat.lt_succ_of_le hname
  rw [r.namedLayout_raw f ht, r.headerByte_eq f hf, r.idLengthField_eq hid,
    writeU8_of_lt _ hname']
  simp only [NDEFRecord.type, NDEFRecord.payload, NDEFRecord.id, NDEFRecordType.id,
    NDEFRecordType.name] at hpl ⊢
  by_cases hs : r.m_payload.length < 256
  · have hshort : r.isShort = true := by simp [NDEFRecord.isShort, hs]
    rw [hshort, if_pos rfl, if_pos hs, writeU8_of_lt _ hs]
  · have hshort : r.isShort = false := by simp [NDEFRecord.isShort, hs]
    rw [hshort, if_neg (by decide), if_neg hs, writeU32_eq _ hpl]

theorem NDEFRecord.toByteArray_named_witness :
    NDEFRecord.toByteArray ⟨⟨NDEF_MIME, ascii "a/b"⟩, [7, 8], [1, 2, 3], true⟩ 0x80
      = [0xBA, 3, 3, 2] ++ ascii "a/b" ++ [7, 8] ++ [1, 2, 3] :=
  (NDEFRecord.toByteArray_named ⟨⟨NDEF_MIME, ascii "a/b"⟩, [7, 8], [1, 2, 3], true⟩ 0x80
    (Or.inr (Or.inl rfl)) (by decide) (by decide) (by decide) (by decide)).1

/-- Claim C13 (layout of Unknown and Unchanged records). For a record of TNF
Unknown or Unchanged with an id of at most 255 bytes, a payload below 2^32
bytes and an extra-flag byte `f`, `toByteArray(f)` is
`[((f | flags()) & 0xF8) | tnf] ++ [0] ++ 4-byte big-endian payload length ++
id-length field ++ id ++ payload`: the type-length byte is 0, no type name is
written and the payload-length field has four bytes whatever the payload
length. -/
theorem NDEFRecord.toByteArray_unknown (r : NDEFRecord) (f : Nat)
    (ht : r.type.id = NDEF_Unknown ∨ r.type.id = NDEF_Unchanged)
    (hid : r.id.length ≤ 255) (hpl : r.payload.length < 2 ^ 32) (hf : f < 256) :
    r.toByteArray f = [((f ||| r.flags) &&& 0xF8) ||| r.type.id.toNat] ++ [0]
        ++ [r.payload.length / 2 ^ 24, r.payload.length / 2 ^ 16 % 256,
            r.payload.length / 2 ^ 8 % 256, r.payload.length % 256]
        ++ (if r.id ≠ [] then [r.id.length] else [])
        ++ r.id ++ r.payload := by
  rw [r.unknownLayout_raw f ht, r.headerByte_eq f hf, r.idLengthField_eq hid,
    writeU8_of_lt 0 (by decide)]
  simp only [NDEFRecord.type, NDEFRecord.payload, NDEFRecord.id, NDEFRecordType.id] at hpl ⊢
  rw [writeU32_eq _ hpl]

theorem NDEFRecord.toByteArray_unknown_witness :
    NDEFRecord.toByteArray ⟨⟨NDEF_Unknown, []⟩, [], [9], false⟩ 0
      = [0x15] ++ [0] ++ [0, 0, 0, 1] ++ [] ++ [] ++ [9] :=
  NDEFRecord.toByteArray_unknown ⟨⟨NDEF_Unknown, []⟩, [], [9], false⟩ 0
    (Or.inl rfl) (by decide) (by decide) (by decide)

/-- Claim C14 (layout of Empty records). For a record of TNF Empty and an
extra-flag byte `f`, `toByteArray(f)` is `[hdr, 0, 0]` when the id is empty and
`[hdr, 0, 0, 0]` when it is not, with `hdr = (f | flags()) & 0xF8`: no id byte
and no payload byte is written. -/
theorem NDEFRecord.toByteArray_empty (r : NDEFRecord) (f : Nat)
    (ht : r.type.id = NDEF_Empty) (hf : f < 256) :
    (r.id = [] → r.toByteArray f = [(f ||| r.flags) &&& 0xF8, 0, 0])
    ∧ (r.id ≠ [] → r.toByteArray f = [(f ||| r.flags) &&& 0xF8, 0, 0, 0]) := by
  have hh : r.headerByte f = (f ||| r.flags) &&& 0xF8 := by
    rw [r.headerByte_eq f hf, ht]
    simp [NDEFRecordTypeId.toNat]
  rw [r.emptyLayout_raw f ht, hh, writeU8_of_lt 0 (by decide)]
  simp only [NDEFRecord.id]
  constructor
  · intro h
    simp [h]
  · intro h
    have : r.m_id.length ≠ 0 := fun h0 => h (List.length_eq_zero.mp h0)
    simp [this]

theorem NDEFRecord.toByteArray_empty_witness :
    NDEFRecord.toByteArray ⟨⟨NDEF_Empty, []⟩, [1], [], false⟩ 0xC0 = [0xD8, 0, 0, 0] :=
  (NDEFRecord.toByteArray_empty ⟨⟨NDEF_Empty, []⟩, [1], [], false⟩ 0xC0 rfl (by decide)).2
    (by decide)

/-- Claim C15 (Invalid records have no encoding). For every record and every
extra-flag value, `toByteArray` is the empty byte sequence if and only if the
TNF is Invalid; for every other TNF it has at least 3 bytes. -/
theorem NDEFRecord.toByteArray_nil_iff (r : NDEFRecord) (f : Nat) :
    (r.toByteArray f = [] ↔ r.type.id = NDEF_Invalid)
    ∧ (r.type.id ≠ NDEF_Invalid → 3 ≤ (r.toByteArray f).length) := by
  simp only [NDEFRecord.type, NDEFRecordType.id]
  cases ht : r.m_type.m_id
  case NDEF_Empty =>
    rw [r.emptyLayout_raw f ht]
    simp [writeU8]
  case NDEF_NfcForumRTD =>
    rw [r.namedLayout_raw f (Or.inl ht)]
    cases r.isShort <;> simp [writeU8, writeU32]
  case NDEF_MIME =>
    rw [r.namedLayout_raw f (Or.inr (Or.inl ht))]
    cases r.isShort <;> simp [writeU8, writeU32]
  case NDEF_URI =>
    rw [r.namedLayout_raw f (Or.inr (Or.inr (Or.inl ht)))]
    cases r.isShort <;> simp [writeU8, writeU32]
  case NDEF_ExternalRTD =>
    rw [r.namedLayout_raw f (Or.inr (Or.inr (Or.inr ht)))]
    cases r.isShort <;> simp [writeU8, writeU32]
  case NDEF_Unknown =>
    rw [r.unknownLayout_raw f (Or.inl ht)]
    simp [writeU8, writeU32]
  case NDEF_Unchanged =>
    rw [r.unknownLayout_raw f (Or.inr ht)]
    simp [writeU8, writeU32]
  case NDEF_Invalid =>
    simp [NDEFRecord.toByteArray, NDEFRecordType.id, ht]

theorem NDEFRecord.toByteArray_nil_iff_witness :
    3 ≤ (NDEFRecord.toByteArray ⟨⟨NDEF_Empty, []⟩, [], [], false⟩ 0).length :=
  (NDEFRecord.toByteArray_nil_iff ⟨⟨NDEF_Empty, []⟩, [], [], false⟩ 0).2 (by decide)

/-! ## Records: parsing and declared lengths -/

theorem NDEFRecordTypeId.ofTnf_invalid_iff (n : Nat) :
    NDEFRecordTypeId.ofTnf n = NDEF_Invalid ↔ n % 8 = 7 := by
  have h : n % 8 < 8 := Nat.mod_lt _ (by decide)
  unfold NDEFRecordTypeId.ofTnf
  generalize n % 8 = k at h
  interval_cases k <;> simp

theorem NDEFRecordType.new_id (t : NDEFRecordTypeId) (nm : QByteArray) :
    (NDEFRecordType.new t nm).m_id = t := by
  cases t <;> rfl

theorem NDEFRecord.checkConsistency_invalid_iff (r : NDEFRecord) :
    r.checkConsistency.m_type.m_id = NDEF_Invalid ↔ r.m_type.m_id = NDEF_Invalid := by
  unfold NDEFRecord.checkConsistency
  dsimp only
  split
  · rename_i h
    simp [NDEFRecordType.new, NDEFRecordType.id] at h ⊢
    rw [h.2]
    decide
  · rfl

theorem NDEFRecordType.fromByteArray_id (data : QByteArray) (offset : Nat)
    (ho : offset ≤ data.length) (hlen : data.length < 2 ^ 31) :
    (NDEFRecordType.fromByteArray data offset).m_id
      = if data.length - offset < 3 then NDEF_Invalid
        else NDEFRecordTypeId.ofTnf ((readU8 (data.drop offset)).1 &&& 0x07) := by
  have h1 : toUnsigned 32 ((data.length : Int) - (offset : Int)) = data.length - offset := by
    have : (data.length : Int) - (offset : Int) = ((data.length - offset : Nat) : Int) := by omega
    rw [this, toUnsigned_natCast 32 _ (by omega)]
  unfold NDEFRecordType.fromByteArray
  simp only [h1]
  by_cases h3 : data.length - offset < 3
  · rw [if_neg (by omega), if_pos h3]
    rfl
  · rw [if_pos (by omega), if_neg h3, toInt32_natCast _ (by omega), NDEFRecordType.new_id]
    have : QByteArray.right data ((data.length - offset : Nat) : Int) = data.drop offset := by
      have := QByteArray.right_sub_eq_drop data offset ho
      rw [← this]
      congr 1
      omega
    rw [this]

theorem NDEFRecord.fromByteArray_type_invalid_iff (data : QByteArray) (offset : Int) :
    (NDEFRecord.fromByteArray data offset).m_type.m_id = NDEF_Invalid
      ↔ (NDEFRecordType.fromByteArray data offset).m_id = NDEF_Invalid := by
  unfold NDEFRecord.fromByteArray
  dsimp only
  have hnew : ∀ ty : NDEFRecordType, NDEFRecord.new.setType ty = ⟨ty, [], [], false⟩ := by
    intro ty
    unfold NDEFRecord.setType NDEFRecord.new
    rw [NDEFRecord.checkConsistency_of_payload_nil _ rfl]
  by_cases hv : (NDEFRecordType.fromByteArray data offset).m_id = NDEF_Invalid
  · simp only [NDEFRecordType.id, hv, ne_eq, not_true_eq_false, if_false, hnew]
  · simp only [NDEFRecordType.id, hv, ne_eq, not_false_eq_true, if_true, hnew, iff_false]
    unfold NDEFRecord.setPayload
    rw [NDEFRecord.checkConsistency_invalid_iff]
    split
    · show (NDEFRecord.setId _ _).m_type.m_id ≠ NDEF_Invalid
      unfold NDEFRecord.setId
      rw [ne_eq, NDEFRecord.checkConsistency_invalid_iff]
      exact hv
    · exact hv

theorem NDEFRecord.fromByteArray_of_invalid (data : QByteArray) (offset : Int)
    (h : (NDEFRecordType.fromByteArray data offset).m_id = NDEF_Invalid) :
    NDEFRecord.fromByteArray data offset
      = ⟨NDEFRecordType.fromByteArray data offset, [], [], false⟩ := by
  unfold NDEFRecord.fromByteArray
  dsimp only
  simp only [NDEFRecordType.id, h, ne_eq, not_true_eq_false, if_false]
  unfold NDEFRecord.setType NDEFRecord.new
  rw [NDEFRecord.checkConsistency_of_payload_nil _ rfl]

/-- Claim C17 (when parsing gives Invalid). For a buffer of fewer than 2^31
bytes and an offset within it, `NDEFRecord::fromByteArray(data, offset)` has
TNF Invalid if and only if fewer than 3 bytes remain after the offset or the low
three bits of the byte at the offset are 7; in that case the record has an empty
id, an empty payload and the chunk flag false. -/
theorem NDEFRecord.fromByteArray_invalid_iff (data : QByteArray) (offset : Nat)
    (ho : offset ≤ data.length) (hlen : data.length < 2 ^ 31) :
    ((NDEFRecord.fromByteArray data offset).type.id = NDEF_Invalid
      ↔ (data.length - offset < 3 ∨ ∃ b, data.get? offset = some b ∧ b % 8 = 7))
    ∧ ((NDEFRecord.fromByteArray data offset).type.id = NDEF_Invalid →
        (NDEFRecord.fromByteArray data offset).id = []
        ∧ (NDEFRecord.fromByteArray data offset).payload = []
        ∧ (NDEFRecord.fromByteArray data offset).isChuncked = false) := by
  simp only [NDEFRecord.type, NDEFRecordType.id]
  have hid := NDEFRecordType.fromByteArray_id data offset ho hlen
  constructor
  · rw [NDEFRecord.fromByteArray_type_invalid_iff, hid]
    by_cases h3 : data.length - offset < 3
    · simp [h3]
    · have hlt : offset < data.length := by omega
      have hdrop : data.drop offset = data[offset] :: data.drop (offset + 1) :=
        List.drop_eq_getElem_cons hlt
      have hget : data.get? offset = some data[offset] := by
        rw [List.get?_eq_getElem?, List.getElem?_eq_getElem hlt]
      have hand : data[offset] &&& 0x07 = data[offset] % 8 :=
        Nat.and_pow_two_sub_one_eq_mod _ 3
      simp only [h3, if_false, false_or, hdrop, readU8, hget, Option.some.injEq,
        exists_eq_left', NDEFRecordTypeId.ofTnf_invalid_iff, hand, Nat.mod_mod]
  · intro h
    rw [NDEFRecord.fromByteArray_type_invalid_iff] at h
    rw [NDEFRecord.fromByteArray_of_invalid data offset h]
    exact ⟨rfl, rfl, rfl⟩

theorem NDEFRecord.fromByteArray_invalid_iff_witness :
    (NDEFRecord.fromByteArray [0x00, 0x17, 0x00, 0x00] (1 : Nat)).type.id = NDEF_Invalid :=
  (NDEFRecord.fromByteArray_invalid_iff [0x00, 0x17, 0x00, 0x00] 1 (by decide) (by decide)).1.mpr
    (Or.inr ⟨0x17, rfl, by decide⟩)

theorem NDEFRecordType.readTypeName_eq :
    ∀ (n : Nat) (s acc : QByteArray),
      NDEFRecordType.readTypeName n s acc = acc ++ s.take n ++ List.replicate (n - s.length) 0 := by
  intro n
  induction n with
  | zero => intro s acc; simp [NDEFRecordType.readTypeName]
  | succ n ih =>
    intro s acc
    cases s with
    | nil =>
      simp only [NDEFRecordType.readTypeName, readU8, ih, List.take_nil, List.length_nil,
        Nat.sub_zero, List.append_nil, List.append_assoc, List.replicate_succ]
      simp
    | cons b t =>
      simp only [NDEFRecordType.readTypeName, readU8, ih, List.take_succ_cons, List.length_cons,
        Nat.add_sub_add_right, List.append_assoc]
      simp

theorem NDEFRecord.fromByteArray_fields (hdr tl pl idl : Nat) (avail : QByteArray)
    (hhdr : hdr < 256) (htl : tl < 256) (hidl : idl < 256)
    (hil : (hdr &&& NDEF_IL != 0) = false → idl = 0)
    (hpl : pl < 2 ^ 32) (hsr : (hdr &&& NDEF_SR != 0) = true → pl < 256)
    (htnf : hdr % 8 ≠ 0 ∧ hdr % 8 ≠ 7)
    (hlen : ((if (hdr &&& NDEF_SR != 0) = true then writeU8 pl else writeU32 pl)
        ++ (if (hdr &&& NDEF_IL != 0) = true then writeU8 idl else [])
        ++ avail).length + 2 < 2 ^ 31) :
    NDEFRecord.fromByteArray (hdr :: tl ::
        ((if (hdr &&& NDEF_SR != 0) = true then writeU8 pl else writeU32 pl)
        ++ (if (hdr &&& NDEF_IL != 0) = true then writeU8 idl else [])
        ++ avail)) 0
      = ⟨⟨NDEFRecordTypeId.ofTnf (hdr &&& 0x07),
            avail.take tl ++ List.replicate (tl - avail.length) 0⟩,
          (avail.drop tl).take idl, ((avail.drop tl).drop idl).take pl,
          hdr &&& NDEF_CF != 0⟩ := by
  have htl8 : tl % 2 ^ 8 = tl := Nat.mod_eq_of_lt (by omega)
  have hid8 : idl % 2 ^ 8 = idl := Nat.mod_eq_of_lt (by omega)
  have hhdr8 : hdr % 2 ^ 8 = hdr := Nat.mod_eq_of_lt (by omega)
  have hand : hdr &&& 0x07 = hdr % 8 := Nat.and_pow_two_sub_one_eq_mod _ 3
  have hne : NDEFRecordTypeId.ofTnf (hdr &&& 0x07) ≠ NDEF_Invalid := by
    rw [ne_eq, NDEFRecordTypeId.ofTnf_invalid_iff, hand, Nat.mod_mod]
    exact htnf.2
  have hnE : NDEFRecordTypeId.ofTnf (hdr &&& 0x07) ≠ NDEF_Empty := by
    rw [hand]
    have h8 : hdr % 8 < 8 := Nat.mod_lt _ (by decide)
    unfold NDEFRecordTypeId.ofTnf
    rw [Nat.mod_mod]
    generalize hdr % 8 = k at h8 htnf
    interval_cases k <;> simp at htnf ⊢
  have hnew : ∀ nm, NDEFRecordType.new (NDEFRecordTypeId.ofTnf (hdr &&& 0x07)) nm
      = ⟨NDEFRecordTypeId.ofTnf (hdr &&& 0x07), nm⟩ :=
    fun nm => NDEFRecordType.new_eq _ nm (fun h => absurd h hnE)
  have hpay : ∀ (nm p : QByteArray),
      (⟨NDEFRecordTypeId.ofTnf (hdr &&& 0x07), nm⟩ : NDEFRecordType).m_id = NDEF_Empty
      → p = [] := fun _ _ h => absurd h hnE
  simp only [NDEF_SR, NDEF_IL, NDEF_CF] at hil hsr hlen ⊢
  generalize hs : ((if (hdr &&& 0x10 != 0) = true then writeU8 pl else writeU32 pl)
        ++ (if (hdr &&& 0x08 != 0) = true then writeU8 idl else [])
        ++ avail) = s at hlen
  have hs1 : 1 ≤ s.length := by
    rw [← hs]
    cases (hdr &&& 0x10 != 0)
    · simp [writeU32]
    · simp [writeU8]
  have htype := NDEFRecordType.fromByteArray_cons hdr tl s hs1 hlen
  have hright : QByteArray.right (hdr :: tl :: s)
      (((hdr :: tl :: s).length : Int) - 0) = hdr :: tl :: s := by
    rw [Int.sub_zero]; exact QByteArray.right_length _
  have htn : NDEFRecordType.fromByteArray (hdr :: tl :: s) 0
      = ⟨NDEFRecordTypeId.ofTnf (hdr &&& 0x07),
          avail.take tl ++ List.replicate (tl - avail.length) 0⟩ := by
    rw [htype, htl8, hnew, ← hs]
    congr 1
    cases (hdr &&& 0x10 != 0) <;> cases (hdr &&& 0x08 != 0)
    all_goals simp only [if_true, if_false, Bool.false_eq_true,
        writeU8, writeU32, skipRawData, List.cons_append, List.nil_append, List.drop_succ_cons,
        List.drop_zero, List.append_assoc, List.append_nil]
    all_goals rw [NDEFRecordType.readTypeName_eq]
    all_goals simp
  have hread8 : ∀ (b : Nat) (t : QByteArray), readU8 (b :: t) = (b, t) := fun _ _ => rfl
  unfold NDEFRecord.fromByteArray
  simp only [htn, hright, NDEFRecordType.id, ne_eq, hne, not_false_eq_true, if_true, hread8,
    hhdr8, NDEF_SR, NDEF_IL, NDEF_CF]
  rw [← hs]
  generalize (hdr &&& 0x10 != 0) = sr at hsr ⊢
  generalize (hdr &&& 0x08 != 0) = il at hil ⊢
  cases sr <;> cases il
  · -- long record, no id
    have h0 : idl = 0 := hil rfl
    subst h0
    simp only [Bool.false_eq_true, if_false, List.append_nil, hread8, htl8,
      List.append_assoc, readU32_writeU32 _ _ hpl, skipRawData, bufferRead,
      List.take_zero, List.drop_zero]
    exact NDEFRecord.build_without_id _ _ _ (hpay _ _)
  · -- long record, id
    simp only [Bool.false_eq_true, if_false, if_true, hread8, htl8, hid8, writeU8,
      List.append_assoc, readU32_writeU32 _ _ hpl, skipRawData, bufferRead,
      List.cons_append, List.nil_append]
    exact NDEFRecord.build_with_id _ _ _ _ (hpay _ _)
  · -- short record, no id
    have h0 : idl = 0 := hil rfl
    subst h0
    have hpl' : pl < 256 := hsr rfl
    have hp8 : pl % 2 ^ 8 = pl := Nat.mod_eq_of_lt (by omega)
    have hp32 : pl % 2 ^ 32 = pl := Nat.mod_eq_of_lt (by omega)
    simp only [Bool.false_eq_true, if_false, if_true, List.append_nil, hread8, htl8, writeU8, hp8,
      hp32, List.append_assoc, skipRawData, bufferRead,
      List.cons_append, List.nil_append, List.take_zero, List.drop_zero]
    exact NDEFRecord.build_without_id _ _ _ (hpay _ _)
  · -- short record, id
    have hpl' : pl < 256 := hsr rfl
    have hp8 : pl % 2 ^ 8 = pl := Nat.mod_eq_of_lt (by omega)
    have hp32 : pl % 2 ^ 32 = pl := Nat.mod_eq_of_lt (by omega)
    simp only [Bool.false_eq_true, if_false, if_true, hread8, htl8, hid8, writeU8, hp8,
      hp32, List.append_assoc, skipRawData, bufferRead,
      List.cons_append, List.nil_append]
    exact NDEFRecord.build_with_id _ _ _ _ (hpay _ _)

/-- Claim C18 (declared lengths past the end of the buffer), amended.
`NDEFRecord::fromByteArray` does not check the declared lengths against the
buffer. For every buffer of at least 3 and fewer than 2^31 bytes whose first
byte has low three bits other than 7 it returns a valid record. When the
payload-length and id-length fields are complete and the TNF is neither Empty
nor Invalid, the record has the TNF of the header, a type name made of the
bytes present after the header fields zero-filled to the declared type length,
an id made of the at most `idl` bytes present after the declared type bytes and
a payload made of the at most `pl` bytes present after those. -/
theorem NDEFRecord.fromByteArray_unchecked :
    (∀ (data : QByteArray) (b : Nat), 3 ≤ data.length → data.length < 2 ^ 31 →
      data.head? = some b → b % 8 ≠ 7 → (NDEFRecord.fromByteArray data 0).isValid = true)
    ∧ (∀ (hdr tl pl idl : Nat) (avail : QByteArray),
      hdr < 256 → tl < 256 → idl < 256 → pl < 2 ^ 32 →
      ((hdr &&& NDEF_IL != 0) = false → idl = 0) →
      ((hdr &&& NDEF_SR != 0) = true → pl < 256) →
      (hdr % 8 ≠ 0 ∧ hdr % 8 ≠ 7) →
      ((if (hdr &&& NDEF_SR != 0) = true then writeU8 pl else writeU32 pl)
        ++ (if (hdr &&& NDEF_IL != 0) = true then writeU8 idl else [])
        ++ avail).length + 2 < 2 ^ 31 →
      NDEFRecord.fromByteArray (hdr :: tl ::
        ((if (hdr &&& NDEF_SR != 0) = true then writeU8 pl else writeU32 pl)
        ++ (if (hdr &&& NDEF_IL != 0) = true then writeU8 idl else [])
        ++ avail)) 0
      = ⟨⟨NDEFRecordTypeId.ofTnf (hdr &&& 0x07),
            avail.take tl ++ List.replicate (tl - avail.length) 0⟩,
          (avail.drop tl).take idl, ((avail.drop tl).drop idl).take pl,
          hdr &&& NDEF_CF != 0⟩) := by
  constructor
  · intro data b h3 hlen hb hb7
    have hid := NDEFRecordType.fromByteArray_id data 0 (Nat.zero_le _) hlen
    simp only [Nat.cast_zero, Nat.sub_zero, List.drop_zero] at hid
    rw [if_neg (by omega)] at hid
    have hne : (NDEFRecord.fromByteArray data 0).m_type.m_id ≠ NDEF_Invalid := by
      rw [ne_eq, NDEFRecord.fromByteArray_type_invalid_iff, hid,
        NDEFRecordTypeId.ofTnf_invalid_iff]
      cases data with
      | nil => simp at h3
      | cons x t =>
        simp only [List.head?_cons, Option.some.injEq] at hb
        subst hb
        have hand : x &&& 0x07 = x % 8 := Nat.and_pow_two_sub_one_eq_mod _ 3
        simp only [readU8, hand, Nat.mod_mod]
        exact hb7
    simp [NDEFRecord.isValid, NDEFRecordType.id, hne]
  · intro hdr tl pl idl avail hhdr htl hidl hpl hil hsr htnf hlen
    exact NDEFRecord.fromByteArray_fields hdr tl pl idl avail hhdr htl hidl hil hpl hsr htnf hlen

theorem NDEFRecord.fromByteArray_unchecked_witness :
    (NDEFRecord.fromByteArray [0x11, 0x05, 0x00] 0).isValid = true :=
  NDEFRecord.fromByteArray_unchecked.1 [0x11, 0x05, 0x00] 0x11 (by decide) (by decide) rfl
    (by decide)

/-- Claim C18, counterexample. The buffer `[0x11, 0x05, 0x00]` has 3 bytes and
its header declares a type name of 5 bytes although no byte follows the
payload-length byte; `fromByteArray` returns the valid record of type
NfcForumWellKnown whose name is five zero bytes. -/
theorem NDEFRecord.fromByteArray_unchecked_counterexample :
    3 ≤ ([0x11, 0x05, 0x00] : QByteArray).length
    ∧ NDEFRecord.fromByteArray [0x11, 0x05, 0x00] 0
        = ⟨⟨NDEF_NfcForumRTD, [0, 0, 0, 0, 0]⟩, [], [], false⟩
    ∧ (NDEFRecord.fromByteArray [0x11, 0x05, 0x00] 0).type.id ≠ NDEF_Invalid := by
  decide

/-! ## Messages: encoding -/

theorem NDEFMessage.toByteArrayLoop_eq (n : Nat) :
    ∀ (rs : List NDEFRecord) (i : Nat),
      NDEFMessage.toByteArrayLoop n rs i
        = ((rs.enumFrom i).map (fun p => p.2.toByteArray
            ((if p.1 = 0 then NDEF_MB else 0) ||| (if p.1 + 1 = n then NDEF_ME else 0)))).flatten := by
  intro rs
  induction rs with
  | nil => intro i; rfl
  | cons r rs ih =>
    intro i
    have hfl : (if (i : Int) = (n : Int) - 1 then (if i = 0 then 0 ||| NDEF_MB else 0) ||| NDEF_ME
          else (if i = 0 then 0 ||| NDEF_MB else 0))
        = (if i = 0 then NDEF_MB else 0) ||| (if i + 1 = n then NDEF_ME else 0) := by
      have hc : ((i : Int) = (n : Int) - 1) ↔ (i + 1 = n) := by omega
      rw [if_congr hc rfl rfl]
      split_ifs <;> simp only [Nat.zero_or, Nat.or_zero]
    simp only [NDEFMessage.toByteArrayLoop, List.enumFrom_cons, List.map_cons, List.flatten_cons,
      hfl, ih (i + 1)]

/-- Claim C16 (message encoding). `NDEFMessage::toByteArray()` is the
concatenation, in order, of `r_i.toByteArray(f_i)` over the records, where `f_i`
is MB (0x80) when `i = 0`, or-ed with ME (0x40) when `i = n - 1`, and has no
other bit; a one-record message encodes its record with `MB | ME` and the empty
message encodes to the empty byte sequence. -/
theorem NDEFMessage.toByteArray_concat (m : NDEFMessage) :
    m.toByteArray
      = (m.records.enum.map (fun p => p.2.toByteArray
          ((if p.1 = 0 then NDEF_MB else 0)
            ||| (if p.1 + 1 = m.recordCount then NDEF_ME else 0)))).flatten
    ∧ (∀ r : NDEFRecord, NDEFMessage.toByteArray ⟨[r]⟩ = r.toByteArray (NDEF_MB ||| NDEF_ME))
    ∧ NDEFMessage.toByteArray ⟨[]⟩ = [] := by
  refine ⟨?_, ?_, rfl⟩
  · unfold NDEFMessage.toByteArray NDEFMessage.records List.enum
    exact NDEFMessage.toByteArrayLoop_eq m.recordCount m.m_records 0
  · intro r
    simp [NDEFMessage.toByteArray, NDEFMessage.recordCount, NDEFMessage.toByteArrayLoop]

/-! ## TLV blocks: parsing and long values -/

theorem QByteArray.at_append_cons (pre : QByteArray) (x : Nat) (rest : QByteArray) :
    QByteArray.at (pre ++ x :: rest) pre.length = some x := by
  unfold QByteArray.at
  rw [List.get?_eq_getElem?, List.getElem?_append_right (le_refl _)]
  simp

theorem QByteArray.mid_append (pre v rest : QByteArray) :
    QByteArray.mid (pre ++ (v ++ rest)) pre.length v.length = v := by
  unfold QByteArray.mid
  rw [List.drop_left, List.take_left]

theorem Tlv.encode_short (ty : Nat) (v : QByteArray) (hty : ty < 256)
    (hn : ty ≠ Tlv.Null) (ht : ty ≠ Tlv.Terminator) (hv : v.length ≤ 0xFE) :
    Tlv.toByteArray ⟨ty, v⟩ = ty :: v.length :: v := by
  have h1 : ty % 2 ^ 8 = ty := Nat.mod_eq_of_lt (by omega)
  have h2 : v.length % 2 ^ 16 = v.length := Nat.mod_eq_of_lt (by omega)
  have h3 : v.length % 2 ^ 8 = v.length := Nat.mod_eq_of_lt (by omega)
  have hc : ¬ (ty = Tlv.Null ∨ ty = Tlv.Terminator) := by
    rintro (h | h)
    · exact hn h
    · exact ht h
  unfold Tlv.toByteArray Tlv.length
  simp only [hc, if_false, h1, h2, h3, hv, if_true]
  by_cases h0 : v.length > 0
  · simp [h0]
  · have : v = [] := List.length_eq_zero.mp (by omega)
    simp [this]

theorem Tlv.readLength_small (buffer : QByteArray) (count index len : Nat) (h : len < 128) :
    Tlv.readLength buffer count index len = some (len, index + 1) := by
  have hc : toUnsigned 16 (toChar len) = len := by
    rw [toChar_small len h]
    exact toUnsigned_natCast 16 len (by omega)
  unfold Tlv.readLength
  simp only [hc]
  rw [if_neg (by omega)]

theorem Tlv.fromByteArrayLoop_blocks (s : QByteArray) :
    ∀ (L : List Tlv) (pre : QByteArray) (acc : TlvList) (fuel : Nat),
      (∀ t ∈ L, t.Plain) → L.length + 2 ≤ fuel →
      Tlv.fromByteArrayLoop (pre ++ ((L.map Tlv.toByteArray).flatten ++ Tlv.Terminator :: s))
          (pre ++ ((L.map Tlv.toByteArray).flatten ++ Tlv.Terminator :: s)).length
          fuel pre.length acc
        = some (acc ++ L ++ [Tlv.createTerminatorTlv]) := by
  intro L
  induction L with
  | nil =>
    intro pre acc fuel _ hfuel
    obtain ⟨k, rfl⟩ : ∃ k, fuel = k + 2 := ⟨fuel - 2, by simp at hfuel; omega⟩
    simp only [List.map_nil, List.flatten_nil, List.nil_append, List.append_nil]
    unfold Tlv.fromByteArrayLoop
    rw [if_pos (by simp), QByteArray.at_append_cons]
    simp only [Tlv.Terminator, Tlv.Null]
    rw [if_neg (by decide), if_pos (by decide)]
    unfold Tlv.fromByteArrayLoop
    rw [if_neg (by omega)]
  | cons t L ih =>
    intro pre acc fuel hgood hfuel
    obtain ⟨k, rfl⟩ : ∃ k, fuel = k + 1 := ⟨fuel - 1, by simp at hfuel; omega⟩
    obtain ⟨ty, v⟩ := t
    obtain ⟨hty, hn, ht, hv⟩ : Tlv.Plain ⟨ty, v⟩ := hgood _ (List.mem_cons_self _ _)
    simp only at hty hn ht hv
    have hgood' : ∀ t ∈ L, t.Plain := fun t h => hgood t (List.mem_cons_of_mem _ h)
    have henc := Tlv.encode_short ty v hty hn ht (by omega)
    have hty8 : ty % 2 ^ 8 = ty := Nat.mod_eq_of_lt (by omega)
    generalize htail : (L.map Tlv.toByteArray).flatten ++ Tlv.Terminator :: s = tail at ih
    have hbuf : pre ++ (((⟨ty, v⟩ :: L).map Tlv.toByteArray).flatten ++ Tlv.Terminator :: s)
        = pre ++ ty :: v.length :: (v ++ tail) := by
      simp only [List.map_cons, List.flatten_cons, henc, List.cons_append, List.append_assoc,
        htail]
    rw [hbuf]
    have hb1 : pre ++ ty :: v.length :: (v ++ tail) = (pre ++ [ty]) ++ v.length :: (v ++ tail) := by
      simp
    have hb2 : pre ++ ty :: v.length :: (v ++ tail) = (pre ++ [ty, v.length]) ++ (v ++ tail) := by
      simp
    have hb3 : pre ++ ty :: v.length :: (v ++ tail) = (pre ++ [ty, v.length] ++ v) ++ tail := by
      simp
    have hat0 : QByteArray.at (pre ++ ty :: v.length :: (v ++ tail)) pre.length = some ty :=
      QByteArray.at_append_cons _ _ _
    have hat1 : QByteArray.at (pre ++ ty :: v.length :: (v ++ tail)) (pre.length + 1)
        = some v.length := by
      rw [hb1]
      have := QByteArray.at_append_cons (pre ++ [ty]) v.length (v ++ tail)
      simpa using this
    have hmid : QByteArray.mid (pre ++ ty :: v.length :: (v ++ tail)) (pre.length + 1 + 1) v.length
        = v := by
      rw [hb2]
      have := QByteArray.mid_append (pre ++ [ty, v.length]) v tail
      simpa using this
    have hcount : (pre ++ ty :: v.length :: (v ++ tail)).length
        = pre.length + 2 + v.length + tail.length := by
      simp only [List.length_append, List.length_cons]
      omega
    unfold Tlv.fromByteArrayLoop
    rw [if_pos (by rw [hcount]; omega), hat0]
    simp only [hty8]
    rw [if_neg hn, if_neg ht, if_pos (by rw [hcount]; push_cast; omega), hat1]
    simp only [Tlv.readLength_small _ _ _ _ hv]
    rw [if_pos (by rw [hcount]; push_cast; omega), hmid]
    have hnew : Tlv.new ty v = ⟨ty, v⟩ := by
      unfold Tlv.new
      rw [hty8]
    have hidx : pre.length + 1 + 1 + v.length = (pre ++ [ty, v.length] ++ v).length := by
      simp only [List.length_append, List.length_cons, List.length_nil]
    rw [hnew, hidx]
    have := ih (pre ++ [ty, v.length] ++ v) (acc ++ [⟨ty, v⟩]) k hgood'
      (by simp at hfuel ⊢; omega)
    rw [← hb3] at this
    rw [this]
    simp

theorem Tlv.fromByteArray_zero (data : QByteArray) (h : data.length < 2 ^ 31) :
    Tlv.fromByteArray data 0 = Tlv.fromByteArrayLoop data data.length (data.length + 1) 0 [] := by
  have h1 : toUnsigned 64 ((data.length : Int) - ((0 : Nat) : Int)) = data.length := by
    rw [Nat.cast_zero, Int.sub_zero, toUnsigned_natCast 64 _ (by omega)]
  have h2 : QByteArray.left data (data.length : Int) = data := by
    simp [QByteArray.left]
  unfold Tlv.fromByteArray
  simp only [h1, toInt32_natCast _ h, h2]

theorem Tlv.blocks_length (L : List Tlv) (hL : ∀ t ∈ L, t.Plain) :
    L.length ≤ ((L.map Tlv.toByteArray).flatten).length := by
  induction L with
  | nil => simp
  | cons t L ih =>
    obtain ⟨ty, v⟩ := t
    obtain ⟨hty, hn, ht, hv⟩ : Tlv.Plain ⟨ty, v⟩ := hL _ (List.mem_cons_self _ _)
    simp only at hty hn ht hv
    have henc := Tlv.encode_short ty v hty hn ht (by omega)
    have := ih (fun t h => hL t (List.mem_cons_of_mem _ h))
    simp only [List.map_cons, List.flatten_cons, henc, List.length_append, List.length_cons]
    omega

/-- Claim C11 (terminator short-circuit). For every list `L` of TLV blocks whose
tags are bytes other than Null and Terminator and whose values have fewer than
128 bytes, and every byte sequence `s`, parsing the encodings of `L` followed by
`0xFE` and `s` (fewer than 2^31 bytes in all) gives `L` followed by one
Terminator entry: `s` contributes nothing. The buffer
`[0x03, 0x02, 0xAA, 0xBB, 0xFE, 0x99, 0x99]` gives the NDEF block with value
`[0xAA, 0xBB]` and the Terminator. -/
theorem Tlv.fromByteArray_terminator :
    (∀ (L : List Tlv) (s : QByteArray), (∀ t ∈ L, t.Plain) →
      ((L.map Tlv.toByteArray).flatten ++ [0xFE] ++ s).length < 2 ^ 31 →
      Tlv.fromByteArray ((L.map Tlv.toByteArray).flatten ++ [0xFE] ++ s) 0
        = some (L ++ [Tlv.createTerminatorTlv]))
    ∧ Tlv.fromByteArray [0x03, 0x02, 0xAA, 0xBB, 0xFE, 0x99, 0x99] 0
        = some [⟨Tlv.NDEF, [0xAA, 0xBB]⟩, Tlv.createTerminatorTlv] := by
  refine ⟨?_, by decide⟩
  intro L s hL hlen
  rw [Tlv.fromByteArray_zero _ hlen]
  have hform : (L.map Tlv.toByteArray).flatten ++ [0xFE] ++ s
      = (L.map Tlv.toByteArray).flatten ++ Tlv.Terminator :: s := by
    simp [Tlv.Terminator]
  rw [hform]
  have hkey := Tlv.fromByteArrayLoop_blocks s L [] []
    (((L.map Tlv.toByteArray).flatten ++ Tlv.Terminator :: s).length + 1) hL
    (by
      have := Tlv.blocks_length L hL
      simp only [List.length_append, List.length_cons]
      omega)
  simpa using hkey

theorem Tlv.fromByteArray_terminator_witness :
    Tlv.fromByteArray
        ((([⟨0x01, [7]⟩, ⟨0x03, []⟩] : List Tlv).map Tlv.toByteArray).flatten ++ [0xFE] ++ [1, 2]) 0
      = some (([⟨0x01, [7]⟩, ⟨0x03, []⟩] : List Tlv) ++ [Tlv.createTerminatorTlv]) :=
  Tlv.fromByteArray_terminator.1 [⟨0x01, [7]⟩, ⟨0x03, []⟩] [1, 2]
    (by
      intro t ht
      simp only [List.mem_cons, List.mem_singleton, List.not_mem_nil, or_false] at ht
      rcases ht with rfl | rfl <;> (unfold Tlv.Plain; decide))
    (by decide)

/-- Claim C19 (truncated TLV blocks), evaluated at failing inputs. The buffer
`[0x03, 0xFF]` ends right after the `0xFF` escape and the buffer
`[0x03, 0xFF, 0x00, 0x05]` ends after an extended length of 5 with no value
byte; in both cases the parser keeps the length 0 and returns an entry with
tag `0x03` and an empty value. -/
theorem Tlv.fromByteArray_truncated_escape :
    Tlv.fromByteArray [0x03, 0xFF] 0 = some [⟨0x03, []⟩]
    ∧ Tlv.fromByteArray [0x03, 0xFF, 0x00, 0x05] 0 = some [⟨0x03, []⟩] := by
  decide

theorem Tlv.toByteArray_any (ty : Nat) (v : QByteArray) (hty : ty < 256)
    (hn : ty ≠ Tlv.Null) (ht : ty ≠ Tlv.Terminator) (hv : 0 < v.length) :
    (Tlv.new ty v).toByteArray
      = [ty] ++ (if v.length % 65536 ≤ 0xFE then [v.length % 65536]
          else [0xFF, v.length % 65536 / 256, v.length % 65536 % 256]) ++ v := by
  have h1 : ty % 256 = ty := Nat.mod_eq_of_lt hty
  have hc : ¬ (ty = Tlv.Null ∨ ty = Tlv.Terminator) := by
    rintro (h | h)
    · exact hn h
    · exact ht h
  have hlt : v.length % 65536 < 65536 := Nat.mod_lt _ (by decide)
  unfold Tlv.toByteArray Tlv.length Tlv.new
  simp only [Nat.reducePow, h1, hc, if_false, hv, if_true]
  by_cases hs : v.length % 65536 ≤ 0xFE
  · have h8 : v.length % 65536 % 256 = v.length % 65536 := Nat.mod_eq_of_lt (by omega)
    simp only [hs, if_true, h8]
  · have hhi : (v.length % 65536) >>> 8 % 256 = v.length % 65536 / 256 := by
      rw [Nat.shiftRight_eq_div_pow]
      exact Nat.mod_eq_of_lt (by omega)
    have hlo : (v.length % 65536 &&& 0xFF) % 256 = v.length % 65536 % 256 := by
      have : v.length % 65536 &&& 0xFF = v.length % 65536 % 2 ^ 8 :=
        Nat.and_pow_two_sub_one_eq_mod _ 8
      rw [this]
      omega
    simp only [hs, if_false, hhi, hlo]
    rfl

/-- Claim C20 (values longer than 65535 bytes), amended. `Tlv::toByteArray` has
no failure result: for a tag other than Null and Terminator and a value of
more than 65535 bytes it returns the tag, a length field that holds the length
modulo 65536 (one byte up to `0xFE`, else `0xFF` and two bytes big-endian) and
all the value bytes. -/
theorem Tlv.toByteArray_overlong (ty : Nat) (v : QByteArray) (hty : ty < 256)
    (hn : ty ≠ Tlv.Null) (ht : ty ≠ Tlv.Terminator) (hv : 65535 < v.length) :
    (Tlv.new ty v).toByteArray
      = [ty] ++ (if v.length % 65536 ≤ 0xFE then [v.length % 65536]
          else [0xFF, v.length % 65536 / 256, v.length % 65536 % 256]) ++ v :=
  Tlv.toByteArray_any ty v hty hn ht (by omega)

theorem Tlv.toByteArray_overlong_witness :
    (Tlv.new 0x03 (List.replicate 65536 0)).toByteArray
      = [0x03] ++ (if (List.replicate 65536 0).length % 65536 ≤ 0xFE
            then [(List.replicate 65536 0).length % 65536]
          else [0xFF, (List.replicate 65536 0).length % 65536 / 256,
            (List.replicate 65536 0).length % 65536 % 256]) ++ List.replicate 65536 0 :=
  Tlv.toByteArray_overlong 0x03 (List.replicate 65536 0) (by decide) (by decide) (by decide)
    (by rw [List.length_replicate]; decide)

/-- Claim C20, counterexample. The NDEF block with a value of 65536 zero bytes
is encoded as `[0x03, 0x00]` followed by the 65536 value bytes: a byte stream
is returned and its length field is 0. -/
theorem Tlv.toByteArray_overlong_counterexample :
    65535 < (List.replicate 65536 (0 : Nat)).length
    ∧ (Tlv.new 0x03 (List.replicate 65536 0)).toByteArray = [0x03, 0x00] ++ List.replicate 65536 0
    ∧ (Tlv.new 0x03 (List.replicate 65536 0)).toByteArray ≠ [] := by
  have h := Tlv.toByteArray_any 0x03 (List.replicate 65536 0) (by decide) (by decide) (by decide)
    (by rw [List.length_replicate]; decide)
  rw [List.length_replicate] at h
  have h' : (Tlv.new 0x03 (List.replicate 65536 0)).toByteArray
      = [0x03, 0x00] ++ List.replicate 65536 0 := by
    rw [h]
    rfl
  refine ⟨by rw [List.length_replicate]; decide, h', ?_⟩
  rw [h']
  exact List.cons_ne_nil _ _

/-! ## URI records: the prefix table -/

theorem NDEFRecord.createUriRecordLoop_max (uri : QString) :
    ∀ (ids pre : List QString) (st : Nat × Nat), pre.length + ids.length ≤ 255 →
      (∀ q ∈ ids, q ≠ []) → UriLoopMax uri pre st →
      UriLoopMax uri (pre ++ ids) (NDEFRecord.createUriRecordLoop uri ids pre.length st)
  | [], pre, st, _, _, hinv => by simpa [NDEFRecord.createUriRecordLoop] using hinv
  | identifier :: ids, pre, st, hlen, hne, hinv => by
    have hlen' : (pre ++ [identifier]).length + ids.length ≤ 255 := by
      simp only [List.length_append, List.length_cons, List.length_nil] at hlen ⊢
      omega
    have happ : pre ++ identifier :: ids = (pre ++ [identifier]) ++ ids := by simp
    have hl1 : pre.length + 1 = (pre ++ [identifier]).length := by simp
    have hne' : ∀ q ∈ ids, q ≠ [] := fun q hq => hne q (List.mem_cons_of_mem _ hq)
    have hpos : 0 < identifier.length :=
      List.length_pos.mpr (hne identifier (List.mem_cons_self _ _))
    unfold NDEFRecord.createUriRecordLoop
    simp only
    split
    · rename_i hcond
      have hpre : identifier <+: uri := List.isPrefixOf_iff_prefix.mp hcond.2
      rw [happ, hl1]
      apply NDEFRecord.createUriRecordLoop_max uri ids (pre ++ [identifier]) _ hlen' hne'
      right
      have hmod : (pre ++ [identifier]).length % 2 ^ 8 = (pre ++ [identifier]).length := by
        apply Nat.mod_eq_of_lt
        simp only [List.length_append, List.length_cons, List.length_nil] at hlen ⊢
        omega
      simp only [hmod]
      refine ⟨by simp, le_refl _, identifier, ?_, hpre, rfl, ?_⟩
      · rw [List.get?_eq_getElem?, List.getElem?_append_right (by simp)]
        simp
      · intro q hq hqp
        rcases List.mem_append.mp hq with hq | hq
        · rcases hinv with ⟨hst, hno⟩ | ⟨_, _, p, _, _, _, hmax⟩
          · exact absurd hqp (hno q hq)
          · have := hmax q hq hqp
            have := hcond.1
            omega
        · rw [List.mem_singleton.mp hq]
    · rename_i hcond
      rw [happ, hl1]
      apply NDEFRecord.createUriRecordLoop_max uri ids (pre ++ [identifier]) _ hlen' hne'
      rcases hinv with ⟨hst, hno⟩ | ⟨h1, h2, p, hg, hp, hpl, hmax⟩
      · left
        refine ⟨hst, ?_⟩
        intro q hq hqp
        rcases List.mem_append.mp hq with hq | hq
        · exact hno q hq hqp
        · rw [List.mem_singleton.mp hq] at hqp
          apply hcond
          refine ⟨?_, List.isPrefixOf_iff_prefix.mpr hqp⟩
          rw [hst]
          exact hpos
      · right
        refine ⟨h1, by simp only [List.length_append, List.length_cons, List.length_nil]; omega,
          p, ?_, hp, hpl, ?_⟩
        · rw [List.get?_eq_getElem?, List.getElem?_append_left (by omega),
            ← List.get?_eq_getElem?]
          exact hg
        · intro q hq hqp
          rcases List.mem_append.mp hq with hq | hq
          · exact hmax q hq hqp
          · rw [List.mem_singleton.mp hq] at hqp ⊢
            by_contra hlt
            apply hcond
            exact ⟨by omega, List.isPrefixOf_iff_prefix.mpr hqp⟩

theorem NDEFRecord.uri_identifiers_ne_nil : ∀ q ∈ NDEFRecord.uri_identifiers, q ≠ [] := by
  decide

/-- Claim C21 (longest prefix). For every URI string `u` the payload of
`createUriRecord(u)` is `[c] ++ rest` with `0 ≤ c ≤ 35`; `c = 0` exactly when no
entry of the prefix table is a prefix of `u`, and then `rest` is the UTF-8 form
of `u`; otherwise entry `c - 1` of the table is a prefix of `u`, no entry that
is a prefix of `u` is longer, and `rest` is the UTF-8 form of `u` without that
prefix. For `"urn:epc:id:x"` the code is 30 (`"urn:epc:id:"`), not 19 (`"urn:"`). -/
theorem NDEFRecord.createUriRecord_longest_prefix :
    (∀ u : QString, ∃ c rest, (NDEFRecord.createUriRecord u).payload = c :: rest ∧ c ≤ 35
      ∧ (c = 0 ↔ ∀ p ∈ NDEFRecord.uri_identifiers, ¬ p <+: u)
      ∧ (c = 0 → rest = QString.toUtf8 u)
      ∧ (c ≠ 0 → ∃ p, NDEFRecord.uri_identifiers.get? (c - 1) = some p ∧ p <+: u
          ∧ (∀ q ∈ NDEFRecord.uri_identifiers, q <+: u → q.length ≤ p.length)
          ∧ rest = QString.toUtf8 (u.drop p.length)))
    ∧ (NDEFRecord.createUriRecord (ascii "urn:epc:id:x")).payload = 30 :: ascii "x" := by
  refine ⟨?_, by decide⟩
  intro u
  have hinv := NDEFRecord.createUriRecordLoop_max u NDEFRecord.uri_identifiers [] (0, 0)
    (by decide) NDEFRecord.uri_identifiers_ne_nil (Or.inl ⟨rfl, by simp⟩)
  simp only [List.length_nil, List.nil_append] at hinv
  have hpay : (NDEFRecord.createUriRecord u).payload
      = (NDEFRecord.createUriRecordLoop u NDEFRecord.uri_identifiers 0 (0, 0)).1
        :: QString.toUtf8 (QString.right u ((u.length : Int)
          - (NDEFRecord.createUriRecordLoop u NDEFRecord.uri_identifiers 0 (0, 0)).2)) := by
    unfold NDEFRecord.createUriRecord NDEFRecord.payload
    simp only [NDEFRecord.setPayload_payload]
    rfl
  refine ⟨_, _, hpay, ?_⟩
  generalize NDEFRecord.createUriRecordLoop u NDEFRecord.uri_identifiers 0 (0, 0) = st at hinv
  have hlen35 : NDEFRecord.uri_identifiers.length = 35 := rfl
  rcases hinv with ⟨hst, hno⟩ | ⟨h1, h2, p, hg, hp, hpl, hmax⟩
  · subst hst
    refine ⟨by simp, ?_, ?_, ?_⟩
    · exact ⟨fun _ => hno, fun _ => rfl⟩
    · intro _
      simp [QString.right]
    · intro h
      exact absurd rfl h
  · refine ⟨by omega, ?_, ?_, ?_⟩
    · constructor
      · intro h0; omega
      · intro hno
        exact absurd hp (hno p (List.get?_mem hg) )
    · intro h0; omega
    · intro _
      refine ⟨p, hg, hp, ?_, ?_⟩
      · intro q hq hqp
        rw [hpl]
        exact hmax q hq hqp
      · have hle : st.2 ≤ u.length := by
          rw [← hpl]
          exact hp.length_le
        have : QString.right u ((u.length : Int) - (st.2 : Int)) = u.drop st.2 := by
          unfold QString.right
          split_ifs with g1 g2
          · have : st.2 = 0 := by omega
            rw [this]; rfl
          · omega
          · congr 1
            omega
        rw [this, hpl]

theorem NDEFRecord.uriProtocol_cons (b : Nat) (rest : QByteArray) :
    NDEFRecord.uriProtocol (b :: rest) = NDEFRecord.uriProtocol [b] := rfl

set_option maxRecDepth 100000 in
theorem NDEFRecord.uriProtocol_byte : ∀ b < 256,
    NDEFRecord.uriProtocol [b]
      = some (if 1 ≤ b ∧ b ≤ 35 then (NDEFRecord.uri_identifiers.get? (b - 1)).getD [] else []) := by
  decide

set_option maxRecDepth 100000 in
theorem NDEFRecord.uri_identifiers_get : ∀ b < 256, 1 ≤ b ∧ b ≤ 35 →
    (NDEFRecord.uri_identifiers.get? (b - 1)).isSome = true := by
  decide

/-- Claim C22 (prefix lookup). For every non-empty payload with first byte `b`:
the prefix table has 35 entries; for `1 ≤ b ≤ 35` the result of
`uriProtocol(payload)` is entry `b - 1` of the table that `createUriRecord`
uses; for `b = 0` and for `36 ≤ b ≤ 255` it is the empty string. -/
theorem NDEFRecord.uriProtocol_lookup (b : Nat) (rest : QByteArray) (hb : b < 256) :
    NDEFRecord.uri_identifiers.length = 35
    ∧ (1 ≤ b ∧ b ≤ 35 → ∃ p, NDEFRecord.uri_identifiers.get? (b - 1) = some p
        ∧ NDEFRecord.uriProtocol (b :: rest) = some p)
    ∧ (b = 0 ∨ 36 ≤ b → NDEFRecord.uriProtocol (b :: rest) = some []) := by
  refine ⟨rfl, ?_, ?_⟩
  · intro h
    have hs := NDEFRecord.uri_identifiers_get b hb h
    obtain ⟨p, hp⟩ := Option.isSome_iff_exists.mp hs
    refine ⟨p, hp, ?_⟩
    rw [NDEFRecord.uriProtocol_cons, NDEFRecord.uriProtocol_byte b hb, if_pos h, hp]
    rfl
  · intro h
    have hn : ¬ (1 ≤ b ∧ b ≤ 35) := by omega
    rw [NDEFRecord.uriProtocol_cons, NDEFRecord.uriProtocol_byte b hb, if_neg hn]

theorem NDEFRecord.uriProtocol_lookup_witness :
    ∃ p, NDEFRecord.uri_identifiers.get? (4 - 1) = some p
      ∧ NDEFRecord.uriProtocol (4 :: ascii "example.com") = some p :=
  (NDEFRecord.uriProtocol_lookup 4 (ascii "example.com") (by decide)).2.1 (by decide)

/-! ## Smart Poster records -/

theorem NDEFRecord.createSmartPosterRecordLoop_eq (u : NDEFRecord) :
    ∀ (rs : List NDEFRecord) (i : Nat),
      NDEFMessage.toByteArrayLoop (i + rs.length + 1) (rs ++ [u]) i
        = NDEFRecord.createSmartPosterRecordLoop rs i
          ++ u.toByteArray (if i + rs.length = 0 then NDEF_MB ||| NDEF_ME else NDEF_ME) := by
  intro rs
  induction rs with
  | nil =>
    intro i
    simp only [List.nil_append, NDEFMessage.toByteArrayLoop, List.length_nil, Nat.add_zero,
      NDEFRecord.createSmartPosterRecordLoop, List.append_nil]
    have h : ((i : Int) = ((i + 1 : Nat) : Int) - 1) := by omega
    rw [if_pos h]
    split_ifs <;> simp only [Nat.zero_or]
  | cons r rs ih =>
    intro i
    have hn : i + (r :: rs).length + 1 = (i + 1) + rs.length + 1 := by
      simp only [List.length_cons]; omega
    have h : ¬ ((i : Int) = ((i + 1 + rs.length + 1 : Nat) : Int) - 1) := by omega
    rw [hn]
    have h2 : i + 1 + rs.length ≠ 0 := by omega
    simp only [List.cons_append, NDEFMessage.toByteArrayLoop, NDEFRecord.createSmartPosterRecordLoop,
      if_neg h, List.append_assoc, List.append_eq, ih (i + 1), if_neg h2, Nat.zero_or]
    have h3 : i + (r :: rs).length ≠ 0 := by simp only [List.length_cons]; omega
    rw [if_neg h3]

/-- Claim C23 (Smart Poster payload). Each overload of `createSmartPosterRecord`
returns a record of type `{NfcForumWellKnown, "Sp"}` whose payload is
`NDEFMessage(subs).toByteArray()`: `subs` is `[URI record]` for the overload
with a URI, `[Text record, URI record]` for the overload with a title, and
`records ++ [URI record]` for the overload with a list of records. -/
theorem NDEFRecord.createSmartPosterRecord_message (uri : QString) (encoded_title : QByteArray)
    (locale : QString) (codec : Nat) (records : List NDEFRecord) :
    ((NDEFRecord.createSmartPosterRecord uri).type = ⟨NDEF_NfcForumRTD, ascii "Sp"⟩
      ∧ (NDEFRecord.createSmartPosterRecord uri).payload
        = (NDEFMessage.newRecords [NDEFRecord.createUriRecord uri]).toByteArray)
    ∧ ((NDEFRecord.createSmartPosterRecordTitle uri encoded_title locale codec).type
        = ⟨NDEF_NfcForumRTD, ascii "Sp"⟩
      ∧ (NDEFRecord.createSmartPosterRecordTitle uri encoded_title locale codec).payload
        = (NDEFMessage.newRecords [NDEFRecord.createTextRecord encoded_title locale codec,
            NDEFRecord.createUriRecord uri]).toByteArray)
    ∧ ((NDEFRecord.createSmartPosterRecordList uri records).type
        = ⟨NDEF_NfcForumRTD, ascii "Sp"⟩
      ∧ (NDEFRecord.createSmartPosterRecordList uri records).payload
        = (NDEFMessage.newRecords (records ++ [NDEFRecord.createUriRecord uri])).toByteArray) := by
  have key : ∀ p : QByteArray,
      ((NDEFRecord.new.setType NDEFRecordType.smartPosterRecordType).setPayload p).m_type
        = ⟨NDEF_NfcForumRTD, ascii "Sp"⟩ := by
    intro p
    rw [NDEFRecord.setPayload_type_of_ne_empty _ _ (by decide)]
    rfl
  refine ⟨⟨?_, ?_⟩, ⟨?_, ?_⟩, ⟨?_, ?_⟩⟩
  · exact key _
  · unfold NDEFRecord.createSmartPosterRecord NDEFRecord.payload
    simp only [NDEFRecord.setPayload_payload]
    simp [NDEFMessage.toByteArray, NDEFMessage.newRecords, NDEFMessage.recordCount,
      NDEFMessage.toByteArrayLoop]
  · exact key _
  · unfold NDEFRecord.createSmartPosterRecordTitle NDEFRecord.payload
    simp only [NDEFRecord.setPayload_payload]
    simp [NDEFMessage.toByteArray, NDEFMessage.newRecords, NDEFMessage.recordCount,
      NDEFMessage.toByteArrayLoop]
  · exact key _
  · unfold NDEFRecord.createSmartPosterRecordList NDEFRecord.payload
    simp only [NDEFRecord.setPayload_payload]
    have h := NDEFRecord.createSmartPosterRecordLoop_eq (NDEFRecord.createUriRecord uri) records 0
    simp only [Nat.zero_add] at h
    unfold NDEFMessage.toByteArray NDEFMessage.newRecords NDEFMessage.recordCount
    simp only [List.length_append, List.length_cons, List.length_nil, Nat.zero_add]
    rw [h]

/-! ## TLV blocks: bounds -/

theorem QByteArray.at_of_lt (a : QByteArray) (i : Nat) (h : i < a.length) :
    ∃ b, QByteArray.at a i = some b := by
  unfold QByteArray.at
  exact ⟨a.get ⟨i, h⟩, List.get?_eq_get h⟩

theorem Tlv.fromByteArrayLoop_total (buffer : QByteArray) :
    ∀ (fuel index : Nat) (list : TlvList), index ≤ buffer.length →
      buffer.length - index < fuel →
      (∀ t ∈ list, ∃ i n, i + n ≤ buffer.length ∧ t.m_value = QByteArray.mid buffer i n) →
      ∃ l, Tlv.fromByteArrayLoop buffer buffer.length fuel index list = some l
        ∧ ∀ t ∈ l, ∃ i n, i + n ≤ buffer.length ∧ t.m_value = QByteArray.mid buffer i n := by
  intro fuel
  induction fuel with
  | zero => intro index list _ h; omega
  | succ fuel ih =>
    intro index list hle hfuel hl
    have happ : ∀ (t : Tlv), (∃ i n, i + n ≤ buffer.length ∧ t.m_value = QByteArray.mid buffer i n) →
        ∀ u ∈ list ++ [t],
          ∃ i n, i + n ≤ buffer.length ∧ u.m_value = QByteArray.mid buffer i n := by
      intro t ht u hu
      rcases List.mem_append.mp hu with hu | hu
      · exact hl u hu
      · rw [List.mem_singleton.mp hu]
        exact ht
    unfold Tlv.fromByteArrayLoop
    by_cases hc : buffer.length > index
    · rw [if_pos hc]
      obtain ⟨b, hb⟩ := QByteArray.at_of_lt buffer index hc
      simp only [hb]
      split_ifs with h1 h2 h3
      · exact ih (index + 1) list (by omega) (by omega) hl
      · exact ih buffer.length _ (le_refl _) (by omega)
          (happ _ ⟨0, 0, Nat.zero_le _, rfl⟩)
      · have hlt : index + 1 < buffer.length := by omega
        obtain ⟨lb, hlb⟩ := QByteArray.at_of_lt buffer (index + 1) hlt
        simp only [hlb]
        have hrl : ∃ len idx, Tlv.readLength buffer buffer.length (index + 1) lb = some (len, idx)
            ∧ index + 2 ≤ idx ∧ idx ≤ buffer.length := by
          unfold Tlv.readLength
          dsimp only
          split_ifs with g1 g2
          · have g3 : index + 1 + 1 + 1 < buffer.length := by omega
            obtain ⟨hi, hhi⟩ := QByteArray.at_of_lt buffer (index + 1 + 1) (by omega)
            obtain ⟨lo, hlo⟩ := QByteArray.at_of_lt buffer (index + 1 + 1 + 1) g3
            simp only [hhi, hlo]
            exact ⟨_, _, rfl, by omega, by omega⟩
          · exact ⟨_, _, rfl, by omega, by omega⟩
          · exact ⟨_, _, rfl, by omega, by omega⟩
        obtain ⟨len, idx, hr, hi1, hi2⟩ := hrl
        simp only [hr]
        split_ifs with h4
        · exact ih (idx + len) _ (by omega) (by omega)
            (happ _ ⟨idx, len, by omega, rfl⟩)
        · exact ih buffer.length _ (le_refl _) (by omega) hl
      · exact ih (index + 1) list (by omega) (by omega) hl
    · rw [if_neg hc]
      exact ⟨list, rfl, hl⟩

theorem Tlv.value_slice (data : QByteArray) (l : TlvList)
    (h : ∀ t ∈ l, ∃ i n, i + n ≤ data.length ∧ t.m_value = QByteArray.mid data i n) :
    ∀ t ∈ l, ∃ i n, i + n ≤ data.length ∧ t.value = QByteArray.mid data i n := by
  intro t ht
  unfold Tlv.value
  split_ifs
  · exact ⟨0, 0, Nat.zero_le _, rfl⟩
  · exact h t ht

/-- Claim C29 (TLV parser stays in bounds). For every input, `Tlv::fromByteArray`
with offset 0 returns a list: no read of the tag, of the length byte or of the
two bytes after a `0xFF` escape falls outside the buffer. For an input below
2^31 bytes every value in the list is a slice `mid(i, n)` of the input with
`i + n` within the input. -/
theorem Tlv.fromByteArray_in_bounds (data : QByteArray) :
    (∃ l, Tlv.fromByteArray data 0 = some l)
    ∧ (data.length < 2 ^ 31 → ∃ l, Tlv.fromByteArray data 0 = some l
        ∧ ∀ t ∈ l, ∃ i n, i + n ≤ data.length ∧ t.value = QByteArray.mid data i n) := by
  constructor
  · unfold Tlv.fromByteArray
    obtain ⟨l, hl, _⟩ := Tlv.fromByteArrayLoop_total
      (QByteArray.left data (toInt32 (toUnsigned 64 ((data.length : Int) - ((0 : Nat) : Int)))))
      _ 0 [] (Nat.zero_le _) (Nat.lt_succ_of_le (Nat.sub_le _ _)) (by simp)
    exact ⟨l, hl⟩
  · intro h
    rw [Tlv.fromByteArray_zero data h]
    obtain ⟨l, hl, hs⟩ := Tlv.fromByteArrayLoop_total data _ 0 [] (Nat.zero_le _)
      (Nat.lt_succ_of_le (Nat.sub_le _ _)) (by simp)
    exact ⟨l, hl, Tlv.value_slice data l hs⟩

theorem Tlv.fromByteArray_in_bounds_witness :
    ∃ l, Tlv.fromByteArray [0x03, 0xFF, 0x00] 0 = some l
      ∧ ∀ t ∈ l, ∃ i n, i + n ≤ [0x03, 0xFF, 0x00].length
        ∧ t.value = QByteArray.mid [0x03, 0xFF, 0x00] i n :=
  (Tlv.fromByteArray_in_bounds [0x03, 0xFF, 0x00]).2 (by decide)

/-! ## Generic Control records: layout -/

theorem NDEFRecord.build_plain (ty : NDEFRecordType) (pl : QByteArray)
    (h : ty.m_id ≠ NDEF_Empty) :
    (NDEFRecord.new.setType ty).setPayload pl = ⟨ty, [], pl, false⟩ := by
  unfold NDEFRecord.setType NDEFRecord.new
  rw [NDEFRecord.checkConsistency_of_payload_nil _ rfl]
  unfold NDEFRecord.setPayload
  rw [NDEFRecord.checkConsistency_of_ne_empty _ h]

theorem NDEFRecord.createGcTargetRecord_eq (target : NDEFRecord)
    (h : target.type = NDEFRecordType.textRecordType
      ∨ target.type = NDEFRecordType.uriRecordType) :
    NDEFRecord.createGcTargetRecord target
      = ⟨NDEFRecordType.gcTargetRecordType, [], target.toByteArray (NDEF_MB ||| NDEF_ME), false⟩ := by
  have hc : ¬ (NDEFRecordType.ne target.type NDEFRecordType.textRecordType = true
      ∧ NDEFRecordType.ne target.type NDEFRecordType.uriRecordType = true) := by
    rw [NDEFRecordType.ne_eq_true_iff, NDEFRecordType.ne_eq_true_iff]
    rintro ⟨h1, h2⟩
    rcases h with h | h
    · exact h1 h
    · exact h2 h
  simp only [NDEFRecord.createGcTargetRecord, hc, if_false]
  exact NDEFRecord.build_plain _ _ (by decide)

theorem NDEFRecord.createGenericControlRecord_eq (c a : Nat) (t d : NDEFRecord)
    (ht : t.type = NDEFRecordType.textRecordType ∨ t.type = NDEFRecordType.uriRecordType) :
    NDEFRecord.createGenericControlRecord c t a d
      = ⟨NDEFRecordType.genericControlRecordType, [],
          writeU8 c
          ++ NDEFRecord.toByteArray ⟨NDEFRecordType.gcTargetRecordType, [],
              t.toByteArray (NDEF_MB ||| NDEF_ME), false⟩ (NDEF_MB ||| NDEF_ME)
          ++ NDEFRecord.toByteArray ⟨NDEFRecordType.gcActionRecordType, [],
              writeU8 0x1 ++ writeU8 a, false⟩ (NDEF_MB ||| NDEF_ME)
          ++ (if d.isEmpty = true then []
              else NDEFRecord.toByteArray ⟨NDEFRecordType.gcDataRecordType, [],
                d.toByteArray (NDEF_MB ||| NDEF_ME), false⟩ (NDEF_MB ||| NDEF_ME)),
          false⟩ := by
  have hv := NDEFRecord.createGcTargetRecord_valid t ht
  unfold NDEFRecord.createGenericControlRecord
  simp only [hv, Bool.not_true, Bool.false_eq_true, if_false]
  rw [NDEFRecord.build_plain _ _ (by decide), NDEFRecord.createGcTargetRecord_eq t ht]
  unfold NDEFRecord.createGcActionRecord NDEFRecord.createGcDataRecord
  rw [NDEFRecord.build_plain _ _ (by decide), NDEFRecord.build_plain _ _ (by decide)]
  cases d.isEmpty <;> simp

theorem NDEFRecord.createGenericControlRecordRecord_eq (c : Nat) (t r d : NDEFRecord)
    (ht : t.type = NDEFRecordType.textRecordType ∨ t.type = NDEFRecordType.uriRecordType) :
    NDEFRecord.createGenericControlRecordRecord c t r d
      = ⟨NDEFRecordType.genericControlRecordType, [],
          writeU8 c
          ++ NDEFRecord.toByteArray ⟨NDEFRecordType.gcTargetRecordType, [],
              t.toByteArray (NDEF_MB ||| NDEF_ME), false⟩ (NDEF_MB ||| NDEF_ME)
          ++ (if r.isEmpty = true then []
              else NDEFRecord.toByteArray ⟨NDEFRecordType.gcActionRecordType, [],
                writeU8 0x0 ++ r.toByteArray (NDEF_MB ||| NDEF_ME), false⟩ (NDEF_MB ||| NDEF_ME))
          ++ (if d.isEmpty = true then []
              else NDEFRecord.toByteArray ⟨NDEFRecordType.gcDataRecordType, [],
                d.toByteArray (NDEF_MB ||| NDEF_ME), false⟩ (NDEF_MB ||| NDEF_ME)),
          false⟩ := by
  have hv := NDEFRecord.createGcTargetRecord_valid t ht
  unfold NDEFRecord.createGenericControlRecordRecord
  simp only [hv, Bool.not_true, Bool.false_eq_true, if_false]
  rw [NDEFRecord.build_plain _ _ (by decide), NDEFRecord.createGcTargetRecord_eq t ht]
  unfold NDEFRecord.createGcActionRecordRecord NDEFRecord.createGcDataRecord
  rw [NDEFRecord.build_plain _ _ (by decide), NDEFRecord.build_plain _ _ (by decide)]
  cases d.isEmpty <;> cases r.isEmpty <;> simp

/-- Claim C24 (Generic Control payload). For every config byte `c`, Text or URI
target `t`, action code `a` and data record `d`, `createGenericControlRecord(c,
t, a, d)` has type `{NfcForumWellKnown, "Gc"}` and payload `[c] ++ T ++ A ++ D`:
`T` is the encoding with `MB | ME` of the record of type `"t"` with payload
`t.toByteArray(MB | ME)`, `A` that of the record of type `"a"` with payload
`[0x01, a]`, `D` that of the record of type `"d"` with payload
`d.toByteArray(MB | ME)` when `d` is not Empty-typed and the empty sequence
otherwise. With the action given as a record `r`, `A` is the encoding of the
record of type `"a"` with payload `[0x00] ++ r.toByteArray(MB | ME)` when `r` is
not Empty-typed, and the empty sequence when `r` is Empty-typed. -/
theorem NDEFRecord.createGenericControlRecord_layout (c a : Nat) (t d r : NDEFRecord)
    (hc : c < 256) (ha : a < 256)
    (ht : t.type = NDEFRecordType.textRecordType ∨ t.type = NDEFRecordType.uriRecordType) :
    ((NDEFRecord.createGenericControlRecord c t a d).type = ⟨NDEF_NfcForumRTD, ascii "Gc"⟩
      ∧ (NDEFRecord.createGenericControlRecord c t a d).payload
        = [c]
          ++ NDEFRecord.toByteArray ⟨⟨NDEF_NfcForumRTD, ascii "t"⟩, [],
              t.toByteArray (NDEF_MB ||| NDEF_ME), false⟩ (NDEF_MB ||| NDEF_ME)
          ++ NDEFRecord.toByteArray ⟨⟨NDEF_NfcForumRTD, ascii "a"⟩, [], [0x01, a], false⟩
              (NDEF_MB ||| NDEF_ME)
          ++ (if d.type.id = NDEF_Empty then []
              else NDEFRecord.toByteArray ⟨⟨NDEF_NfcForumRTD, ascii "d"⟩, [],
                d.toByteArray (NDEF_MB ||| NDEF_ME), false⟩ (NDEF_MB ||| NDEF_ME)))
    ∧ ((NDEFRecord.createGenericControlRecordRecord c t r d).type
        = ⟨NDEF_NfcForumRTD, ascii "Gc"⟩
      ∧ (NDEFRecord.createGenericControlRecordRecord c t r d).payload
        = [c]
          ++ NDEFRecord.toByteArray ⟨⟨NDEF_NfcForumRTD, ascii "t"⟩, [],
              t.toByteArray (NDEF_MB ||| NDEF_ME), false⟩ (NDEF_MB ||| NDEF_ME)
          ++ (if r.type.id = NDEF_Empty then []
              else NDEFRecord.toByteArray ⟨⟨NDEF_NfcForumRTD, ascii "a"⟩, [],
                [0x00] ++ r.toByteArray (NDEF_MB ||| NDEF_ME), false⟩ (NDEF_MB ||| NDEF_ME))
          ++ (if d.type.id = NDEF_Empty then []
              else NDEFRecord.toByteArray ⟨⟨NDEF_NfcForumRTD, ascii "d"⟩, [],
                d.toByteArray (NDEF_MB ||| NDEF_ME), false⟩ (NDEF_MB ||| NDEF_ME))) := by
  have hd : (d.isEmpty = true) ↔ d.type.id = NDEF_Empty := by
    simp [NDEFRecord.isEmpty, NDEFRecord.type, NDEFRecordType.id]
  have hr : (r.isEmpty = true) ↔ r.type.id = NDEF_Empty := by
    simp [NDEFRecord.isEmpty, NDEFRecord.type, NDEFRecordType.id]
  rw [NDEFRecord.createGenericControlRecord_eq c a t d ht,
    NDEFRecord.createGenericControlRecordRecord_eq c t r d ht]
  simp only [NDEFRecord.type, NDEFRecord.payload, writeU8_of_lt c hc, writeU8_of_lt a ha,
    writeU8_of_lt 0x1 (by decide), writeU8_of_lt 0x0 (by decide), if_congr hd rfl rfl,
    if_congr hr rfl rfl]
  exact ⟨⟨rfl, rfl⟩, rfl, rfl⟩

theorem NDEFRecord.createGenericControlRecord_layout_witness :
    (NDEFRecord.createGenericControlRecord 0
        (NDEFRecord.createTextRecord (ascii "hi") (ascii "en") NDEF_UTF8) 1
        NDEFRecord.new).payload
      = [0, 0xD1, 0x01, 9, 0x74, 0xD1, 0x01, 5, 0x54, 2, 0x65, 0x6E, 0x68, 0x69,
          0xD1, 0x01, 0x02, 0x61, 0x01, 1] := by
  have h := (NDEFRecord.createGenericControlRecord_layout 0 1
    (NDEFRecord.createTextRecord (ascii "hi") (ascii "en") NDEF_UTF8) NDEFRecord.new
    NDEFRecord.new (by decide) (by decide) (Or.inl (by decide))).1.2
  rw [h]
  decide

theorem NDEFRecord.createGenericControlRecord_layout_counterexample :
    (NDEFRecord.createGenericControlRecordRecord 0
        (NDEFRecord.createTextRecord (ascii "hi") (ascii "en") NDEF_UTF8)
        NDEFRecord.new NDEFRecord.new).payload
      ≠ [0]
        ++ NDEFRecord.toByteArray ⟨⟨NDEF_NfcForumRTD, ascii "t"⟩, [],
            (NDEFRecord.createTextRecord (ascii "hi") (ascii "en") NDEF_UTF8).toByteArray
              (NDEF_MB ||| NDEF_ME), false⟩ (NDEF_MB ||| NDEF_ME)
        ++ NDEFRecord.toByteArray ⟨⟨NDEF_NfcForumRTD, ascii "a"⟩, [],
            [0x00] ++ NDEFRecord.new.toByteArray (NDEF_MB ||| NDEF_ME), false⟩
            (NDEF_MB ||| NDEF_ME) := by
  decide

/-! ## Generic Control records: the scan of the extraction functions -/

theorem toChar_eq_iff (b v : Nat) (hb : b < 256) (hv : v < 128) :
    toChar b = (v : Int) ↔ b = v := by
  unfold toChar
  have : b % 256 = b := Nat.mod_eq_of_lt hb
  rw [this]
  split_ifs <;> omega

theorem QByteArray.get?_lt (payload : QByteArray) (hbytes : ∀ b ∈ payload, b < 256) (i c : Nat)
    (h : payload.get? i = some c) : c < 256 :=
  hbytes c (List.get?_mem h)

theorem NDEFRecord.getGcScanLoop_step (payload : QByteArray) (name : Nat)
    (hbytes : ∀ b ∈ payload, b < 256) (hname : name < 128) (n i : Nat) (list : List Nat) :
    NDEFRecord.getGcScanLoop payload (name : Int) (n + 1) i list = none
    ∨ NDEFRecord.getGcScanLoop payload (name : Int) (n + 1) i list
      = NDEFRecord.getGcScanLoop payload (name : Int) n (i + 1)
          (list ++ (if gcHit payload name i = true then [i] else [])) := by
  rw [NDEFRecord.getGcScanLoop]
  unfold gcHit QByteArray.at QString.ofChar
  cases h0 : payload.get? i with
  | none => left; rfl
  | some c =>
    have hc := QByteArray.get?_lt payload hbytes i c h0
    have hcm : c % 2 ^ 8 = c := Nat.mod_eq_of_lt hc
    simp only [hcm, List.get?_cons_zero, Option.some.injEq]
    by_cases hd : c = 0xD1
    · subst hd
      simp only [if_true]
      cases h1 : payload.get? (i + 1) with
      | none => left; rfl
      | some c1 =>
        have hc1 := QByteArray.get?_lt payload hbytes (i + 1) c1 h1
        have e1 : toChar c1 = (0x01 : Int) ↔ c1 = 1 := toChar_eq_iff c1 1 hc1 (by decide)
        simp only [e1]
        by_cases hd1 : c1 = 1
        · subst hd1
          simp only [if_true]
          cases h3 : payload.get? (i + 3) with
          | none => left; rfl
          | some c3 =>
            have hc3 := QByteArray.get?_lt payload hbytes (i + 3) c3 h3
            have e3 : toChar c3 = (name : Int) ↔ c3 = name := toChar_eq_iff c3 name hc3 hname
            right
            simp only [e3]
            by_cases hd3 : c3 = name
            · simp [hd3]
            · simp [hd3]
        · right
          simp [hd1]
    · right
      simp [hd]

theorem NDEFRecord.getGcScanLoop_some (payload : QByteArray) (name : Nat)
    (hbytes : ∀ b ∈ payload, b < 256) (hname : name < 128) :
    ∀ (n i : Nat) (list l : List Nat),
      NDEFRecord.getGcScanLoop payload (name : Int) n i list = some l →
      l = list ++ (List.range' i n).filter (gcHit payload name) := by
  intro n
  induction n with
  | zero =>
    intro i list l h
    simp only [NDEFRecord.getGcScanLoop, Option.some.injEq] at h
    simp [h]
  | succ n ih =>
    intro i list l h
    rcases NDEFRecord.getGcScanLoop_step payload name hbytes hname n i list with h1 | h1
    · rw [h1] at h; cases h
    · rw [h1] at h
      rw [ih _ _ _ h, List.range'_succ, List.filter_cons, List.append_assoc]
      split_ifs <;> simp

theorem NDEFRecord.getGcScanLoop_ne_none (payload : QByteArray) (name : Int)
    (hbytes : ∀ b ∈ payload, b < 256) (hsafe : gcScanInBounds payload) :
    ∀ (n i : Nat) (list : List Nat), i + n ≤ payload.length →
      NDEFRecord.getGcScanLoop payload name n i list ≠ none := by
  intro n
  induction n with
  | zero => intro i list _; simp [NDEFRecord.getGcScanLoop]
  | succ n ih =>
    intro i list hle
    have hi : i < payload.length := by omega
    rw [NDEFRecord.getGcScanLoop]
    unfold QByteArray.at QString.ofChar
    have h0 : payload.get? i = some (payload.get ⟨i, hi⟩) := List.get?_eq_get hi
    generalize payload.get ⟨i, hi⟩ = c at h0
    have hc := QByteArray.get?_lt payload hbytes i c h0
    have hcm : c % 2 ^ 8 = c := Nat.mod_eq_of_lt hc
    simp only [h0, hcm, List.get?_cons_zero, Option.some.injEq]
    by_cases hd : c = 0xD1
    · subst hd
      obtain ⟨hs1, hs3⟩ := hsafe i h0
      have h1 : payload.get? (i + 1) = some (payload.get ⟨i + 1, hs1⟩) := List.get?_eq_get hs1
      generalize payload.get ⟨i + 1, hs1⟩ = c1 at h1
      have hc1 := QByteArray.get?_lt payload hbytes (i + 1) c1 h1
      have e1 : toChar c1 = (0x01 : Int) ↔ c1 = 1 := toChar_eq_iff c1 1 hc1 (by decide)
      simp only [if_true, h1, e1]
      by_cases hd1 : c1 = 1
      · subst hd1
        have hs3 := hs3 h1
        have h3 : payload.get? (i + 3) = some (payload.get ⟨i + 3, hs3⟩) := List.get?_eq_get hs3
        simp only [if_true, h3]
        split_ifs
        · exact ih _ _ (by omega)
        · exact ih _ _ (by omega)
      · rw [if_neg hd1]
        exact ih _ _ (by omega)
    · rw [if_neg hd]
      exact ih _ _ (by omega)

theorem NDEFRecord.getGcScanLoop_eq (payload : QByteArray) (name : Nat)
    (hbytes : ∀ b ∈ payload, b < 256) (hname : name < 128) (hsafe : gcScanInBounds payload) :
    NDEFRecord.getGcScanLoop payload (name : Int) payload.length 0 []
      = some (gcPositions payload name) := by
  have hne := NDEFRecord.getGcScanLoop_ne_none payload (name : Int) hbytes hsafe payload.length 0 []
    (by omega)
  cases h : NDEFRecord.getGcScanLoop payload (name : Int) payload.length 0 [] with
  | none => exact absurd h hne
  | some l =>
    rw [NDEFRecord.getGcScanLoop_some payload name hbytes hname _ _ _ _ h]
    simp [gcPositions, List.range_eq_range']

theorem mem_gcPositions (payload : QByteArray) (name i : Nat) :
    i ∈ gcPositions payload name ↔ payload.get? i = some 0xD1 ∧ payload.get? (i + 1) = some 0x01
      ∧ payload.get? (i + 3) = some name := by
  unfold gcPositions gcHit
  simp only [List.mem_filter, List.mem_range, Bool.and_eq_true, beq_iff_eq]
  constructor
  · rintro ⟨_, ⟨h0, h1⟩, h3⟩
    exact ⟨h0, h1, h3⟩
  · rintro ⟨h0, h1, h3⟩
    refine ⟨?_, ⟨h0, h1⟩, h3⟩
    by_contra hge
    rw [List.get?_eq_none.mpr (by omega)] at h0
    cases h0

theorem NDEFRecord.toByteArray_wellKnown1 (nm : Nat) (p : QByteArray) (hp : p.length < 256) :
    NDEFRecord.toByteArray ⟨⟨NDEF_NfcForumRTD, [nm]⟩, [], p, false⟩ (NDEF_MB ||| NDEF_ME)
      = [0xD1, 0x01, p.length, nm] ++ p := by
  rw [NDEFRecord.namedLayout_raw _ _ (Or.inl rfl)]
  have hs : NDEFRecord.isShort ⟨⟨NDEF_NfcForumRTD, [nm]⟩, [], p, false⟩ = true := by
    simp [NDEFRecord.isShort, hp]
  have hh : NDEFRecord.headerByte ⟨⟨NDEF_NfcForumRTD, [nm]⟩, [], p, false⟩ (NDEF_MB ||| NDEF_ME)
      = 0xD1 := by
    unfold NDEFRecord.headerByte NDEFRecord.flags
    simp only [hs, NDEFRecord.isChuncked, NDEFRecordType.id, List.length_nil, gt_iff_lt,
      Nat.lt_irrefl, if_true, if_false, Bool.false_eq_true]
    decide
  simp only [hs, hh, if_true, List.length_cons, List.length_nil, writeU8_of_lt _ hp]
  simp [writeU8]

theorem NDEFRecord.createGenericControlRecord_gcLayout (c a nm : Nat) (p : QByteArray)
    (hc : c < 256) (ha : a < 256) (hnm : nm = 0x54 ∨ nm = 0x55) (hp : p.length + 4 < 256) :
    NDEFRecord.createGenericControlRecord c ⟨⟨NDEF_NfcForumRTD, [nm]⟩, [], p, false⟩ a NDEFRecord.new
      = ⟨NDEFRecordType.genericControlRecordType, [], gcLayout c nm p a, false⟩ := by
  have ht : (⟨⟨NDEF_NfcForumRTD, [nm]⟩, [], p, false⟩ : NDEFRecord).type
        = NDEFRecordType.textRecordType
      ∨ (⟨⟨NDEF_NfcForumRTD, [nm]⟩, [], p, false⟩ : NDEFRecord).type
        = NDEFRecordType.uriRecordType := by
    rcases hnm with h | h
    · left; subst h; rfl
    · right; subst h; rfl
  rw [NDEFRecord.createGenericControlRecord_eq c a _ _ ht]
  have h1 : NDEFRecordType.gcTargetRecordType = ⟨NDEF_NfcForumRTD, [0x74]⟩ := rfl
  have h2 : NDEFRecordType.gcActionRecordType = ⟨NDEF_NfcForumRTD, [0x61]⟩ := rfl
  have he : NDEFRecord.new.isEmpty = true := rfl
  rw [h1, h2, NDEFRecord.toByteArray_wellKnown1 nm p (by omega), he, if_pos rfl,
    writeU8_of_lt c hc, writeU8_of_lt a ha, writeU8_of_lt 0x1 (by decide)]
  rw [NDEFRecord.toByteArray_wellKnown1 0x74 _ (by simpa using hp),
    NDEFRecord.toByteArray_wellKnown1 0x61 _ (by simp)]
  simp [gcLayout]

theorem gcLayout_length (c nm : Nat) (p : QByteArray) (a : Nat) :
    (gcLayout c nm p a).length = p.length + 15 := by
  simp [gcLayout]

theorem gcLayout_get_pre (c nm : Nat) (p : QByteArray) (a i : Nat) (hi : i < 9) :
    (gcLayout c nm p a).get? i
      = [c, 0xD1, 0x01, p.length + 4, 0x74, 0xD1, 0x01, p.length, nm].get? i := by
  unfold gcLayout
  rw [List.append_assoc, List.get?_eq_getElem?, List.get?_eq_getElem?,
    List.getElem?_append_left (by simpa using hi)]

theorem gcLayout_get_mid (c nm : Nat) (p : QByteArray) (a j : Nat) (hj : j < p.length) :
    (gcLayout c nm p a).get? (9 + j) = p.get? j := by
  unfold gcLayout
  rw [List.append_assoc, List.get?_eq_getElem?, List.get?_eq_getElem?,
    List.getElem?_append_right (by simp), List.getElem?_append_left (by simpa using hj)]
  simp

theorem gcLayout_get_suf (c nm : Nat) (p : QByteArray) (a k : Nat) :
    (gcLayout c nm p a).get? (9 + p.length + k) = [0xD1, 0x01, 0x02, 0x61, 0x01, a].get? k := by
  unfold gcLayout
  rw [List.get?_eq_getElem?, List.get?_eq_getElem?,
    List.getElem?_append_right (by simp; omega)]
  congr 1
  simp only [List.length_append, List.length_cons, List.length_nil]
  omega

theorem gcLayout_header (c nm : Nat) (p : QByteArray) (a i : Nat)
    (hnm : nm = 0x54 ∨ nm = 0x55) (hp : p.length ≤ 127) (hb : ∀ b ∈ p, b < 0x80) (ha : a ≤ 2)
    (h : (gcLayout c nm p a).get? i = some 0xD1) :
    i = 0 ∨ i = 1 ∨ i = 5 ∨ i = 9 + p.length := by
  by_cases h9 : i < 9
  · rw [gcLayout_get_pre c nm p a i h9] at h
    interval_cases i <;> simp at h <;> omega
  · obtain ⟨j, rfl⟩ : ∃ j, i = 9 + j := ⟨i - 9, by omega⟩
    by_cases hj : j < p.length
    · rw [gcLayout_get_mid c nm p a j hj] at h
      have := hb _ (List.get?_mem h)
      omega
    · obtain ⟨k, rfl⟩ : ∃ k, j = p.length + k := ⟨j - p.length, by omega⟩
      rw [← Nat.add_assoc, gcLayout_get_suf] at h
      by_cases hk : k < 6
      · interval_cases k <;> simp at h <;> omega
      · rw [List.get?_eq_none.mpr (by simp; omega)] at h
        cases h

theorem gcLayout_bytes (c nm : Nat) (p : QByteArray) (a : Nat) (hc : c < 256)
    (hnm : nm = 0x54 ∨ nm = 0x55) (hp : p.length ≤ 127) (hb : ∀ b ∈ p, b < 0x80) (ha : a ≤ 2) :
    ∀ b ∈ gcLayout c nm p a, b < 256 := by
  intro b hmem
  unfold gcLayout at hmem
  rcases List.mem_append.mp hmem with h | h
  · rcases List.mem_append.mp h with h | h
    · simp only [List.mem_cons, List.mem_singleton, List.not_mem_nil, or_false] at h
      omega
    · have := hb b h
      omega
  · simp only [List.mem_cons, List.mem_singleton, List.not_mem_nil, or_false] at h
    omega

theorem gcLayout_inBounds (c nm : Nat) (p : QByteArray) (a : Nat)
    (hnm : nm = 0x54 ∨ nm = 0x55) (hp : p.length ≤ 127) (hb : ∀ b ∈ p, b < 0x80) (ha : a ≤ 2) :
    gcScanInBounds (gcLayout c nm p a) := by
  intro i h
  rw [gcLayout_length]
  rcases gcLayout_header c nm p a i hnm hp hb ha h with h | h | h | h <;>
    exact ⟨by omega, fun _ => by omega⟩

theorem singleton_of_mem_iff (l : List Nat) (k : Nat) (hd : l.Nodup) (h : ∀ i, i ∈ l ↔ i = k) :
    l = [k] := by
  apply List.perm_singleton.mp
  rw [List.perm_ext_iff_of_nodup hd (List.nodup_singleton k)]
  intro i
  rw [h i, List.mem_singleton]

theorem gcPositions_nodup (payload : QByteArray) (name : Nat) :
    (gcPositions payload name).Nodup :=
  (List.nodup_range _).filter _

theorem gcLayout_facts (c nm : Nat) (p : QByteArray) (a : Nat) :
    (gcLayout c nm p a).get? 1 = some 0xD1 ∧ (gcLayout c nm p a).get? 2 = some 0x01
    ∧ (gcLayout c nm p a).get? 4 = some 0x74 ∧ (gcLayout c nm p a).get? 6 = some 0x01
    ∧ (gcLayout c nm p a).get? 7 = some p.length ∧ (gcLayout c nm p a).get? 8 = some nm
    ∧ (gcLayout c nm p a).get? (9 + p.length) = some 0xD1
    ∧ (gcLayout c nm p a).get? (9 + p.length + 1) = some 0x01
    ∧ (gcLayout c nm p a).get? (9 + p.length + 3) = some 0x61
    ∧ (gcLayout c nm p a).get? (9 + p.length + 4) = some 0x01
    ∧ (gcLayout c nm p a).get? (9 + p.length + 5) = some a := by
  refine ⟨?_, ?_, ?_, ?_, ?_, ?_, ?_, ?_, ?_, ?_, ?_⟩
  · rw [gcLayout_get_pre _ _ _ _ _ (by decide)]; rfl
  · rw [gcLayout_get_pre _ _ _ _ _ (by decide)]; rfl
  · rw [gcLayout_get_pre _ _ _ _ _ (by decide)]; rfl
  · rw [gcLayout_get_pre _ _ _ _ _ (by decide)]; rfl
  · rw [gcLayout_get_pre _ _ _ _ _ (by decide)]; rfl
  · rw [gcLayout_get_pre _ _ _ _ _ (by decide)]; rfl
  · exact gcLayout_get_suf c nm p a 0
  · exact gcLayout_get_suf c nm p a 1
  · exact gcLayout_get_suf c nm p a 3
  · exact gcLayout_get_suf c nm p a 4
  · exact gcLayout_get_suf c nm p a 5

theorem gcLayout_positions (c nm : Nat) (p : QByteArray) (a : Nat)
    (hnm : nm = 0x54 ∨ nm = 0x55) (hp : p.length ≤ 127) (hb : ∀ b ∈ p, b < 0x80) (ha : a ≤ 2) :
    gcPositions (gcLayout c nm p a) 0x74 = [1]
    ∧ gcPositions (gcLayout c nm p a) 0x61 = [9 + p.length]
    ∧ gcPositions (gcLayout c nm p a) 0x64 = [] := by
  obtain ⟨f1, f2, f4, f6, f7, f8, g0, g1, g3, g4, g5⟩ := gcLayout_facts c nm p a
  have key : ∀ name i, i ∈ gcPositions (gcLayout c nm p a) name →
      (i = 1 ∧ name = 0x74) ∨ (i = 5 ∧ name = nm) ∨ (i = 9 + p.length ∧ name = 0x61) := by
    intro name i hi
    rw [mem_gcPositions] at hi
    obtain ⟨h0, h1, h3⟩ := hi
    rcases gcLayout_header c nm p a i hnm hp hb ha h0 with h | h | h | h
    · subst h
      rw [f1] at h1
      cases h1
    · subst h
      rw [f4] at h3
      left
      exact ⟨rfl, (Option.some.inj h3).symm⟩
    · subst h
      rw [f8] at h3
      right; left
      exact ⟨rfl, (Option.some.inj h3).symm⟩
    · subst h
      rw [g3] at h3
      right; right
      exact ⟨rfl, (Option.some.inj h3).symm⟩
  refine ⟨?_, ?_, ?_⟩
  · apply singleton_of_mem_iff _ _ (gcPositions_nodup _ _)
    intro i
    constructor
    · intro hi
      rcases key _ i hi with h | h | h
      · exact h.1
      · omega
      · omega
    · rintro rfl
      rw [mem_gcPositions]
      exact ⟨f1, f2, f4⟩
  · apply singleton_of_mem_iff _ _ (gcPositions_nodup _ _)
    intro i
    constructor
    · intro hi
      rcases key _ i hi with h | h | h
      · omega
      · omega
      · exact h.1
    · rintro rfl
      rw [mem_gcPositions]
      exact ⟨g0, g1, g3⟩
  · apply List.eq_nil_iff_forall_not_mem.mpr
    intro i hi
    rcases key _ i hi with h | h | h <;> omega

theorem gcLayout_valueLoop (c nm : Nat) (p : QByteArray) (a : Nat) :
    ∀ (n i : Nat) (v : QString), i + n ≤ p.length →
      NDEFRecord.getGcValueLoop (gcLayout c nm p a) 9 n i v
        = some (v ++ ((p.drop i).take n).map (fun b => b % 2 ^ 8)) := by
  intro n
  induction n with
  | zero => intro i v _; simp [NDEFRecord.getGcValueLoop]
  | succ n ih =>
    intro i v hle
    have hi : i < p.length := by omega
    rw [NDEFRecord.getGcValueLoop]
    unfold QByteArray.at
    rw [gcLayout_get_mid c nm p a i hi, List.get?_eq_getElem?, List.getElem?_eq_getElem hi]
    simp only [QString.ofChar]
    rw [ih (i + 1) _ (by omega), List.drop_eq_getElem_cons hi, List.take_succ_cons, List.map_cons,
      List.append_assoc, List.singleton_append]

theorem NDEFRecord.newData_zero (data : QByteArray) (ty : NDEFRecordType)
    (h : ty.m_id ≠ NDEF_Empty) :
    NDEFRecord.newData data ty 0 false = ⟨ty, [], data, false⟩ := by
  unfold NDEFRecord.newData NDEFRecord.setPayload
  rw [NDEFRecord.checkConsistency_of_ne_empty _ h, Int.sub_zero, QByteArray.right_length]

theorem NDEFRecord.getGcTargetRecord_gcLayout (c nm : Nat) (p : QByteArray) (a : Nat)
    (hc : c < 256) (hnm : nm = 0x54 ∨ nm = 0x55) (hp : p.length ≤ 127)
    (hb : ∀ b ∈ p, b < 0x80) (ha : a ≤ 2) :
    NDEFRecord.getGcTargetRecord
        ⟨NDEFRecordType.genericControlRecordType, [], gcLayout c nm p a, false⟩
      = some ⟨⟨NDEF_NfcForumRTD, [nm]⟩, [], p, false⟩ := by
  obtain ⟨f1, f2, f4, f6, f7, f8, g0, g1, g3, g4, g5⟩ := gcLayout_facts c nm p a
  have hscan := NDEFRecord.getGcScanLoop_eq (gcLayout c nm p a) 0x74
    (gcLayout_bytes c nm p a hc hnm hp hb ha) (by decide) (gcLayout_inBounds c nm p a hnm hp hb ha)
  rw [(gcLayout_positions c nm p a hnm hp hb ha).1] at hscan
  have hmap : (p.map fun b => b % 2 ^ 8) = p := by
    conv_rhs => rw [← List.map_id p]
    apply List.map_congr_left
    intro b hmem
    have h128 := hb b hmem
    show b % 2 ^ 8 = b
    exact Nat.mod_eq_of_lt (by omega)
  have hval := gcLayout_valueLoop c nm p a p.length 0 [] (by omega)
  rw [List.drop_zero, List.take_length, List.nil_append, hmap] at hval
  have hname : (⟨NDEFRecordType.genericControlRecordType, [], gcLayout c nm p a, false⟩
      : NDEFRecord).type.name = ascii "Gc" := rfl
  have hmod : nm % 2 ^ 8 = nm := by rcases hnm with h | h <;> subst h <;> rfl
  unfold NDEFRecord.getGcTargetRecord
  rw [if_pos hname]
  have hscan2 : NDEFRecord.getGcScanLoop (gcLayout c nm p a) 0x74 (gcLayout c nm p a).length 0 []
      = some [1] := hscan
  have hU : ascii "U" = [0x55] := by decide
  have hT : ascii "T" = [0x54] := by decide
  simp only [NDEFRecord.payload, NDEFRecord.payloadLength, hscan2,
    NDEFRecord.getGcEmbeddedRecord, QByteArray.at, f7, f8, QString.ofChar, hmod,
    toChar_small p.length (by omega), Int.toNat_ofNat, hval,
    QString.toUtf8_ascii p (fun b hmem => by have := hb b hmem; omega),
    NDEFRecord.newData_zero p NDEFRecordType.uriRecordType (by decide),
    NDEFRecord.newData_zero p NDEFRecordType.textRecordType (by decide), hU, hT]
  rcases hnm with h | h
  · subst h
    simp
    rfl
  · subst h
    simp
    rfl

theorem NDEFRecord.getGcActionRecord_gcLayout (c nm : Nat) (p : QByteArray) (a : Nat)
    (hc : c < 256) (hnm : nm = 0x54 ∨ nm = 0x55) (hp : p.length ≤ 127)
    (hb : ∀ b ∈ p, b < 0x80) (ha : a ≤ 2) :
    NDEFRecord.getGcActionRecord
        ⟨NDEFRecordType.genericControlRecordType, [], gcLayout c nm p a, false⟩
      = some ⟨⟨NDEF_NfcForumRTD, ascii "a"⟩, [], [0x01, a], false⟩ := by
  obtain ⟨f1, f2, f4, f6, f7, f8, g0, g1, g3, g4, g5⟩ := gcLayout_facts c nm p a
  have hscan := NDEFRecord.getGcScanLoop_eq (gcLayout c nm p a) 0x61
    (gcLayout_bytes c nm p a hc hnm hp hb ha) (by decide) (gcLayout_inBounds c nm p a hnm hp hb ha)
  rw [(gcLayout_positions c nm p a hnm hp hb ha).2.1] at hscan
  have hname : (⟨NDEFRecordType.genericControlRecordType, [], gcLayout c nm p a, false⟩
      : NDEFRecord).type.name = ascii "Gc" := rfl
  unfold NDEFRecord.getGcActionRecord
  rw [if_pos hname]
  have hscan2 : NDEFRecord.getGcScanLoop (gcLayout c nm p a) 0x61 (gcLayout c nm p a).length 0 []
      = some [9 + p.length] := hscan
  simp only [NDEFRecord.payload, NDEFRecord.payloadLength, hscan2, QByteArray.at, g4, g5,
    QString.ofChar]
  have hfl : ¬ ([(1 : Nat) % 2 ^ 8].get? 0 = some 0x00) := by decide
  rw [if_neg hfl, toChar_small a (by omega), toUnsigned_natCast 32 a (by omega)]
  unfold NDEFRecord.createGcActionRecord
  rw [NDEFRecord.build_plain _ _ (by decide), writeU8_of_lt 0x1 (by decide),
    writeU8_of_lt a (by omega)]
  rfl

theorem NDEFRecord.createTextRecord_eq (t : QByteArray) (l : QString) (codec : Nat) :
    NDEFRecord.createTextRecord t l codec
      = ⟨⟨NDEF_NfcForumRTD, [0x54]⟩, [], (NDEFRecord.createTextRecord t l codec).payload, false⟩ := by
  have h : ∀ p, (NDEFRecord.new.setType NDEFRecordType.textRecordType).setPayload p
      = ⟨⟨NDEF_NfcForumRTD, [0x54]⟩, [], p, false⟩ := fun p =>
    NDEFRecord.build_plain _ p (by decide)
  unfold NDEFRecord.payload
  unfold NDEFRecord.createTextRecord
  simp only [h]

theorem NDEFRecord.createUriRecord_eq (u : QString) :
    NDEFRecord.createUriRecord u
      = ⟨⟨NDEF_NfcForumRTD, [0x55]⟩, [], (NDEFRecord.createUriRecord u).payload, false⟩ := by
  have h : ∀ p, (NDEFRecord.new.setType NDEFRecordType.uriRecordType).setPayload p
      = ⟨⟨NDEF_NfcForumRTD, [0x55]⟩, [], p, false⟩ := fun p =>
    NDEFRecord.build_plain _ p (by decide)
  unfold NDEFRecord.payload
  unfold NDEFRecord.createUriRecord
  simp only [h]

theorem NDEFRecord.builder_shape (target : NDEFRecord) (encoded_text : QByteArray)
    (locale uri : QString) (codec : Nat)
    (ht : target = NDEFRecord.createTextRecord encoded_text locale codec
      ∨ target = NDEFRecord.createUriRecord uri) :
    ∃ nm, (nm = 0x54 ∨ nm = 0x55)
      ∧ target = ⟨⟨NDEF_NfcForumRTD, [nm]⟩, [], target.payload, false⟩ := by
  rcases ht with h | h
  · exact ⟨0x54, Or.inl rfl, by rw [h]; exact NDEFRecord.createTextRecord_eq _ _ _⟩
  · exact ⟨0x55, Or.inr rfl, by rw [h]; exact NDEFRecord.createUriRecord_eq _⟩

/-- Claim C25 (target round trip). For every config byte, every action code in
`{Do = 0, Save = 1, Open = 2}` and every target produced by `createTextRecord`
or `createUriRecord` whose payload has at most 127 bytes, all below `0x80`,
`getGcTargetRecord(createGenericControlRecord(config, target, action))` returns
a record whose type and payload equal the target's. -/
theorem NDEFRecord.getGcTargetRecord_of_builder (c a : Nat) (target : NDEFRecord)
    (encoded_text : QByteArray) (locale uri : QString) (codec : Nat)
    (hc : c < 256) (ha : a ≤ 2)
    (ht : target = NDEFRecord.createTextRecord encoded_text locale codec
      ∨ target = NDEFRecord.createUriRecord uri)
    (hlen : target.payload.length ≤ 127) (hb : ∀ b ∈ target.payload, b < 0x80) :
    ∃ res, NDEFRecord.getGcTargetRecord
          (NDEFRecord.createGenericControlRecord c target a NDEFRecord.new) = some res
      ∧ res.type = target.type ∧ res.payload = target.payload := by
  obtain ⟨nm, hnm, hshape⟩ := NDEFRecord.builder_shape target encoded_text locale uri codec ht
  have hp : target.payload.length + 4 < 256 := by omega
  refine ⟨target, ?_, rfl, rfl⟩
  conv_lhs => rw [hshape]
  rw [NDEFRecord.createGenericControlRecord_gcLayout c a nm target.payload hc (by omega) hnm hp,
    NDEFRecord.getGcTargetRecord_gcLayout c nm target.payload a hc hnm hlen hb ha]
  exact congrArg some hshape.symm

theorem NDEFRecord.getGcTargetRecord_of_builder_witness :
    ∃ res, NDEFRecord.getGcTargetRecord
          (NDEFRecord.createGenericControlRecord 0
            (NDEFRecord.createTextRecord (ascii "hi") (ascii "en") NDEF_UTF8) 1
            NDEFRecord.new) = some res
      ∧ res.type = (NDEFRecord.createTextRecord (ascii "hi") (ascii "en") NDEF_UTF8).type
      ∧ res.payload = (NDEFRecord.createTextRecord (ascii "hi") (ascii "en") NDEF_UTF8).payload :=
  NDEFRecord.getGcTargetRecord_of_builder 0 1
    (NDEFRecord.createTextRecord (ascii "hi") (ascii "en") NDEF_UTF8)
    (ascii "hi") (ascii "en") [] NDEF_UTF8 (by decide) (by decide) (Or.inl rfl) (by decide)
    (by decide)

theorem NDEFRecord.getGcTargetRecord_of_builder_counterexample :
    NDEFRecord.getGcTargetRecord
        (NDEFRecord.createGenericControlRecord 0
          (NDEFRecord.createTextRecord [0xD1, 0x01, 0x00, 0x74] (ascii "en") NDEF_UTF16) 1
          NDEFRecord.new) = some NDEFRecord.new
    ∧ NDEFRecord.new.type
      ≠ (NDEFRecord.createTextRecord [0xD1, 0x01, 0x00, 0x74] (ascii "en") NDEF_UTF16).type := by
  decide

/-! ## Generic Control records: the action scan on a built record -/

/-- Claim C28 (extraction reads out of bounds). On the record of type `"Gc"` with
the two-byte payload `[0xD1, 0x01]` the scan of `getGcTargetRecord`,
`getGcActionRecord` and `getGcDataRecord` reads `payload.at(3)`, an index outside
`0 .. 1`: none of the three calls has a defined result. -/
theorem NDEFRecord.getGcRecord_out_of_bounds :
    QByteArray.at [0xD1, 0x01] 3 = none
    ∧ NDEFRecord.getGcTargetRecord ⟨NDEFRecordType.genericControlRecordType, [], [0xD1, 0x01], false⟩
      = none
    ∧ NDEFRecord.getGcActionRecord ⟨NDEFRecordType.genericControlRecordType, [], [0xD1, 0x01], false⟩
      = none
    ∧ NDEFRecord.getGcDataRecord ⟨NDEFRecordType.genericControlRecordType, [], [0xD1, 0x01], false⟩
      = none := by
  decide

/-- Claim C30 (payload accessors on the empty payload). On the empty payload
`textLocale`, `textText` and `uriProtocol` read `payload.at(0)`, a byte outside
the payload, and have no defined result; on every non-empty payload the three of
them are defined. -/
theorem NDEFRecord.accessors_empty_payload :
    QByteArray.at [] 0 = none
    ∧ NDEFRecord.textLocale [] = none ∧ NDEFRecord.textText [] = none
    ∧ NDEFRecord.uriProtocol [] = none
    ∧ (∀ (b : Nat) (rest : QByteArray), (NDEFRecord.textLocale (b :: rest)).isSome = true
        ∧ (NDEFRecord.textText (b :: rest)).isSome = true
        ∧ (NDEFRecord.uriProtocol (b :: rest)).isSome = true) := by
  refine ⟨rfl, rfl, rfl, rfl, ?_⟩
  intro b rest
  refine ⟨rfl, ?_, ?_⟩
  · unfold NDEFRecord.textText QByteArray.at
    simp only [List.get?_cons_zero]
    split_ifs <;> rfl
  · have h : NDEFRecord.uriProtocol (b :: rest) = NDEFRecord.uriProtocol [b % 256] := by
      simp only [NDEFRecord.uriProtocol, QByteArray.at, List.get?_cons_zero, toChar, Nat.mod_mod]
    rw [h, NDEFRecord.uriProtocol_byte (b % 256) (Nat.mod_lt _ (by decide))]
    rfl

/-! ## Smart Poster sub-records, reachable records, TLV offset -/

theorem writeU32_value (n : Nat) (h : n < 2 ^ 32) :
    n / 2 ^ 24 < 256 ∧ n / 2 ^ 24 * 2 ^ 24 + n / 2 ^ 16 % 256 * 2 ^ 16 + n / 2 ^ 8 % 256 * 2 ^ 8
      + n % 256 = n := by
  omega

/-- Claim C31 (Smart Poster sub-records). For every `n` below 2^32,
`createSpSizeRecord(n)` has type `{NfcForumWellKnown, "s"}` and the 4-byte
payload `[n / 2^24, n / 2^16 % 256, n / 2^8 % 256, n % 256]`, whose bytes read
as a big-endian integer give `n`; for every byte `a`, `createSpActionRecord(a)`
has type `{NfcForumWellKnown, "act"}` and payload `[a]`; `createSpTypeRecord(t)`
has type `{NfcForumWellKnown, "t"}` and payload the UTF-8 bytes of `t`. -/
theorem NDEFRecord.createSp_sub_records (n a : Nat) (t : QString) (hn : n < 2 ^ 32)
    (ha : a < 256) :
    ((NDEFRecord.createSpSizeRecord n).type = ⟨NDEF_NfcForumRTD, ascii "s"⟩
      ∧ (NDEFRecord.createSpSizeRecord n).payload
        = [n / 2 ^ 24, n / 2 ^ 16 % 256, n / 2 ^ 8 % 256, n % 256]
      ∧ n / 2 ^ 24 < 256
      ∧ n / 2 ^ 24 * 2 ^ 24 + n / 2 ^ 16 % 256 * 2 ^ 16 + n / 2 ^ 8 % 256 * 2 ^ 8 + n % 256 = n
      ∧ (readU32 (NDEFRecord.createSpSizeRecord n).payload).1 = n)
    ∧ ((NDEFRecord.createSpActionRecord a).type = ⟨NDEF_NfcForumRTD, ascii "act"⟩
      ∧ (NDEFRecord.createSpActionRecord a).payload = [a])
    ∧ ((NDEFRecord.createSpTypeRecord t).type = ⟨NDEF_NfcForumRTD, ascii "t"⟩
      ∧ (NDEFRecord.createSpTypeRecord t).payload = QString.toUtf8 t) := by
  have hs : NDEFRecord.createSpSizeRecord n
      = ⟨NDEFRecordType.spSizeRecordType, [], writeU32 n, false⟩ :=
    NDEFRecord.build_plain _ _ (by decide)
  have hact : NDEFRecord.createSpActionRecord a
      = ⟨NDEFRecordType.spActionRecordType, [], writeU8 a, false⟩ :=
    NDEFRecord.build_plain _ _ (by decide)
  have hty : NDEFRecord.createSpTypeRecord t
      = ⟨NDEFRecordType.spTypeRecordType, [], QString.toUtf8 t, false⟩ :=
    NDEFRecord.build_plain _ _ (by decide)
  have hv := writeU32_value n hn
  rw [hs, hact, hty]
  refine ⟨⟨rfl, writeU32_eq n hn, hv.1, hv.2, ?_⟩, ⟨rfl, writeU8_of_lt a ha⟩, rfl, rfl⟩
  have := readU32_writeU32 n [] hn
  simpa [NDEFRecord.payload] using congrArg Prod.fst this

theorem NDEFRecord.createSp_sub_records_witness :
    (NDEFRecord.createSpSizeRecord 0x01020304).payload = [1, 2, 3, 4] :=
  (NDEFRecord.createSp_sub_records 0x01020304 1 (ascii "image/png") (by decide)
    (by decide)).1.2.1

/-- Claim C32 (auto-promotion invariant). Every record that is reachable from a
constructor of `NDEFRecord` by `setType`, `setPayload`, `appendPayload`, `setId`
and `setChuncked` satisfies: a non-empty payload implies a TNF other than Empty,
and `isEmpty()` implies an empty payload. -/
theorem NDEFRecord.reachable_invariant (r : NDEFRecord) (h : NDEFRecord.Reachable r) :
    (r.payload ≠ [] → r.type.id ≠ NDEF_Empty) ∧ (r.isEmpty = true → r.payload = []) := by
  have hc := NDEFRecord.Reachable.consistent h
  constructor
  · intro hp he
    exact hp (hc he)
  · intro he
    apply hc
    simpa [NDEFRecord.isEmpty, NDEFRecordType.id] using he

theorem NDEFRecord.reachable_invariant_witness :
    ((NDEFRecord.new.setPayload [1, 2]).setType (NDEFRecordType.new NDEF_Empty [])).type.id
      ≠ NDEF_Empty :=
  (NDEFRecord.reachable_invariant
    ((NDEFRecord.new.setPayload [1, 2]).setType (NDEFRecordType.new NDEF_Empty []))
    (NDEFRecord.Reachable.setType _ _ _
      (NDEFRecord.Reachable.setPayload _ _ NDEFRecord.Reachable.new))).1 (by decide)

/-- Claim C35 (the offset of the TLV parser trims the end). For every buffer
`data` below 2^31 bytes and every `offset ≤ len data`,
`Tlv::fromByteArray(data, offset)` equals `Tlv::fromByteArray` of the first
`len data - offset` bytes with offset 0. On `[00 03 01 AA FE]` with offset 1 the
result is that of `[00 03 01 AA]`, not that of `[03 01 AA FE]`. -/
theorem Tlv.fromByteArray_offset :
    (∀ (data : QByteArray) (offset : Nat), offset ≤ data.length → data.length < 2 ^ 31 →
      Tlv.fromByteArray data offset = Tlv.fromByteArray (data.take (data.length - offset)) 0)
    ∧ Tlv.fromByteArray [0x00, 0x03, 0x01, 0xAA, 0xFE] 1
        = Tlv.fromByteArray [0x00, 0x03, 0x01, 0xAA] 0
    ∧ Tlv.fromByteArray [0x00, 0x03, 0x01, 0xAA, 0xFE] 1
        ≠ Tlv.fromByteArray [0x03, 0x01, 0xAA, 0xFE] 0 := by
  refine ⟨?_, by decide, by decide⟩
  intro data offset ho hlen
  have hl : (data.take (data.length - offset)).length = data.length - offset := by
    rw [List.length_take]
    omega
  rw [Tlv.fromByteArray_zero _ (by rw [hl]; omega)]
  have h1 : toUnsigned 64 ((data.length : Int) - (offset : Int)) = data.length - offset := by
    have : (data.length : Int) - (offset : Int) = ((data.length - offset : Nat) : Int) := by omega
    rw [this, toUnsigned_natCast 64 _ (by omega)]
  have h2 : QByteArray.left data ((data.length - offset : Nat) : Int)
      = data.take (data.length - offset) := by
    unfold QByteArray.left
    split_ifs with g1 g2
    · have : data.length - offset = data.length := by omega
      rw [this, List.take_length]
    · omega
    · rfl
  unfold Tlv.fromByteArray
  simp only [h1, toInt32_natCast _ (show data.length - offset < 2 ^ 31 by omega), h2]

theorem Tlv.fromByteArray_offset_witness :
    Tlv.fromByteArray [0x03, 0x01, 0xAA, 0xFE, 0x07] 2
      = Tlv.fromByteArray (List.take ([0x03, 0x01, 0xAA, 0xFE, 0x07].length - 2)
          [0x03, 0x01, 0xAA, 0xFE, 0x07]) 0 :=
  Tlv.fromByteArray_offset.1 [0x03, 0x01, 0xAA, 0xFE, 0x07] 2 (by decide) (by decide)

/-! ## Round trips of named records -/

/-- Claim C40 (target extraction on short ASCII payloads). For every config byte,
every action code in `{0, 1, 2}` and every target of type Text or URI with an
empty id, not chunked, whose payload has at most 127 bytes, all below `0x80`,
`getGcTargetRecord(createGenericControlRecord(config, target, action))` returns
a record with the type and the payload of the target; the outer payload has
exactly one position that passes the target test and the scan reads no byte
outside it. -/
theorem NDEFRecord.getGcTargetRecord_short_ascii (c a : Nat) (target : NDEFRecord)
    (hc : c < 256) (ha : a ≤ 2)
    (ht : target.type = NDEFRecordType.textRecordType
      ∨ target.type = NDEFRecordType.uriRecordType)
    (hid : target.id = []) (hcf : target.isChuncked = false)
    (hlen : target.payload.length ≤ 127) (hb : ∀ b ∈ target.payload, b < 0x80) :
    (∃ res, NDEFRecord.getGcTargetRecord
          (NDEFRecord.createGenericControlRecord c target a NDEFRecord.new) = some res
        ∧ res.type = target.type ∧ res.payload = target.payload)
    ∧ (gcPositions (NDEFRecord.createGenericControlRecord c target a NDEFRecord.new).payload
        0x74).length = 1
    ∧ gcScanInBounds (NDEFRecord.createGenericControlRecord c target a NDEFRecord.new).payload := by
  obtain ⟨ty, i, p, cf⟩ := target
  simp only [NDEFRecord.type, NDEFRecord.id, NDEFRecord.isChuncked, NDEFRecord.payload]
    at ht hid hcf hlen hb
  subst hid hcf
  have hshape : ∃ nm, (nm = 0x54 ∨ nm = 0x55) ∧ ty = ⟨NDEF_NfcForumRTD, [nm]⟩ := by
    rcases ht with h | h
    · exact ⟨0x54, Or.inl rfl, h⟩
    · exact ⟨0x55, Or.inr rfl, h⟩
  obtain ⟨nm, hnm, rfl⟩ := hshape
  rw [NDEFRecord.createGenericControlRecord_gcLayout c a nm p hc (by omega) hnm (by omega)]
  refine ⟨⟨_, NDEFRecord.getGcTargetRecord_gcLayout c nm p a hc hnm hlen hb ha, rfl, rfl⟩, ?_, ?_⟩
  · show (gcPositions (gcLayout c nm p a) 0x74).length = 1
    rw [(gcLayout_positions c nm p a hnm hlen hb ha).1]
    rfl
  · exact gcLayout_inBounds c nm p a hnm hlen hb ha

theorem NDEFRecord.getGcTargetRecord_short_ascii_witness :
    ∃ res, NDEFRecord.getGcTargetRecord
          (NDEFRecord.createGenericControlRecord 0xD1
            ⟨NDEFRecordType.uriRecordType, [], [1, 0x61, 0x2E, 0x62], false⟩ 2
            NDEFRecord.new) = some res
        ∧ res.type = NDEFRecordType.uriRecordType ∧ res.payload = [1, 0x61, 0x2E, 0x62] :=
  (NDEFRecord.getGcTargetRecord_short_ascii 0xD1 2
    ⟨NDEFRecordType.uriRecordType, [], [1, 0x61, 0x2E, 0x62], false⟩ (by decide) (by decide)
    (Or.inr rfl) rfl rfl (by decide) (by decide)).1

/-- Claim C38 (round trip of named records). For every record `r` with TNF
NfcForumWellKnown, Mime, Uri or ExternalWellKnown, a type name and an id of at
most 255 bytes each, every flag byte `f` in `{0, MB, ME, MB | ME}` and an
encoding `r.toByteArray(f)` below 2^31 bytes,
`fromByteArray(r.toByteArray(f), 0)` has the type, id, payload and chunk flag
of `r`. -/
theorem NDEFRecord.named_roundtrip (r : NDEFRecord) (f : Nat)
    (ht : r.type.id = NDEF_NfcForumRTD ∨ r.type.id = NDEF_MIME ∨ r.type.id = NDEF_URI
      ∨ r.type.id = NDEF_ExternalRTD)
    (hname : r.type.name.length ≤ 255) (hid : r.id.length ≤ 255)
    (hf : f = 0 ∨ f = NDEF_MB ∨ f = NDEF_ME ∨ f = NDEF_MB ||| NDEF_ME)
    (hlen : (r.toByteArray f).length < 2 ^ 31) :
    (NDEFRecord.fromByteArray (r.toByteArray f) 0).type = r.type
    ∧ (NDEFRecord.fromByteArray (r.toByteArray f) 0).id = r.id
    ∧ (NDEFRecord.fromByteArray (r.toByteArray f) 0).payload = r.payload
    ∧ (NDEFRecord.fromByteArray (r.toByteArray f) 0).isChuncked = r.isChuncked := by
  have hc : r.Canonical := ⟨hid, Or.inl ⟨ht, hname⟩⟩
  have hf38 : f &&& 0x38 = 0 := by
    rcases hf with h | h | h | h <;> subst h <;> decide
  have h := NDEFRecord.decode_encode_append r f [] hc hf38 (by simpa using hlen)
  rw [List.append_nil] at h
  rw [h]
  exact ⟨rfl, rfl, rfl, rfl⟩

theorem NDEFRecord.named_roundtrip_witness :
    (NDEFRecord.fromByteArray
        (NDEFRecord.toByteArray ⟨⟨NDEF_MIME, ascii "a/b"⟩, [7], [1, 2, 3], true⟩ NDEF_MB) 0).payload
      = [1, 2, 3] :=
  (NDEFRecord.named_roundtrip ⟨⟨NDEF_MIME, ascii "a/b"⟩, [7], [1, 2, 3], true⟩ NDEF_MB
    (Or.inr (Or.inl rfl)) (by decide) (by decide) (Or.inr (Or.inl rfl)) (by decide)).2.2.1

theorem NDEFRecord.Named.canonical {r : NDEFRecord} (h : r.Named) : r.Canonical :=
  ⟨h.2.2, Or.inl ⟨h.1, h.2.1⟩⟩

theorem NDEFRecord.named_of_wellKnown (nm p : QByteArray) (h : nm.length ≤ 255) :
    NDEFRecord.Named ⟨⟨NDEF_NfcForumRTD, nm⟩, [], p, false⟩ :=
  ⟨Or.inl rfl, h, by simp [NDEFRecord.id]⟩

theorem NDEFRecord.createSmartPosterRecordList_payload (uri : QString)
    (records : List NDEFRecord) :
    (NDEFRecord.createSmartPosterRecordList uri records).payload
      = NDEFMessage.toByteArray ⟨records ++ [NDEFRecord.createUriRecord uri]⟩ := by
  unfold NDEFRecord.createSmartPosterRecordList NDEFRecord.payload
  simp only [NDEFRecord.setPayload_payload]
  have h := NDEFRecord.createSmartPosterRecordLoop_eq (NDEFRecord.createUriRecord uri) records 0
  simp only [Nat.zero_add] at h
  unfold NDEFMessage.toByteArray NDEFMessage.recordCount
  simp only [List.length_append, List.length_cons, List.length_nil, Nat.zero_add]
  rw [h]

theorem NDEFMessage.fromByteArray_toByteArray_named (m : NDEFMessage)
    (hn : ∀ r ∈ m.records, r.Named) (hlen : m.toByteArray.length < 2 ^ 31) :
    NDEFMessage.fromByteArray m.toByteArray 0 = some m := by
  have hc : ∀ r ∈ m.m_records, r.Canonical := fun r hr => (hn r hr).canonical
  unfold NDEFMessage.fromByteArray
  simp only [Int.sub_zero, QByteArray.right_length]
  unfold NDEFMessage.toByteArray at hlen ⊢
  dsimp only at hlen ⊢
  have hl := NDEFMessage.toByteArrayLoop_length m.recordCount m.m_records 0 hc
  rw [NDEFMessage.fromByteArrayLoop_toByteArrayLoop m.recordCount m.m_records 0 _ NDEFMessage.new
    hc (by omega) hlen]
  simp [NDEFMessage.new]

/-- Claim C39 (round trip of messages of named records). For every non-empty
message `m` whose records have TNF NfcForumWellKnown, Mime, Uri or
ExternalWellKnown with a type name and an id of at most 255 bytes, and whose
encoding is below 2^31 bytes, `NDEFMessage::fromByteArray(m.toByteArray(), 0)`
returns `m`. The records built by `createTextRecord`, `createUriRecord`,
`createSmartPosterRecord`, the Sp sub-record builders, and `createMimeRecord`
with a MIME type of at most 255 characters, are such records. Decoding the
payload of `createSmartPosterRecord(uri, records)` as a message returns
`records` followed by the URI record. -/
theorem NDEFMessage.named_message_roundtrip :
    (∀ m : NDEFMessage, m.records ≠ [] → (∀ r ∈ m.records, r.Named) →
      m.toByteArray.length < 2 ^ 31 → NDEFMessage.fromByteArray m.toByteArray 0 = some m)
    ∧ ((∀ t l codec, (NDEFRecord.createTextRecord t l codec).Named)
      ∧ (∀ u, (NDEFRecord.createUriRecord u).Named)
      ∧ (∀ mime_type p, mime_type.length ≤ 255 →
          (NDEFRecord.createMimeRecord mime_type p).Named)
      ∧ (∀ u, (NDEFRecord.createSmartPosterRecord u).Named)
      ∧ (∀ u t l codec, (NDEFRecord.createSmartPosterRecordTitle u t l codec).Named)
      ∧ (∀ u rs, (NDEFRecord.createSmartPosterRecordList u rs).Named)
      ∧ (∀ a, (NDEFRecord.createSpActionRecord a).Named)
      ∧ (∀ n, (NDEFRecord.createSpSizeRecord n).Named)
      ∧ (∀ t, (NDEFRecord.createSpTypeRecord t).Named))
    ∧ (∀ (uri : QString) (records : List NDEFRecord), (∀ r ∈ records, r.Named) →
        (NDEFRecord.createSmartPosterRecordList uri records).payload.length < 2 ^ 31 →
        NDEFMessage.fromByteArray (NDEFRecord.createSmartPosterRecordList uri records).payload 0
          = some ⟨records ++ [NDEFRecord.createUriRecord uri]⟩) := by
  have hwk : ∀ (ty : NDEFRecordType) (p : QByteArray), ty.m_id = NDEF_NfcForumRTD →
      ty.m_name.length ≤ 255 →
      ((NDEFRecord.new.setType ty).setPayload p).Named := by
    intro ty p h1 h2
    rw [NDEFRecord.build_plain ty p (by rw [h1]; decide)]
    exact ⟨Or.inl h1, h2, by simp [NDEFRecord.id]⟩
  have huri : ∀ u, (NDEFRecord.createUriRecord u).Named :=
    fun u => hwk _ _ rfl (by decide)
  refine ⟨?_, ⟨?_, huri, ?_, ?_, ?_, ?_, ?_, ?_, ?_⟩, ?_⟩
  · intro m _ hn hlen
    exact NDEFMessage.fromByteArray_toByteArray_named m hn hlen
  · intro t l codec
    exact hwk _ _ rfl (by decide)
  · intro mime_type p hm
    unfold NDEFRecord.createMimeRecord
    rw [NDEFRecordType.new_eq _ _ (by intro h; cases h),
      NDEFRecord.build_plain _ p (by intro h; cases h)]
    exact ⟨Or.inr (Or.inl rfl), by simpa [NDEFRecord.type, NDEFRecordType.name,
      QString.toLatin1] using hm, by simp [NDEFRecord.id]⟩
  · intro u
    exact hwk _ _ rfl (by decide)
  · intro u t l codec
    exact hwk _ _ rfl (by decide)
  · intro u rs
    exact hwk _ _ rfl (by decide)
  · intro a
    exact hwk _ _ rfl (by decide)
  · intro n
    exact hwk _ _ rfl (by decide)
  · intro t
    exact hwk _ _ rfl (by decide)
  · intro uri records hn hlen
    rw [NDEFRecord.createSmartPosterRecordList_payload] at hlen ⊢
    apply NDEFMessage.fromByteArray_toByteArray_named _ _ hlen
    intro r hr
    rcases List.mem_append.mp hr with h | h
    · exact hn r h
    · rw [List.mem_singleton.mp h]
      exact huri uri

theorem NDEFMessage.named_message_roundtrip_witness :
    NDEFMessage.fromByteArray (NDEFMessage.toByteArray
        ⟨[NDEFRecord.createTextRecord (ascii "hi") (ascii "en") NDEF_UTF8,
          NDEFRecord.createUriRecord (ascii "http://a.b")]⟩) 0
      = some ⟨[NDEFRecord.createTextRecord (ascii "hi") (ascii "en") NDEF_UTF8,
          NDEFRecord.createUriRecord (ascii "http://a.b")]⟩ :=
  NDEFMessage.named_message_roundtrip.1
    ⟨[NDEFRecord.createTextRecord (ascii "hi") (ascii "en") NDEF_UTF8,
      NDEFRecord.createUriRecord (ascii "http://a.b")]⟩
    (by decide)
    (by
      intro r hr
      simp only [NDEFMessage.records, List.mem_cons, List.mem_singleton, List.not_mem_nil,
        or_false] at hr
      rcases hr with h | h
      · rw [h]; exact NDEFMessage.named_message_roundtrip.2.1.1 _ _ _
      · rw [h]; exact NDEFMessage.named_message_roundtrip.2.1.2.1 _)
    (by decide)

/-! ## Messages: termination and validity of the parser -/

theorem NDEFRecord.toByteArray_length_ge (r : NDEFRecord) (f : Nat)
    (h : r.m_type.m_id ≠ NDEF_Invalid) : 3 ≤ (r.toByteArray f).length := by
  cases ht : r.m_type.m_id
  case NDEF_Empty =>
    rw [r.emptyLayout_raw f ht]
    simp [writeU8]
  case NDEF_NfcForumRTD =>
    rw [r.namedLayout_raw f (Or.inl ht)]
    cases r.isShort <;> simp [writeU8, writeU32]
  case NDEF_MIME =>
    rw [r.namedLayout_raw f (Or.inr (Or.inl ht))]
    cases r.isShort <;> simp [writeU8, writeU32]
  case NDEF_URI =>
    rw [r.namedLayout_raw f (Or.inr (Or.inr (Or.inl ht)))]
    cases r.isShort <;> simp [writeU8, writeU32]
  case NDEF_ExternalRTD =>
    rw [r.namedLayout_raw f (Or.inr (Or.inr (Or.inr ht)))]
    cases r.isShort <;> simp [writeU8, writeU32]
  case NDEF_Unknown =>
    rw [r.unknownLayout_raw f (Or.inl ht)]
    simp [writeU8, writeU32]
  case NDEF_Unchanged =>
    rw [r.unknownLayout_raw f (Or.inr ht)]
    simp [writeU8, writeU32]
  case NDEF_Invalid => exact absurd ht h

theorem NDEFRecord.fromByteArray_valid_length (buffer : QByteArray)
    (h : (NDEFRecord.fromByteArray buffer 0).m_type.m_id ≠ NDEF_Invalid) :
    3 ≤ buffer.length := by
  by_contra hlt
  apply h
  rw [NDEFRecord.fromByteArray_type_invalid_iff]
  have h1 : toUnsigned 32 ((buffer.length : Int) - 0) = buffer.length := by
    rw [Int.sub_zero, toUnsigned_natCast 32 _ (by omega)]
  unfold NDEFRecordType.fromByteArray
  simp only [h1]
  rw [if_neg (by omega)]
  rfl

theorem NDEFMessage.parseLoop_total :
    ∀ (fuel : Nat) (buffer : QByteArray) (msg : NDEFMessage), buffer.length < fuel →
      ∃ extra, NDEFMessage.fromByteArrayLoop fuel buffer msg = some ⟨msg.m_records ++ extra⟩
        ∧ 3 * extra.length ≤ buffer.length
        ∧ (∀ r ∈ extra, r.m_type.m_id ≠ NDEF_Invalid)
        ∧ (extra = [] ↔
            (buffer = [] ∨ (NDEFRecord.fromByteArray buffer 0).m_type.m_id = NDEF_Invalid)) := by
  intro fuel
  induction fuel with
  | zero => intro buffer msg h; omega
  | succ fuel ih =>
    intro buffer msg hfuel
    rw [NDEFMessage.fromByteArrayLoop]
    by_cases he : buffer = []
    · subst he
      exact ⟨[], by simp, by simp, by simp, by simp⟩
    · have hne : buffer.isEmpty = false := by
        cases buffer with
        | nil => exact absurd rfl he
        | cons _ _ => rfl
      simp only [hne, Bool.false_eq_true, if_false, NDEFRecord.type, NDEFRecordType.id]
      by_cases hv : (NDEFRecord.fromByteArray buffer 0).m_type.m_id = NDEF_Invalid
      · rw [if_pos hv]
        exact ⟨[], by simp, by simp, by simp, by simp [hv]⟩
      · rw [if_neg hv]
        have h3 := NDEFRecord.fromByteArray_valid_length buffer hv
        have hn := NDEFRecord.toByteArray_length_ge (NDEFRecord.fromByteArray buffer 0) 0 hv
        have hdrop : (QByteArray.remove0 buffer
            ((NDEFRecord.fromByteArray buffer 0).toByteArray 0).length).length
            = buffer.length - ((NDEFRecord.fromByteArray buffer 0).toByteArray 0).length := by
          simp [QByteArray.remove0]
        obtain ⟨extra, hres, hcount, hvalid, _⟩ := ih
          (QByteArray.remove0 buffer ((NDEFRecord.fromByteArray buffer 0).toByteArray 0).length)
          (msg.appendRecord (NDEFRecord.fromByteArray buffer 0)) (by rw [hdrop]; omega)
        refine ⟨NDEFRecord.fromByteArray buffer 0 :: extra, ?_, ?_, ?_, ?_⟩
        · rw [hres]
          simp [NDEFMessage.appendRecord]
        · rw [hdrop] at hcount
          simp only [List.length_cons]
          omega
        · intro r hr
          rcases List.mem_cons.mp hr with h | h
          · rw [h]; exact hv
          · exact hvalid r h
        · simp [he, hv]

theorem QByteArray.right_length_le (a : QByteArray) (len : Int) :
    (QByteArray.right a len).length ≤ a.length := by
  unfold QByteArray.right
  split_ifs
  · exact le_refl _
  · simp
  · simp

/-- Claim C33 (the message parser terminates). For every buffer and offset,
`NDEFMessage::fromByteArray` returns a message, and three times the number of
its records is at most `len data`. In every iteration that parses a record of
TNF other than Invalid, the record encodes to at least 3 bytes and the call
`buffer.remove(0, ...)` takes at least 3 bytes from the buffer. -/
theorem NDEFMessage.fromByteArray_terminates (data : QByteArray) (offset : Int) :
    (∃ msg, NDEFMessage.fromByteArray data offset = some msg
      ∧ 3 * msg.recordCount ≤ data.length)
    ∧ (∀ buffer : QByteArray, (NDEFRecord.fromByteArray buffer 0).type.id ≠ NDEF_Invalid →
        3 ≤ ((NDEFRecord.fromByteArray buffer 0).toByteArray 0).length
        ∧ 3 ≤ (buffer.length
            - (QByteArray.remove0 buffer
                ((NDEFRecord.fromByteArray buffer 0).toByteArray 0).length).length)) := by
  constructor
  · unfold NDEFMessage.fromByteArray
    obtain ⟨extra, hres, hcount, _, _⟩ := NDEFMessage.parseLoop_total
      ((QByteArray.right data ((data.length : Int) - offset)).length + 1)
      (QByteArray.right data ((data.length : Int) - offset)) NDEFMessage.new (Nat.lt_succ_self _)
    refine ⟨_, hres, ?_⟩
    have hle := QByteArray.right_length_le data ((data.length : Int) - offset)
    simp only [NDEFMessage.recordCount, NDEFMessage.new, List.nil_append]
    omega
  · intro buffer hv
    have h3 := NDEFRecord.fromByteArray_valid_length buffer hv
    have hn := NDEFRecord.toByteArray_length_ge (NDEFRecord.fromByteArray buffer 0) 0 hv
    refine ⟨hn, ?_⟩
    simp only [QByteArray.remove0, List.length_drop]
    omega

/-- Claim C37 (validity of a parsed message). For every buffer below 2^31 bytes,
`NDEFMessage::fromByteArray(data, 0)` returns a message all of whose records
have a TNF other than Invalid; its `isValid()` holds if and only if it has at
least one record, which is the case if and only if `data` has at least 3 bytes
and the low three bits of its first byte are not 7. -/
theorem NDEFMessage.fromByteArray_valid_iff (data : QByteArray) (hlen : data.length < 2 ^ 31) :
    ∃ msg, NDEFMessage.fromByteArray data 0 = some msg
      ∧ (∀ r ∈ msg.records, r.type.id ≠ NDEF_Invalid)
      ∧ (msg.isValid = true ↔ 1 ≤ msg.recordCount)
      ∧ (1 ≤ msg.recordCount ↔ (3 ≤ data.length ∧ ∃ b, data.get? 0 = some b ∧ b % 8 ≠ 7)) := by
  obtain ⟨extra, hres, _, hvalid, hnil⟩ := NDEFMessage.parseLoop_total
    (data.length + 1) data NDEFMessage.new (Nat.lt_succ_self _)
  have hfirst : (NDEFRecord.fromByteArray data 0).m_type.m_id = NDEF_Invalid
      ↔ (data.length < 3 ∨ ∃ b, data.get? 0 = some b ∧ b % 8 = 7) := by
    have hid := NDEFRecordType.fromByteArray_id data 0 (Nat.zero_le _) hlen
    have hcast : (NDEFRecord.fromByteArray data 0) = NDEFRecord.fromByteArray data ((0 : Nat) : Int) :=
      rfl
    rw [hcast, NDEFRecord.fromByteArray_type_invalid_iff, hid]
    by_cases h3 : data.length - 0 < 3
    · have : data.length < 3 := by omega
      simp [h3, this]
    · cases data with
      | nil => simp at h3
      | cons b rest =>
        have hand : b &&& 0x07 = b % 8 := Nat.and_pow_two_sub_one_eq_mod _ 3
        have h3' : ¬ (b :: rest).length < 3 := by omega
        simp only [h3, h3', if_false, false_or, List.drop_zero, readU8, List.get?_cons_zero,
          Option.some.injEq, exists_eq_left', NDEFRecordTypeId.ofTnf_invalid_iff, hand,
          Nat.mod_mod]
  refine ⟨⟨NDEFMessage.new.m_records ++ extra⟩, ?_, ?_, ?_, ?_⟩
  · unfold NDEFMessage.fromByteArray
    simp only [Int.sub_zero, QByteArray.right_length]
    exact hres
  · intro r hr
    simp only [NDEFMessage.records, NDEFMessage.new, List.nil_append] at hr
    exact hvalid r hr
  · simp only [NDEFMessage.new, List.nil_append, NDEFMessage.recordCount]
    cases hx : extra with
    | nil => simp [NDEFMessage.isValid]
    | cons r rs =>
      simp only [NDEFMessage.isValid, NDEFMessage.records, List.isEmpty_cons, Bool.false_eq_true,
        if_false, NDEFMessage.isValidLoop_iff, List.length_cons]
      constructor
      · intro _; omega
      · intro _ x hxm
        exact hvalid x (by rw [hx]; exact hxm)
  · simp only [NDEFMessage.new, List.nil_append, NDEFMessage.recordCount]
    have h1 : 1 ≤ extra.length ↔ ¬ extra = [] := by
      cases extra <;> simp
    rw [h1, hnil, hfirst]
    constructor
    · intro h
      have hne : data ≠ [] := fun he => h (Or.inl he)
      have hge : ¬ data.length < 3 := fun hl => h (Or.inr (Or.inl hl))
      refine ⟨by omega, ?_⟩
      cases data with
      | nil => exact absurd rfl hne
      | cons b rest =>
        refine ⟨b, rfl, ?_⟩
        intro hb
        exact h (Or.inr (Or.inr ⟨b, rfl, hb⟩))
    · rintro ⟨hge, b, hb, hb7⟩ h
      rcases h with h | h | ⟨b2, hb2, h7⟩
      · rw [h] at hge; simp at hge
      · omega
      · rw [hb] at hb2
        cases hb2
        exact hb7 h7

theorem NDEFMessage.fromByteArray_valid_iff_witness :
    ∃ msg, NDEFMessage.fromByteArray [0xD1, 0x01, 0x05, 0x54, 0x02] 0 = some msg
      ∧ (∀ r ∈ msg.records, r.type.id ≠ NDEF_Invalid)
      ∧ (msg.isValid = true ↔ 1 ≤ msg.recordCount)
      ∧ (1 ≤ msg.recordCount ↔ (3 ≤ [0xD1, 0x01, 0x05, 0x54, 0x02].length
          ∧ ∃ b, [0xD1, 0x01, 0x05, 0x54, 0x02].get? 0 = some b ∧ b % 8 ≠ 7)) :=
  NDEFMessage.fromByteArray_valid_iff [0xD1, 0x01, 0x05, 0x54, 0x02] (by decide)

/-! ## Generic Control records: header bytes; cursor advance -/

theorem gcSubRecord_head (nm p : QByteArray) :
    (gcSubRecord ⟨NDEF_NfcForumRTD, nm⟩ p).head?
      = some (if p.length < 256 then 0xD1 else 0xC1) := by
  unfold gcSubRecord
  rw [NDEFRecord.namedLayout_raw _ _ (Or.inl rfl)]
  have hh : NDEFRecord.headerByte ⟨⟨NDEF_NfcForumRTD, nm⟩, [], p, false⟩ (NDEF_MB ||| NDEF_ME)
      = (if p.length < 256 then 0xD1 else 0xC1) := by
    unfold NDEFRecord.headerByte NDEFRecord.flags NDEFRecord.isShort
    by_cases h : p.length < 256
    · simp only [h, decide_True, NDEFRecord.isChuncked, NDEFRecordType.id, List.length_nil,
        gt_iff_lt, Nat.lt_irrefl, if_true, if_false, Bool.false_eq_true]
      decide
    · simp only [h, decide_False, NDEFRecord.isChuncked, NDEFRecordType.id, List.length_nil,
        gt_iff_lt, Nat.lt_irrefl, if_true, if_false, Bool.false_eq_true]
      decide
  rw [hh]
  simp only [List.append_assoc, List.singleton_append, List.cons_append, List.head?_cons]

/-- Claim C36 (header byte of the Generic Control sub-records). For every config
byte, Text or URI target, action and data, the outer payload is the config byte
followed by the sub-records `"t"`, `"a"` (when written) and `"d"` (when
written), each encoded with `MB | ME`; a sub-record begins with `0xD1` when its
payload has fewer than 256 bytes and with `0xC1` (SR clear) otherwise; the
`"a"` sub-record of an action code always begins with `0xD1`. -/
theorem NDEFRecord.createGenericControlRecord_headers (c a : Nat) (t d r : NDEFRecord)
    (ht : t.type = NDEFRecordType.textRecordType ∨ t.type = NDEFRecordType.uriRecordType) :
    ((NDEFRecord.createGenericControlRecord c t a d).payload
        = writeU8 c
          ++ gcSubRecord NDEFRecordType.gcTargetRecordType (t.toByteArray (NDEF_MB ||| NDEF_ME))
          ++ gcSubRecord NDEFRecordType.gcActionRecordType (writeU8 0x1 ++ writeU8 a)
          ++ (if d.isEmpty = true then []
              else gcSubRecord NDEFRecordType.gcDataRecordType
                (d.toByteArray (NDEF_MB ||| NDEF_ME))))
    ∧ ((NDEFRecord.createGenericControlRecordRecord c t r d).payload
        = writeU8 c
          ++ gcSubRecord NDEFRecordType.gcTargetRecordType (t.toByteArray (NDEF_MB ||| NDEF_ME))
          ++ (if r.isEmpty = true then []
              else gcSubRecord NDEFRecordType.gcActionRecordType
                (writeU8 0x0 ++ r.toByteArray (NDEF_MB ||| NDEF_ME)))
          ++ (if d.isEmpty = true then []
              else gcSubRecord NDEFRecordType.gcDataRecordType
                (d.toByteArray (NDEF_MB ||| NDEF_ME))))
    ∧ (∀ p : QByteArray,
        (gcSubRecord NDEFRecordType.gcTargetRecordType p).head?
            = some (if p.length < 256 then 0xD1 else 0xC1)
        ∧ (gcSubRecord NDEFRecordType.gcActionRecordType p).head?
            = some (if p.length < 256 then 0xD1 else 0xC1)
        ∧ (gcSubRecord NDEFRecordType.gcDataRecordType p).head?
            = some (if p.length < 256 then 0xD1 else 0xC1))
    ∧ (gcSubRecord NDEFRecordType.gcActionRecordType (writeU8 0x1 ++ writeU8 a)).head?
        = some 0xD1 := by
  refine ⟨?_, ?_, ?_, ?_⟩
  · rw [NDEFRecord.createGenericControlRecord_eq c a t d ht]
    rfl
  · rw [NDEFRecord.createGenericControlRecordRecord_eq c t r d ht]
    rfl
  · intro p
    exact ⟨gcSubRecord_head _ p, gcSubRecord_head _ p, gcSubRecord_head _ p⟩
  · have h := gcSubRecord_head (ascii "a") (writeU8 0x1 ++ writeU8 a)
    have hl : (writeU8 0x1 ++ writeU8 a).length < 256 := by simp [writeU8]
    rw [if_pos hl] at h
    exact h

theorem NDEFRecord.createGenericControlRecord_headers_witness :
    (gcSubRecord NDEFRecordType.gcTargetRecordType
        ((NDEFRecord.createUriRecord (ascii "http://a.b")).toByteArray (NDEF_MB ||| NDEF_ME))).head?
      = some 0xD1 := by
  have h := ((NDEFRecord.createGenericControlRecord_headers 0 0
    (NDEFRecord.createUriRecord (ascii "http://a.b")) NDEFRecord.new NDEFRecord.new
    (Or.inr (by decide))).2.2.1
    ((NDEFRecord.createUriRecord (ascii "http://a.b")).toByteArray (NDEF_MB ||| NDEF_ME))).1
  rw [h]
  decide

set_option maxRecDepth 100000 in
theorem NDEFRecord.createGenericControlRecord_headers_counterexample :
    (NDEFRecord.createTextRecord (List.replicate 252 0x41) (ascii "en") NDEF_UTF8).type
      = NDEFRecordType.textRecordType
    ∧ (NDEFRecord.createGenericControlRecord 0
        (NDEFRecord.createTextRecord (List.replicate 252 0x41) (ascii "en") NDEF_UTF8) 0
        NDEFRecord.new).payload.get? 1 = some 0xC1 := by
  decide

/-- Claim C34 (cursor advance on a non-canonical record). The stream made of
`81 01 00 00 00 01 54 41` (a `"T"` record with payload `41`, written with a
4-byte payload length, SR clear) followed by the encoding `51 01 01 55 42` of
the `"U"` record with payload `42`: the first record is parsed, its
re-serialization has 5 bytes while it occupies 8, so the parser goes on at
offset 5 and the second record it returns is not the `"U"` record. -/
theorem NDEFMessage.fromByteArray_short_advance :
    ∃ (first : QByteArray) (r1 r2 : NDEFRecord),
      first = [0x81, 0x01] ++ writeU32 1 ++ [0x54] ++ [0x41]
      ∧ r1 = ⟨⟨NDEF_NfcForumRTD, [0x54]⟩, [], [0x41], false⟩
      ∧ r2 = ⟨⟨NDEF_NfcForumRTD, [0x55]⟩, [], [0x42], false⟩
      ∧ NDEFRecord.fromByteArray first 0 = r1
      ∧ r1.payload.length < 256
      ∧ NDEFRecord.fromByteArray (r2.toByteArray NDEF_ME) 0 = r2
      ∧ (r1.toByteArray 0).length < first.length
      ∧ ∃ m, NDEFMessage.fromByteArray (first ++ r2.toByteArray NDEF_ME) 0 = some m
        ∧ m.records.get? 0 = some r1
        ∧ m.records.get? 1
          = some (NDEFRecord.fromByteArray ((first ++ r2.toByteArray NDEF_ME).drop 5) 0)
        ∧ m.records.get? 1 ≠ some r2 := by
  refine ⟨[0x81, 0x01, 0x00, 0x00, 0x00, 0x01, 0x54, 0x41],
    ⟨⟨NDEF_NfcForumRTD, [0x54]⟩, [], [0x41], false⟩,
    ⟨⟨NDEF_NfcForumRTD, [0x55]⟩, [], [0x42], false⟩, by decide, rfl, rfl, by decide, by decide,
    by decide, by decide, ?_⟩
  refine ⟨_, rfl, ?_⟩
  decide

end LibNdef
